import Mathlib

/-!
# collab-draw: the operation log of the collaboration core

A shallow embedding of `packages/api/internal/repository/operation.go`
(`ApplyOps`, `applyOpsToElements`, `ReconstructStateAt`, `GetOpsSince`,
`GetOpsRange`) together with the document types of
`packages/api/internal/models/project.go`, and of the subscription hub of
`packages/api/graph/resolvers/resolver.go`.

Modelling conventions

* The two MongoDB collections are lists in insertion order (`Store`).
* Driver failures and wall-clock readings are inputs (`Env`).
* Go integers (`int32`, `int`, `int64`) are `Int`; the code performs no
  arithmetic that can leave the `int64` range while `head_seq` is in range.
* A Go string that is handed to `encoding/json` is a `JsonText`: the value
  the decoder sees rather than the characters.  `json.Marshal` followed by
  `json.Unmarshal` is the identity on decoded values, which is how the
  library behaves on `map[string]interface{}` values that came out of
  `json.Unmarshal`.
* A Go `map` is a function into `Option`; a nil `map[string]interface{}` is
  `none : GoMap`.  Writing into a nil map panics, so the forward-apply steps
  return `Option` and the entry points return an `Outcome`.
* The `_id` of an operation document is assigned by the driver at insert
  time and never read; the field is left out.
* A Go channel is a value, its capacity and its queue (`Chan`); every
  subscriber record has a channel of its own, and the channel an unsubscribe
  closes is returned by the function.  The hub methods run under the mutex
  of the resolver, so each is one step on the registries.
-/

namespace CollabDraw

/-! ## JSON values -/

/-- A value stored under a key of a decoded JSON object (`interface{}`).
Arrays and objects nested inside an element are never inspected by the
code and are kept as their text. -/
inductive JVal where
  | null : JVal
  | bool (b : Bool) : JVal
  | num (m e : Int) : JVal
  | str (s : String) : JVal
  | nested (text : String) : JVal
  deriving DecidableEq, Repr

/-- A decoded JSON object: a non-nil `map[string]interface{}`, as the list of
its bindings.  The keys of a decoded object are pairwise distinct; a key is
read at its first binding. -/
abbrev JObject := List (String × JVal)

/-- A Go value of type `map[string]interface{}`; `none` is the nil map. -/
abbrev GoMap := Option JObject

/-- What `encoding/json` sees in a string.  `raw s` stands for every text
that is neither `null`, nor an object, nor an array made of objects and
nulls: decoding it fails for both targets used in the repository.  The
empty string is `raw ""`. -/
inductive JsonText where
  | raw (s : String) : JsonText
  | null : JsonText
  | object (fields : JObject) : JsonText
  | array (items : List GoMap) : JsonText
  deriving DecidableEq, Repr

/-- Reading a key: `m[k]` on a possibly nil map. -/
def GoMap.get (m : GoMap) (k : String) : Option JVal :=
  match m with
  | none => none
  | some o => o.lookup k

/-- The type assertion `el[k].(string)`. -/
def GoMap.getString (m : GoMap) (k : String) : Option String :=
  match m.get k with
  | some (JVal.str s) => some s
  | _ => none

/-- Assignment `o[k] = v` on a non-nil map. -/
def JObject.set : JObject → String → JVal → JObject
  | [], k, v => [(k, v)]
  | (k', v') :: rest, k, v =>
    if k' = k then (k, v) :: rest else (k', v') :: JObject.set rest k v

/-- Decoding with `json.Unmarshal` into a fresh `map[string]interface{}`:
`none` is a decoding error, `some none` is the nil map left by `null`. -/
def unmarshalObject : JsonText → Option GoMap
  | .null => some none
  | .object o => some (some o)
  | _ => none

/-- Decoding with `json.Unmarshal` into a fresh `[]map[string]interface{}`;
`none` is a decoding error. -/
def unmarshalElements : JsonText → Option (List GoMap)
  | .null => some []
  | .array items => some items
  | _ => none

/-- Encoding of a `[]map[string]interface{}` with `json.Marshal`: a slice
that was never appended to is nil and encodes as `null`. -/
def marshalElements (els : List GoMap) : JsonText :=
  if els = [] then .null else .array els

/-! ## Documents -/

/-- A `bson.ObjectID`, kept as its lower-case hexadecimal text. -/
structure ObjectID where
  hex : String
  deriving DecidableEq, Repr

def isHexDigit (c : Char) : Bool :=
  (decide ('0' ≤ c) && decide (c ≤ '9')) ||
  (decide ('a' ≤ c) && decide (c ≤ 'f')) ||
  (decide ('A' ≤ c) && decide (c ≤ 'F'))

/-- Parsing of a project id: 24 hexadecimal digits. -/
def ObjectIDFromHex (s : String) : Option ObjectID :=
  if s.data.length = 24 ∧ s.data.all isHexDigit = true then
    some ⟨String.mk (s.data.map Char.toLower)⟩
  else none

structure Project where
  ID : ObjectID
  Name : String
  Description : String
  Owner : String
  Members : List String
  Workspace : Option ObjectID
  Personal : Bool
  Elements : JsonText
  HeadSeq : Int
  CreatedAt : String
  UpdatedAt : String
  deriving DecidableEq, Repr

structure Operation where
  ProjectID : ObjectID
  Seq : Int
  ClientSeq : Int
  SocketID : String
  OpType : String
  ElementID : String
  ElementVer : Int
  BaseSeq : Int
  Data : Option JsonText
  Timestamp : String
  deriving DecidableEq, Repr

structure OpInput where
  ClientSeq : Int
  OpType : String
  ElementID : String
  ElementVer : Int
  BaseSeq : Int
  Data : Option JsonText
  deriving DecidableEq, Repr

structure RejectedOp where
  ClientSeq : Int
  ElementID : String
  Reason : String
  deriving DecidableEq, Repr

structure ApplyOpsResult where
  Ack : Bool
  ServerSeq : Int
  Rejected : List RejectedOp
  Accepted : List Operation
  deriving DecidableEq, Repr

/-- The two collections, each in insertion order. -/
structure Store where
  projects : List Project
  operations : List Operation
  deriving DecidableEq, Repr

/-- What the driver reports when a call fails. -/
inductive StorageErr where
  | noDocuments : StorageErr
  | failure : StorageErr
  deriving DecidableEq, Repr

/-- The errors returned by the repository. -/
inductive Err where
  | invalidProjectID : Err
  | claimFailed (cause : StorageErr) : Err
  | insertFailed : Err
  | invalidHex : Err
  | storage : Err
  deriving DecidableEq, Repr

/-- How a call ends: it returns a value, returns an error, or panics. -/
inductive Outcome (α : Type) where
  | ok (a : α) : Outcome α
  | error (e : Err) : Outcome α
  | panic : Outcome α
  deriving DecidableEq, Repr

/-- The environment of one `ApplyOps` call: which driver calls fail and
what the clock reads.  `insertFault = some k` makes `InsertMany` fail after
it has written the first `k` documents. -/
structure Env where
  claimFault : Bool
  aggregateFault : Bool
  cursorFault : Bool
  insertFault : Option Nat
  findFault : Bool
  updateFault : Bool
  now : String
  opTime : Nat → String
  snapshotTime : String

/-- No driver call fails. -/
def Env.faultFree (env : Env) : Prop :=
  env.claimFault = false ∧ env.aggregateFault = false ∧ env.cursorFault = false ∧
  env.insertFault = none ∧ env.findFault = false ∧ env.updateFault = false

/-- An environment without failures and with a constant clock. -/
def Env.quiet : Env :=
  { claimFault := false, aggregateFault := false, cursorFault := false,
    insertFault := none, findFault := false, updateFault := false,
    now := "t", opTime := fun _ => "t", snapshotTime := "t" }

/-! ## Sequence claim -/

/-- The filter of the claim: `_id` matches and the user is the owner or a
member. -/
def matchesClaim (projID : ObjectID) (userID : String) (p : Project) : Bool :=
  decide (p.ID = projID) && (decide (p.Owner = userID) || decide (userID ∈ p.Members))

/-- `FindOneAndUpdate` with `$inc head_seq` and `$set updated_at`, returning
the document after the update together with the new collection. -/
def findOneAndUpdate (projID : ObjectID) (userID : String) (batchSize : Int) (now : String) :
    List Project → Option (Project × List Project)
  | [] => none
  | p :: ps =>
    if matchesClaim projID userID p = true then
      let q : Project := { p with HeadSeq := p.HeadSeq + batchSize, UpdatedAt := now }
      some (q, q :: ps)
    else
      match findOneAndUpdate projID userID batchSize now ps with
      | some (q, ps') => some (q, p :: ps')
      | none => none

/-! ## Conflict detection -/

structure LatestInfo where
  Seq : Int
  ElementVer : Int
  OpType : String
  deriving DecidableEq, Repr

/-- A row of the aggregation result. -/
structure LatestRow where
  ElementID : String
  LatestSeq : Int
  ElementVer : Int
  OpType : String
  deriving DecidableEq, Repr

/-- The `$sort {seq: -1}` stage. -/
def sortSeqDesc (ops : List Operation) : List Operation :=
  ops.insertionSort (fun a b => a.Seq ≥ b.Seq)

/-- The `$group` stage with `$first`: one row per element id, taken from the
first document of that element. -/
def groupFirst (ops : List Operation) : List LatestRow :=
  ops.foldl
    (fun rows o =>
      if rows.any (fun r => r.ElementID == o.ElementID) then rows
      else rows ++ [⟨o.ElementID, o.Seq, o.ElementVer, o.OpType⟩])
    []

/-- The aggregation pipeline: `$match`, `$sort`, `$group`. -/
def aggregateLatest (ops : List Operation) (projID : ObjectID) (elementIDs : List String) :
    List LatestRow :=
  groupFirst (sortSeqDesc
    (ops.filter (fun o => decide (o.ProjectID = projID) && decide (o.ElementID ∈ elementIDs))))

/-- Assignment `m[k] = v` on a Go map. -/
def mapSet {β : Type} (m : String → Option β) (k : String) (v : β) : String → Option β :=
  fun x => if x = k then some v else m x

/-- The map `latestOps` as it stands before the loop over the batch.  It stays
empty when `Aggregate` fails and when `cursor.All` fails; `cursorFault` stands
for every failure of `cursor.All`, the failure to decode a row included (a
stored `element_ver` that does not fit the `int32` field of the row: no record
written by `ApplyOps` has one, its `element_ver` being converted from an
`int32`). -/
def readLatest (env : Env) (operations : List Operation) (projID : ObjectID)
    (ops : List OpInput) : String → Option LatestInfo :=
  let elementIDs := ops.map (fun op => op.ElementID)
  if elementIDs.length > 0 then
    if env.aggregateFault = false then
      if env.cursorFault = false then
        (aggregateLatest operations projID elementIDs).foldl
          (fun m res => mapSet m res.ElementID ⟨res.LatestSeq, res.ElementVer, res.OpType⟩)
          (fun _ => none)
      else fun _ => none
    else fun _ => none
  else fun _ => none

/-- The variables the loop over the batch updates. -/
structure LoopState where
  latestOps : String → Option LatestInfo
  rejected : List RejectedOp
  acceptedOps : List Operation

/-- The reason string of a rejection. -/
def rejectReason (latest : LatestInfo) (op : OpInput) : String :=
  "element modified at seq " ++ toString latest.Seq ++ " (ver " ++ toString latest.ElementVer ++
    "), your base was seq " ++ toString op.BaseSeq ++ " (ver " ++ toString op.ElementVer ++ ")"

def mkRejected (latest : LatestInfo) (op : OpInput) : RejectedOp :=
  { ClientSeq := op.ClientSeq, ElementID := op.ElementID, Reason := rejectReason latest op }

def mkOperation (projID : ObjectID) (socketID : String) (seq : Int) (now : String)
    (op : OpInput) : Operation :=
  { ProjectID := projID, Seq := seq, ClientSeq := op.ClientSeq, SocketID := socketID,
    OpType := op.OpType, ElementID := op.ElementID, ElementVer := op.ElementVer,
    BaseSeq := op.BaseSeq, Data := op.Data, Timestamp := now }

/-- The accepting branch of the loop body. -/
def acceptOp (projID : ObjectID) (socketID : String) (env : Env) (st : LoopState)
    (i : Nat) (seq : Int) (op : OpInput) : LoopState :=
  { latestOps := mapSet st.latestOps op.ElementID ⟨seq, op.ElementVer, op.OpType⟩,
    rejected := st.rejected,
    acceptedOps := st.acceptedOps ++ [mkOperation projID socketID seq (env.opTime i) op] }

/-- One iteration of `for i, op := range ops`. -/
def processOp (projID : ObjectID) (socketID : String) (env : Env) (startSeq : Int)
    (st : LoopState) (i : Nat) (op : OpInput) : LoopState :=
  let seq := startSeq + (i : Int)
  match st.latestOps op.ElementID with
  | some latest =>
    if latest.Seq > op.BaseSeq ∧ op.ElementVer ≤ latest.ElementVer then
      { st with rejected := st.rejected ++ [mkRejected latest op] }
    else acceptOp projID socketID env st i seq op
  | none => acceptOp projID socketID env st i seq op

/-- The loop over the batch, from index `i`. -/
def processOps (projID : ObjectID) (socketID : String) (env : Env) (startSeq : Int) :
    Nat → List OpInput → LoopState → LoopState
  | _, [], st => st
  | i, op :: rest, st =>
    processOps projID socketID env startSeq (i + 1) rest
      (processOp projID socketID env startSeq st i op)

/-! ## Forward application -/

/-- The element map and the insertion order kept next to it. -/
structure ElemState where
  elementMap : String → Option GoMap
  elementOrder : List String

def ElemState.empty : ElemState :=
  { elementMap := fun _ => none, elementOrder := [] }

/-- The body shared by the `ADD` and `UPDATE` cases. -/
def applyData (st : ElemState) (op : Operation) : ElemState :=
  match op.Data with
  | some d =>
    match unmarshalObject d with
    | some elData =>
      { elementMap := mapSet st.elementMap op.ElementID elData,
        elementOrder :=
          if (st.elementMap op.ElementID).isSome then st.elementOrder
          else st.elementOrder ++ [op.ElementID] }
    | none => st
  | none => st

/-- The `DELETE` case; `none` is the panic of a write into a nil map. -/
def applyDelete (st : ElemState) (op : Operation) : Option ElemState :=
  match st.elementMap op.ElementID with
  | some el =>
    match el with
    | some o =>
      some { st with
        elementMap := mapSet st.elementMap op.ElementID (some (o.set "isDeleted" (JVal.bool true))) }
    | none => none
  | none => some st

/-- The switch of `applyOpsToElements`. -/
def applyOpMaterializer (st : ElemState) (op : Operation) : Option ElemState :=
  if op.OpType = "ADD" then some (applyData st op)
  else if op.OpType = "UPDATE" then some (applyData st op)
  else if op.OpType = "DELETE" then applyDelete st op
  else some st

/-- The switch of `ReconstructStateAt`. -/
def applyOpReconstruct (st : ElemState) (op : Operation) : Option ElemState :=
  if op.OpType = "ADD" ∨ op.OpType = "UPDATE" then some (applyData st op)
  else if op.OpType = "DELETE" then applyDelete st op
  else some st

/-- A loop over operations with a body that may panic. -/
def applyAll (step : ElemState → Operation → Option ElemState) :
    ElemState → List Operation → Option ElemState
  | st, [] => some st
  | st, op :: rest =>
    match step st op with
    | some st' => applyAll step st' rest
    | none => none

/-- The loop that rebuilds the element array in order. -/
def collectElements (st : ElemState) : List GoMap :=
  st.elementOrder.filterMap st.elementMap

/-- The loop of `applyOpsToElements` that indexes the stored elements by
their `id` field. -/
def loadElements (elements : List GoMap) : ElemState :=
  elements.foldl
    (fun st el =>
      match el.getString "id" with
      | some id =>
        { elementMap := mapSet st.elementMap id el, elementOrder := st.elementOrder ++ [id] }
      | none => st)
    ElemState.empty

/-- The elements decoded from the stored snapshot at the start of
`applyOpsToElements`. -/
def parseSnapshot (text : JsonText) : List GoMap :=
  if text ≠ JsonText.raw "" then
    match unmarshalElements text with
    | some els => els
    | none => []
  else []

/-- `UpdateOne` on the project with the given `_id`. -/
def updateElements (projID : ObjectID) (text : JsonText) (now : String) :
    List Project → List Project
  | [] => []
  | p :: ps =>
    if p.ID = projID then { p with Elements := text, UpdatedAt := now } :: ps
    else p :: updateElements projID text now ps

/-- Result of `applyOpsToElements`: the new collection, an error, or a
panic. -/
def applyOpsToElements (env : Env) (projects : List Project) (projID : ObjectID)
    (ops : List Operation) : Outcome (List Project) :=
  if env.findFault = true then .error .storage
  else
    match projects.find? (fun p => decide (p.ID = projID)) with
    | none => .error .storage
    | some project =>
      match applyAll applyOpMaterializer (loadElements (parseSnapshot project.Elements)) ops with
      | none => .panic
      | some st =>
        let elemBytes := marshalElements (collectElements st)
        if env.updateFault = true then .error .storage
        else .ok (updateElements projID elemBytes env.snapshotTime projects)

/-! ## ApplyOps -/

/-- The method `operationRepository.ApplyOps`: the outcome of the call and
the store it leaves behind. -/
def ApplyOps (env : Env) (s : Store) (projectID socketID : String) (ops : List OpInput)
    (userID : String) : Outcome ApplyOpsResult × Store :=
  match ObjectIDFromHex projectID with
  | none => (.error .invalidProjectID, s)
  | some projID =>
    let batchSize : Int := ops.length
    if batchSize = 0 then
      (.ok { Ack := true, ServerSeq := 0, Rejected := [], Accepted := [] }, s)
    else if env.claimFault = true then (.error (.claimFailed .failure), s)
    else
      match findOneAndUpdate projID userID batchSize env.now s.projects with
      | none => (.error (.claimFailed .noDocuments), s)
      | some (updatedProject, projects1) =>
        let startSeq := updatedProject.HeadSeq - batchSize + 1
        let latestOps := readLatest env s.operations projID ops
        let fin := processOps projID socketID env startSeq 0 ops
          { latestOps := latestOps, rejected := [], acceptedOps := [] }
        let acceptedOps := fin.acceptedOps
        if acceptedOps.length > 0 then
          match env.insertFault with
          | some k =>
            (.error .insertFailed,
              { projects := projects1, operations := s.operations ++ acceptedOps.take k })
          | none =>
            let operations1 := s.operations ++ acceptedOps
            match applyOpsToElements env projects1 projID acceptedOps with
            | .panic => (.panic, { projects := projects1, operations := operations1 })
            | .error _ =>
              (.ok { Ack := true, ServerSeq := updatedProject.HeadSeq,
                     Rejected := fin.rejected, Accepted := acceptedOps },
                { projects := projects1, operations := operations1 })
            | .ok projects2 =>
              (.ok { Ack := true, ServerSeq := updatedProject.HeadSeq,
                     Rejected := fin.rejected, Accepted := acceptedOps },
                { projects := projects2, operations := operations1 })
        else
          (.ok { Ack := true, ServerSeq := updatedProject.HeadSeq,
                 Rejected := fin.rejected, Accepted := acceptedOps },
            { projects := projects1, operations := s.operations })

/-! ## ReconstructStateAt -/

/-- Which driver calls of a read fail. -/
structure QueryEnv where
  findFault : Bool
  cursorFault : Bool

/-- `Find` with the filter `project_id = projID, seq <= target` and the sort
`seq` ascending. -/
def findUpTo (operations : List Operation) (projID : ObjectID) (seq : Int) : List Operation :=
  (operations.filter (fun o => decide (o.ProjectID = projID) && decide (o.Seq ≤ seq))).insertionSort
    (fun a b => a.Seq ≤ b.Seq)

/-- The values `ReconstructStateAt` returns next to the error. -/
structure Reconstructed where
  snapshot : JsonText
  lastSeq : Int
  lastTimestamp : String
  deriving DecidableEq, Repr

/-- The pair `lastSeq, lastTimestamp` after the loop over the operations. -/
def lastOf : List Operation → Int × String
  | [] => (0, "")
  | [op] => (op.Seq, op.Timestamp)
  | _ :: rest => lastOf rest

/-- The method `operationRepository.ReconstructStateAt`. -/
def ReconstructStateAt (q : QueryEnv) (s : Store) (projectID : String) (seq : Int)
    (_userID : String) : Outcome Reconstructed :=
  match ObjectIDFromHex projectID with
  | none => .error .invalidHex
  | some projID =>
    if q.findFault = true then .error .storage
    else if q.cursorFault = true then .error .storage
    else
      let ops := findUpTo s.operations projID seq
      match applyAll applyOpReconstruct ElemState.empty ops with
      | none => .panic
      | some st =>
        .ok { snapshot := marshalElements (collectElements st),
              lastSeq := (lastOf ops).1, lastTimestamp := (lastOf ops).2 }

/-! ## Views of one batch, used to state the properties -/

/-- The loop state at the start of the loop. -/
def loopInit (latest0 : String → Option LatestInfo) : LoopState :=
  { latestOps := latest0, rejected := [], acceptedOps := [] }

/-- The data the loop of one call works on. -/
structure Batch where
  projID : ObjectID
  socketID : String
  env : Env
  startSeq : Int
  latest0 : String → Option LatestInfo
  ops : List OpInput

/-- The batch of an `ApplyOps` call whose claim returned the project `q`. -/
def batchOf (env : Env) (s : Store) (projID : ObjectID) (socketID : String)
    (ops : List OpInput) (q : Project) : Batch :=
  { projID := projID, socketID := socketID, env := env,
    startSeq := q.HeadSeq - (ops.length : Int) + 1,
    latest0 := readLatest env s.operations projID ops, ops := ops }

/-- The loop state after the whole batch. -/
def Batch.loop (b : Batch) : LoopState :=
  processOps b.projID b.socketID b.env b.startSeq 0 b.ops (loopInit b.latest0)

/-- The map `latestOps` when the loop reaches index `i`. -/
def Batch.latestBefore (b : Batch) (i : Nat) : String → Option LatestInfo :=
  (processOps b.projID b.socketID b.env b.startSeq 0 (b.ops.take i) (loopInit b.latest0)).latestOps

/-- The condition of the conflict check. -/
def conflicts (latest : Option LatestInfo) (op : OpInput) : Bool :=
  match latest with
  | some l => decide (l.Seq > op.BaseSeq ∧ op.ElementVer ≤ l.ElementVer)
  | none => false

/-- Whether the loop rejects the op at index `i`. -/
def Batch.rejectedAt (b : Batch) (i : Nat) : Bool :=
  match b.ops[i]? with
  | some op => conflicts (b.latestBefore i op.ElementID) op
  | none => false

/-- The document the loop emits for index `i`, if it accepts that op. -/
def Batch.acceptedAt (b : Batch) (i : Nat) : Option Operation :=
  match b.ops[i]? with
  | some op =>
    if b.rejectedAt i = true then none
    else some (mkOperation b.projID b.socketID (b.startSeq + (i : Int)) (b.env.opTime i) op)
  | none => none

/-- The rejection the loop reports for index `i`, if it rejects that op. -/
def Batch.rejectionAt (b : Batch) (i : Nat) : Option RejectedOp :=
  match b.ops[i]? with
  | some op =>
    match b.latestBefore i op.ElementID with
    | some l => if conflicts (some l) op = true then some (mkRejected l op) else none
    | none => none
  | none => none

/-- The record `L` comes from the most recent op before index `i` that is on
element `e` and was accepted. -/
def Batch.InBatchLatest (b : Batch) (i : Nat) (e : String) (L : LatestInfo) : Prop :=
  ∃ j op, j < i ∧ b.ops[j]? = some op ∧ op.ElementID = e ∧ b.rejectedAt j = false ∧
    (∀ k op', j < k → k < i → b.ops[k]? = some op' → op'.ElementID = e → b.rejectedAt k = true) ∧
    L = ⟨b.startSeq + (j : Int), op.ElementVer, op.OpType⟩

/-- No op before index `i` on element `e` was accepted. -/
def Batch.NoneAcceptedBefore (b : Batch) (i : Nat) (e : String) : Prop :=
  ∀ j op, j < i → b.ops[j]? = some op → op.ElementID = e → b.rejectedAt j = true

/-- The record `L` comes from a log record of element `e` of the project
whose seq is the highest among the log records of that element. -/
def LogLatest (log : List Operation) (projID : ObjectID) (e : String) (L : LatestInfo) : Prop :=
  ∃ r ∈ log, r.ProjectID = projID ∧ r.ElementID = e ∧
    (∀ r' ∈ log, r'.ProjectID = projID → r'.ElementID = e → r'.Seq ≤ r.Seq) ∧
    L = ⟨r.Seq, r.ElementVer, r.OpType⟩

/-- The log holds no record of element `e` of the project. -/
def LogSilent (log : List Operation) (projID : ObjectID) (e : String) : Prop :=
  ∀ r ∈ log, r.ProjectID = projID → r.ElementID ≠ e

/-- The latest record of element `e` as the claim describes it, for the op
at index `i`: the most recent accepted op of the batch before `i`, else the
highest-seq log record, else nothing. -/
def Batch.IsLatestRecord (b : Batch) (log : List Operation) (i : Nat) (e : String)
    (latest : Option LatestInfo) : Prop :=
  (∃ L, latest = some L ∧ b.InBatchLatest i e L) ∨
  (∃ L, latest = some L ∧ b.NoneAcceptedBefore i e ∧ LogLatest log b.projID e L) ∨
  (latest = none ∧ b.NoneAcceptedBefore i e ∧ LogSilent log b.projID e)

/-- The loop state when the loop reaches index `i`. -/
def Batch.pre (b : Batch) (i : Nat) : LoopState :=
  processOps b.projID b.socketID b.env b.startSeq 0 (b.ops.take i) (loopInit b.latest0)

/-- The row the `$group` stage builds from a document. -/
def rowOf (o : Operation) : LatestRow := ⟨o.ElementID, o.Seq, o.ElementVer, o.OpType⟩

/-- The record the loop keeps for a log document. -/
def infoOf (o : Operation) : LatestInfo := ⟨o.Seq, o.ElementVer, o.OpType⟩

/-- The body of the fold in `groupFirst`. -/
def groupStep (rows : List LatestRow) (o : Operation) : List LatestRow :=
  if rows.any (fun r => r.ElementID == o.ElementID) then rows
  else rows ++ [⟨o.ElementID, o.Seq, o.ElementVer, o.OpType⟩]

/-! ## Sequences of calls -/

/-- One `ApplyOps` call with its environment. -/
structure Call where
  env : Env
  projectID : String
  socketID : String
  ops : List OpInput
  userID : String

/-- The store a call leaves behind. -/
def Call.run (s : Store) (c : Call) : Store :=
  (ApplyOps c.env s c.projectID c.socketID c.ops c.userID).2

/-- The store after a sequence of calls. -/
def runCalls (s : Store) (cs : List Call) : Store :=
  cs.foldl Call.run s

/-- The error of a claim that matches no project, as a function of the
project id text and of the driver alone. -/
def claimError (env : Env) (projectID : String) : Err :=
  match ObjectIDFromHex projectID with
  | none => Err.invalidProjectID
  | some _ => if env.claimFault = true then Err.claimFailed StorageErr.failure
              else Err.claimFailed StorageErr.noDocuments

/-! ## Invariants of the store -/

/-- What the claim does to one project document. -/
def bumpHead (projID : ObjectID) (n : Int) (now : String) (p : Project) : Project :=
  if p.ID = projID then { p with HeadSeq := p.HeadSeq + n, UpdatedAt := now } else p

/-- What the snapshot update does to one project document. -/
def setElements (projID : ObjectID) (text : JsonText) (now : String) (p : Project) : Project :=
  if p.ID = projID then { p with Elements := text, UpdatedAt := now } else p

/-- Project ids are unique, every log record belongs to a stored project and
lies at or below its `headSeq`, and the records of one project appear in the
log with strictly increasing seq. -/
def Store.WellFormed (s : Store) : Prop :=
  (s.projects.map (fun p => p.ID)).Nodup ∧
  (∀ o ∈ s.operations, ∃ p ∈ s.projects, p.ID = o.ProjectID ∧ o.Seq ≤ p.HeadSeq) ∧
  s.operations.Pairwise (fun a b => a.ProjectID = b.ProjectID → a.Seq < b.Seq)

/-- The log records of one project, in insertion order. -/
def projectLog (operations : List Operation) (projID : ObjectID) : List Operation :=
  operations.filter (fun o => decide (o.ProjectID = projID))

/-- The accepted ops of one element of a project, ordered by seq. -/
def elementLog (s : Store) (projID : ObjectID) (e : String) : List Operation :=
  (s.operations.filter
    (fun o => decide (o.ProjectID = projID) && decide (o.ElementID = e))).insertionSort
    (fun a b => a.Seq ≤ b.Seq)

/-- The order the code guarantees between an accepted op `a` of an element
and the next accepted op `b` of that element: the seq grows, and either the
version grows or the later op was based on a seq that is not older than the
earlier op. -/
def Succeeds (a b : Operation) : Prop :=
  a.Seq < b.Seq ∧ (a.ElementVer < b.ElementVer ∨ a.Seq ≤ b.BaseSeq)

/-- The records of one element of one project, in insertion order. -/
def elementOps (operations : List Operation) (projID : ObjectID) (e : String) :
    List Operation :=
  operations.filter (fun o => decide (o.ProjectID = projID) && decide (o.ElementID = e))

/-- The records of every element of every project follow each other in the
order `Succeeds`. -/
def Store.ElementOrdered (s : Store) : Prop :=
  ∀ projID e, (elementOps s.operations projID e).Chain' Succeeds

/-! ## Snapshot and replay -/

/-- The data of an `ADD` or `UPDATE`, when it decodes, carries the element id
of the op under the key `id`. -/
def OpInput.WellKeyed (op : OpInput) : Prop :=
  (op.OpType = "ADD" ∨ op.OpType = "UPDATE") →
    ∀ d g, op.Data = some d → unmarshalObject d = some g → g.getString "id" = some op.ElementID

/-- The same condition on a log record. -/
def Operation.WellKeyed (op : Operation) : Prop :=
  (op.OpType = "ADD" ∨ op.OpType = "UPDATE") →
    ∀ d g, op.Data = some d → unmarshalObject d = some g → g.getString "id" = some op.ElementID

/-- The order lists each stored id once, and every stored element carries its
own id. -/
def ElemState.Good (st : ElemState) : Prop :=
  st.elementOrder.Nodup ∧
  (∀ e, e ∈ st.elementOrder ↔ st.elementMap e ≠ none) ∧
  (∀ e g, st.elementMap e = some g → g.getString "id" = some e)

/-- The body of the fold in `loadElements`. -/
def loadStep (st : ElemState) (el : GoMap) : ElemState :=
  match el.getString "id" with
  | some id =>
    { elementMap := mapSet st.elementMap id el, elementOrder := st.elementOrder ++ [id] }
  | none => st

/-- Every project's snapshot decodes to the elements obtained by replaying
the project's log from the empty state, and that replay does not panic. -/
def Store.Materialized (s : Store) : Prop :=
  ∀ p ∈ s.projects, ∃ st,
    applyAll applyOpReconstruct ElemState.empty (projectLog s.operations p.ID) = some st ∧
    st.Good ∧ parseSnapshot p.Elements = collectElements st

/-! ## Concrete data for the scenarios -/

namespace Demo

def pid : String := "0123456789abcdef01234567"

def projID : ObjectID := ⟨"0123456789abcdef01234567"⟩

/-- A project owned by `alice` with member `bob`, an empty snapshot and the
given head sequence. -/
def project (h : Int) : Project :=
  { ID := projID, Name := "board", Description := "", Owner := "alice", Members := ["bob"],
    Workspace := none, Personal := false, Elements := JsonText.raw "", HeadSeq := h,
    CreatedAt := "t0", UpdatedAt := "t0" }

/-- The log record of element `e1` at seq 5 with version 3. -/
def opE1 : Operation :=
  { ProjectID := projID, Seq := 5, ClientSeq := 1, SocketID := "10000001", OpType := "UPDATE",
    ElementID := "e1", ElementVer := 3, BaseSeq := 4,
    Data := some (JsonText.object [("id", JVal.str "e1")]), Timestamp := "t0" }

/-- Head sequence 5, element `e1` last written at seq 5 with version 3. -/
def store5 : Store := { projects := [project 5], operations := [opE1] }

/-- A fresh project: head sequence 0 and an empty log. -/
def store0 : Store := { projects := [project 0], operations := [] }

/-- An op on `e1` with a stale base and a version that is not newer. -/
def staleOp : OpInput :=
  { ClientSeq := 7, OpType := "UPDATE", ElementID := "e1", ElementVer := 2, BaseSeq := 4,
    Data := some (JsonText.object [("id", JVal.str "e1")]) }

/-- An op on `e1` with a stale base and an advanced version. -/
def advancedOp : OpInput :=
  { ClientSeq := 8, OpType := "UPDATE", ElementID := "e1", ElementVer := 4, BaseSeq := 4,
    Data := some (JsonText.object [("id", JVal.str "e1")]) }

/-- The project of `store5` after a claim of `n` sequence numbers at time
`t`. -/
def claimed (n : Int) : Project :=
  { project 5 with HeadSeq := 5 + n, UpdatedAt := "t" }

/-- The document written for `advancedOp` when it is the second op of a
batch submitted on `store5`. -/
def advancedDoc : Operation :=
  { ProjectID := projID, Seq := 7, ClientSeq := 8, SocketID := "20000002", OpType := "UPDATE",
    ElementID := "e1", ElementVer := 4, BaseSeq := 4,
    Data := some (JsonText.object [("id", JVal.str "e1")]), Timestamp := "t" }

/-- The rejection reported for `staleOp` on `store5`. -/
def staleRejection : RejectedOp :=
  { ClientSeq := 7, ElementID := "e1",
    Reason := "element modified at seq 5 (ver 3), your base was seq 4 (ver 2)" }

/-- An `ADD` whose data is the JSON text `null`. -/
def addNull : OpInput :=
  { ClientSeq := 1, OpType := "ADD", ElementID := "e1", ElementVer := 1, BaseSeq := 0,
    Data := some JsonText.null }

/-- A `DELETE` of the same element. -/
def deleteE1 : OpInput :=
  { ClientSeq := 2, OpType := "DELETE", ElementID := "e1", ElementVer := 2, BaseSeq := 0,
    Data := none }

/-- A first write of `e1` with version 2. -/
def firstOp : OpInput :=
  { ClientSeq := 1, OpType := "ADD", ElementID := "e1", ElementVer := 2, BaseSeq := 0,
    Data := some (JsonText.object [("id", JVal.str "e1")]) }

/-- A second write of `e1` in the same batch, with version 1. -/
def secondOp : OpInput :=
  { ClientSeq := 2, OpType := "UPDATE", ElementID := "e1", ElementVer := 1, BaseSeq := 0,
    Data := some (JsonText.object [("id", JVal.str "e1"), ("x", JVal.num 1 0)]) }

/-- What `ApplyOps` returns for the batch `[firstOp, secondOp]` on `store0`. -/
def pairResult : ApplyOpsResult :=
  { Ack := true, ServerSeq := 2,
    Rejected := [{ ClientSeq := 2, ElementID := "e1",
                   Reason := "element modified at seq 1 (ver 2), your base was seq 0 (ver 1)" }],
    Accepted := [mkOperation projID "20000002" 1 "t" firstOp] }

/-- A forward-apply state holding `e0` and `e1`. -/
def twoElements : ElemState :=
  { elementMap := fun e =>
      if e = "e0" then some (some [("id", JVal.str "e0")])
      else if e = "e1" then some (some [("id", JVal.str "e1")])
      else none,
    elementOrder := ["e0", "e1"] }

/-- A well-formed id under which no project is stored. -/
def otherPid : String := "ffffffffffffffffffffffff"

/-- An `UPDATE` of `e0` whose data is a JSON object. -/
def updE0 : Operation :=
  { ProjectID := projID, Seq := 9, ClientSeq := 1, SocketID := "20000002", OpType := "UPDATE",
    ElementID := "e0", ElementVer := 2, BaseSeq := 8,
    Data := some (JsonText.object [("id", JVal.str "e0"), ("x", JVal.num 3 0)]),
    Timestamp := "t" }

/-- First call of the version scenario: `e1` is created with version 5. -/
def createV5 : Call :=
  { env := Env.quiet, projectID := pid, socketID := "20000002", userID := "alice",
    ops := [{ ClientSeq := 1, OpType := "ADD", ElementID := "e1", ElementVer := 5, BaseSeq := 0,
              Data := some (JsonText.object [("id", JVal.str "e1")]) }] }

/-- Second call: an up-to-date client (`baseSeq` 1) writes `e1` with the lower
version 1. -/
def updateV1 : Call :=
  { env := Env.quiet, projectID := pid, socketID := "20000002", userID := "alice",
    ops := [{ ClientSeq := 2, OpType := "UPDATE", ElementID := "e1", ElementVer := 1,
              BaseSeq := 1, Data := some (JsonText.object [("id", JVal.str "e1")]) }] }

/-- First call of the snapshot scenario: `e1` is added with data that has no
`id` key. -/
def addNoId : Call :=
  { env := Env.quiet, projectID := pid, socketID := "20000002", userID := "alice",
    ops := [{ ClientSeq := 1, OpType := "ADD", ElementID := "e1", ElementVer := 1, BaseSeq := 0,
              Data := some (JsonText.object [("type", JVal.str "rectangle")]) }] }

/-- Second call: `e2` is added with its id in the data. -/
def addE2 : Call :=
  { env := Env.quiet, projectID := pid, socketID := "20000002", userID := "alice",
    ops := [{ ClientSeq := 2, OpType := "ADD", ElementID := "e2", ElementVer := 1, BaseSeq := 1,
              Data := some (JsonText.object [("id", JVal.str "e2")]) }] }

/-- A read during which no driver call fails. -/
def quietQuery : QueryEnv := { findFault := false, cursorFault := false }

/-- The project document after the calls `createV5` and `updateV1`. -/
def afterVersions : Project :=
  { ID := projID, Name := "board", Description := "", Owner := "alice", Members := ["bob"],
    Workspace := none, Personal := false,
    Elements := JsonText.array [some [("id", JVal.str "e1")]], HeadSeq := 2,
    CreatedAt := "t0", UpdatedAt := "t" }

end Demo

/-! ## GetOpsSince and GetOpsRange -/

/-- The `sort seq ascending` option of `Find`. -/
def sortSeqAsc (ops : List Operation) : List Operation :=
  ops.insertionSort (fun a b => a.Seq ≤ b.Seq)

/-- The value passed to `SetLimit`: the requested limit when it is present
and positive, 1000 otherwise. -/
def effectiveLimit (limit : Option Int) : Int :=
  match limit with
  | some l => if l > 0 then l else 1000
  | none => 1000

/-- The method `operationRepository.GetOpsSince`. -/
def GetOpsSince (q : QueryEnv) (s : Store) (projectID : String) (sinceSeq : Int)
    (limit : Option Int) : Outcome (List Operation) :=
  match ObjectIDFromHex projectID with
  | none => .error .invalidHex
  | some projID =>
    if q.findFault = true then .error .storage
    else if q.cursorFault = true then .error .storage
    else
      .ok ((sortSeqAsc (s.operations.filter
        (fun o => decide (o.ProjectID = projID) && decide (o.Seq > sinceSeq)))).take
          (effectiveLimit limit).toNat)

/-- The method `operationRepository.GetOpsRange`. -/
def GetOpsRange (q : QueryEnv) (s : Store) (projectID : String) (fromSeq toSeq : Int) :
    Outcome (List Operation) :=
  match ObjectIDFromHex projectID with
  | none => .error .invalidHex
  | some projID =>
    if q.findFault = true then .error .storage
    else if q.cursorFault = true then .error .storage
    else
      .ok (sortSeqAsc (s.operations.filter
        (fun o => decide (o.ProjectID = projID) &&
          (decide (o.Seq ≥ fromSeq) && decide (o.Seq ≤ toSeq)))))

/-- No driver call of a read fails. -/
def QueryEnv.faultFree (q : QueryEnv) : Prop :=
  q.findFault = false ∧ q.cursorFault = false

/-- The element state after the replay of `ReconstructStateAt` for a target
seq, `none` when the replay panics. -/
def stateAt (s : Store) (projID : ObjectID) (seq : Int) : Option ElemState :=
  applyAll applyOpReconstruct ElemState.empty (findUpTo s.operations projID seq)

/-- What `ReconstructStateAt` makes of the outcome of its replay over the
operations `ops`. -/
def reconstructed (st : Option ElemState) (ops : List Operation) : Outcome Reconstructed :=
  match st with
  | none => .panic
  | some st =>
    .ok { snapshot := marshalElements (collectElements st),
          lastSeq := (lastOf ops).1, lastTimestamp := (lastOf ops).2 }

namespace Demo

/-- The log after `ADD e1` with data `null` at seq 1 and `DELETE e1` at seq 2. -/
def nullThenDelete : Store :=
  { projects := [{ project 0 with HeadSeq := 2, UpdatedAt := "t" }],
    operations :=
      [mkOperation projID "20000002" 1 "t" addNull,
       mkOperation projID "20000002" 2 "t" deleteE1] }

/-- The soft-delete scenario: one element created at seq 1, updated at seq 2
and deleted at seq 3. -/
def softDeleteLog : Store :=
  { projects := [{ project 0 with HeadSeq := 3, UpdatedAt := "t" }],
    operations :=
      [{ ProjectID := projID, Seq := 1, ClientSeq := 1, SocketID := "20000002", OpType := "ADD",
         ElementID := "e1", ElementVer := 1, BaseSeq := 0,
         Data := some (JsonText.object [("id", JVal.str "e1"), ("x", JVal.num 1 0)]),
         Timestamp := "t1" },
       { ProjectID := projID, Seq := 2, ClientSeq := 2, SocketID := "20000002",
         OpType := "UPDATE", ElementID := "e1", ElementVer := 2, BaseSeq := 1,
         Data := some (JsonText.object [("id", JVal.str "e1"), ("x", JVal.num 2 0)]),
         Timestamp := "t2" },
       { ProjectID := projID, Seq := 3, ClientSeq := 3, SocketID := "20000002",
         OpType := "DELETE", ElementID := "e1", ElementVer := 3, BaseSeq := 2,
         Data := none, Timestamp := "t3" }] }

end Demo

namespace Demo

/-- A log of `n` records of the demo project, with seq 1 to `n`. -/
def logOfSize (n : Nat) : Store :=
  { projects := [project n],
    operations := (List.range n).map (fun (i : Nat) => { opE1 with Seq := (i : Int) + 1 }) }

end Demo

namespace Demo

/-- An op whose `baseSeq` is negative. -/
def negativeBaseOp : OpInput :=
  { ClientSeq := 1, OpType := "ADD", ElementID := "e1", ElementVer := 1, BaseSeq := -1,
    Data := some (JsonText.object [("id", JVal.str "e1")]) }

end Demo

/-! ## The subscription hub (`graph/resolvers/resolver.go`)

The hub is used under its readers-writer lock, so each method is one step on
the registry.  A subscriber record owns its channel: the channel is kept by
value in the record, with its capacity and the messages queued in it (a
consumer parked on the channel counts as a free slot).  Channels held in a
registry are open; the only `close` is in the unsubscribe methods, on the
record they have just removed, and is reported next to the new registry.
The payload types of `graph/model` that the hub only passes along (the
operations of an ops message, the cursor update) are type parameters. -/

/-- A buffered Go channel: capacity and queued messages. -/
structure Chan (μ : Type) where
  cap : Nat
  buf : List μ
  deriving DecidableEq, Repr

/-- The non-blocking send `select { case ch <- msg: default: }`: the channel
afterwards and whether the message was sent. -/
def Chan.trySend {μ : Type} (c : Chan μ) (msg : μ) : Chan μ × Bool :=
  if c.buf.length < c.cap then ({ c with buf := c.buf ++ [msg] }, true) else (c, false)

/-- The message of the document stream (`model.ProjectSubscription`), with the
fields the hub sets. -/
structure ProjectSubscription where
  Elements : String
  SocketID : String
  deriving DecidableEq, Repr

/-- The message of the ops stream (`model.ProjectOpsSubscription`), with the
fields the hub sets. -/
structure ProjectOpsSubscription (ω : Type) where
  Ops : List ω
  SocketID : String
  deriving DecidableEq, Repr

/-- Modelled from the spec: the type `model.PresenceStatus` is declared in
`graph/model`; a presence status is one of Active, Idle and Away. -/
inductive PresenceStatus where
  | Active : PresenceStatus
  | Idle : PresenceStatus
  | Away : PresenceStatus
  deriving DecidableEq, Repr

structure PresenceInfo where
  UserID : String
  UserName : String
  Email : String
  JoinedAt : String
  Status : PresenceStatus
  deriving DecidableEq, Repr

/-- The entry of a presence list (`model.UserPresence`), with the fields
`getPresenceList` sets. -/
structure UserPresence where
  UserID : String
  UserName : String
  Email : String
  Status : PresenceStatus
  JoinedAt : String
  deriving DecidableEq, Repr

structure ProjectSubscriber where
  sockedID : String
  channel : Chan ProjectSubscription
  deriving DecidableEq, Repr

structure ProjectOpsSubscriber (ω : Type) where
  sockedID : String
  userID : String
  userName : String
  channel : Chan (ProjectOpsSubscription ω)
  deriving DecidableEq, Repr

structure CursorSubscriber (κ : Type) where
  sockedID : String
  channel : Chan κ
  deriving DecidableEq, Repr

structure PresenceSubscriber where
  sockedID : String
  channel : Chan (List UserPresence)
  deriving DecidableEq, Repr

/-- The registries of the hub.  A Go map is a function into `Option`; the
inner presence map of a project is the list of its bindings. -/
structure Resolver (ω κ : Type) where
  projectSubscribers : String → Option (List ProjectSubscriber)
  opsSubscribers : String → Option (List (ProjectOpsSubscriber ω))
  cursorSubscribers : String → Option (List (CursorSubscriber κ))
  projectPresence : String → Option (List (String × PresenceInfo))
  presenceSubscribers : String → Option (List PresenceSubscriber)

/-- The hub `NewResolver` returns: five empty maps. -/
def NewResolver (ω κ : Type) : Resolver ω κ :=
  { projectSubscribers := fun _ => none, opsSubscribers := fun _ => none,
    cursorSubscribers := fun _ => none, projectPresence := fun _ => none,
    presenceSubscribers := fun _ => none }

/-- The statement `delete(m, k)` on a Go map. -/
def mapDelete {β : Type} (m : String → Option β) (k : String) : String → Option β :=
  fun x => if x = k then none else m x

/-- The expression `m[k]` on a map of slices: the nil slice when `k` is absent. -/
def sliceAt {σ : Type} (m : String → Option (List σ)) (k : String) : List σ :=
  match m k with
  | some l => l
  | none => []

/-- The function `generateRandom8DigitString`, given the value drawn by
`rand.IntN(maxNum)`. -/
def generateRandom8DigitString (randomNumber : Nat) : String :=
  toString (randomNumber + 10000000)

/-- The body shared by the four subscribe methods: append the new record to
the project's slice. -/
def subscribeIn {σ : Type} (m : String → Option (List σ)) (projectID : String)
    (subscriber : σ) : String → Option (List σ) :=
  mapSet m projectID (sliceAt m projectID ++ [subscriber])

def subscribeToProject {ω κ : Type} (r : Resolver ω κ) (randomNumber : Nat)
    (projectID : String) (ch : Chan ProjectSubscription) : Resolver ω κ × String :=
  let subscriber : ProjectSubscriber :=
    { channel := ch, sockedID := generateRandom8DigitString randomNumber }
  ({ r with projectSubscribers := subscribeIn r.projectSubscribers projectID subscriber },
    subscriber.sockedID)

def subscribeToProjectOps {ω κ : Type} (r : Resolver ω κ) (randomNumber : Nat)
    (projectID userID userName : String) (ch : Chan (ProjectOpsSubscription ω)) :
    Resolver ω κ × String :=
  let subscriber : ProjectOpsSubscriber ω :=
    { channel := ch, sockedID := generateRandom8DigitString randomNumber, userID := userID,
      userName := userName }
  ({ r with opsSubscribers := subscribeIn r.opsSubscribers projectID subscriber },
    subscriber.sockedID)

def subscribeToCursors {ω κ : Type} (r : Resolver ω κ) (randomNumber : Nat)
    (projectID : String) (ch : Chan κ) : Resolver ω κ × String :=
  let subscriber : CursorSubscriber κ :=
    { channel := ch, sockedID := generateRandom8DigitString randomNumber }
  ({ r with cursorSubscribers := subscribeIn r.cursorSubscribers projectID subscriber },
    subscriber.sockedID)

def subscribeToPresence {ω κ : Type} (r : Resolver ω κ) (randomNumber : Nat)
    (projectID : String) (ch : Chan (List UserPresence)) : Resolver ω κ × String :=
  let subscriber : PresenceSubscriber :=
    { channel := ch, sockedID := generateRandom8DigitString randomNumber }
  ({ r with presenceSubscribers := subscribeIn r.presenceSubscribers projectID subscriber },
    subscriber.sockedID)

/-- The loop of the unsubscribe methods: the slice without the first record
that carries `socketID`, and the channel of that record, which is closed;
`none` when no record carries it. -/
def removeSubscriber {σ γ : Type} (sid : σ → String) (ch : σ → γ) (socketID : String) :
    List σ → Option (List σ × γ)
  | [] => none
  | subscriber :: rest =>
    if sid subscriber = socketID then some (rest, ch subscriber)
    else
      match removeSubscriber sid ch socketID rest with
      | some (rest', closed) => some (subscriber :: rest', closed)
      | none => none

/-- The body shared by the four unsubscribe methods: the loop, then the
clean-up of an empty slice.  Returns the new map and the closed channel. -/
def unsubscribeIn {σ γ : Type} (sid : σ → String) (ch : σ → γ)
    (m : String → Option (List σ)) (projectID socketID : String) :
    (String → Option (List σ)) × Option γ :=
  let subscribers := sliceAt m projectID
  let looped : (String → Option (List σ)) × Option γ :=
    match removeSubscriber sid ch socketID subscribers with
    | some (rest, closed) => (mapSet m projectID rest, some closed)
    | none => (m, none)
  if (sliceAt looped.1 projectID).length = 0 then (mapDelete looped.1 projectID, looped.2)
  else looped

def unsubscribeFromProject {ω κ : Type} (r : Resolver ω κ) (projectID socketID : String) :
    Resolver ω κ × Option (Chan ProjectSubscription) :=
  let out := unsubscribeIn (fun s : ProjectSubscriber => s.sockedID) (fun s => s.channel)
    r.projectSubscribers projectID socketID
  ({ r with projectSubscribers := out.1 }, out.2)

def unsubscribeFromProjectOps {ω κ : Type} (r : Resolver ω κ) (projectID socketID : String) :
    Resolver ω κ × Option (Chan (ProjectOpsSubscription ω)) :=
  let out := unsubscribeIn (fun s : ProjectOpsSubscriber ω => s.sockedID) (fun s => s.channel)
    r.opsSubscribers projectID socketID
  ({ r with opsSubscribers := out.1 }, out.2)

def unsubscribeFromCursors {ω κ : Type} (r : Resolver ω κ) (projectID socketID : String) :
    Resolver ω κ × Option (Chan κ) :=
  let out := unsubscribeIn (fun s : CursorSubscriber κ => s.sockedID) (fun s => s.channel)
    r.cursorSubscribers projectID socketID
  ({ r with cursorSubscribers := out.1 }, out.2)

def unsubscribeFromPresence {ω κ : Type} (r : Resolver ω κ) (projectID socketID : String) :
    Resolver ω κ × Option (Chan (List UserPresence)) :=
  let out := unsubscribeIn (fun s : PresenceSubscriber => s.sockedID) (fun s => s.channel)
    r.presenceSubscribers projectID socketID
  ({ r with presenceSubscribers := out.1 }, out.2)

/-- The loop of `broadcastProjectUpdate`: the records with their channels
after the sends, and the warnings printed. -/
def broadcastProjectUpdateLoop (projectID : String) (project : ProjectSubscription)
    (fromID : String) : List ProjectSubscriber → List ProjectSubscriber × List String
  | [] => ([], [])
  | subscriber :: rest =>
    let tail := broadcastProjectUpdateLoop projectID project fromID rest
    if subscriber.sockedID = fromID then (subscriber :: tail.1, tail.2)
    else
      let msg : ProjectSubscription :=
        { Elements := project.Elements, SocketID := subscriber.sockedID }
      let sent := subscriber.channel.trySend msg
      if sent.2 = true then ({ subscriber with channel := sent.1 } :: tail.1, tail.2)
      else
        (subscriber :: tail.1,
          ("Warning: dropped update for subscriber " ++ subscriber.sockedID ++ " on project " ++
            projectID ++ " (channel full)\n") :: tail.2)

def broadcastProjectUpdate {ω κ : Type} (r : Resolver ω κ) (projectID : String)
    (project : ProjectSubscription) (fromID : String) : Resolver ω κ × List String :=
  match r.projectSubscribers projectID with
  | some subscribers =>
    let out := broadcastProjectUpdateLoop projectID project fromID subscribers
    ({ r with projectSubscribers := mapSet r.projectSubscribers projectID out.1 }, out.2)
  | none => (r, [])

/-- The loop of `broadcastOps`. -/
def broadcastOpsLoop {ω : Type} (projectID : String) (ops : List ω) (fromSocketID : String) :
    List (ProjectOpsSubscriber ω) → List (ProjectOpsSubscriber ω) × List String
  | [] => ([], [])
  | subscriber :: rest =>
    let tail := broadcastOpsLoop projectID ops fromSocketID rest
    if subscriber.sockedID = fromSocketID then (subscriber :: tail.1, tail.2)
    else
      let msg : ProjectOpsSubscription ω := { Ops := ops, SocketID := subscriber.sockedID }
      let sent := subscriber.channel.trySend msg
      if sent.2 = true then ({ subscriber with channel := sent.1 } :: tail.1, tail.2)
      else
        (subscriber :: tail.1,
          ("Warning: dropped ops for subscriber " ++ subscriber.sockedID ++ " on project " ++
            projectID ++ " (channel full)\n") :: tail.2)

def broadcastOps {ω κ : Type} (r : Resolver ω κ) (projectID : String) (ops : List ω)
    (fromSocketID : String) : Resolver ω κ × List String :=
  match r.opsSubscribers projectID with
  | some subscribers =>
    let out := broadcastOpsLoop projectID ops fromSocketID subscribers
    ({ r with opsSubscribers := mapSet r.opsSubscribers projectID out.1 }, out.2)
  | none => (r, [])

/-- The loop of `broadcastCursor`; a dropped cursor update prints nothing. -/
def broadcastCursorLoop {κ : Type} (cursor : κ) (fromSocketID : String) :
    List (CursorSubscriber κ) → List (CursorSubscriber κ)
  | [] => []
  | subscriber :: rest =>
    let tail := broadcastCursorLoop cursor fromSocketID rest
    if subscriber.sockedID = fromSocketID then subscriber :: tail
    else { subscriber with channel := (subscriber.channel.trySend cursor).1 } :: tail

def broadcastCursor {ω κ : Type} (r : Resolver ω κ) (projectID : String) (cursor : κ)
    (fromSocketID : String) : Resolver ω κ :=
  match r.cursorSubscribers projectID with
  | some subscribers =>
    { r with cursorSubscribers :=
        mapSet r.cursorSubscribers projectID (broadcastCursorLoop cursor fromSocketID subscribers) }
  | none => r

/-! ## Views of the hub, used to state the properties -/

/-- What a broadcast from `fromID` does to the records of a project, position
by position: the record keeps its socket id; a record that carries the
sender's socket id keeps its channel as it was; every other record whose
channel has room gets exactly the message `msgFor` at the end of its queue. -/
def SelfSuppressed {σ μ : Type} (sid : σ → String) (ch : σ → Chan μ) (msgFor : σ → μ)
    (fromID : String) (before after : List σ) : Prop :=
  after.length = before.length ∧
  ∀ (i : Nat) (s : σ), before[i]? = some s → ∃ s', after[i]? = some s' ∧ sid s' = sid s ∧
    (sid s = fromID → ch s' = ch s) ∧
    (sid s ≠ fromID → (ch s).buf.length < (ch s).cap →
      (ch s').cap = (ch s).cap ∧ (ch s').buf = (ch s).buf ++ [msgFor s])

/-- Every message a broadcast has put on a channel, position by position: the
queue of a record is as before, or has grown by one message that satisfies
`ok` for that record. -/
def Addressed {σ μ : Type} (ch : σ → Chan μ) (ok : σ → μ → Prop)
    (before after : List σ) : Prop :=
  after.length = before.length ∧
  ∀ (i : Nat) (s s' : σ), before[i]? = some s → after[i]? = some s' →
    (ch s').buf = (ch s).buf ∨ ∃ m, (ch s').buf = (ch s).buf ++ [m] ∧ ok s m

/-- What one send attempt of a broadcast does to a record of the ops stream. -/
def deliverOps {ω : Type} (ops : List ω) (fromSocketID : String)
    (s : ProjectOpsSubscriber ω) : ProjectOpsSubscriber ω :=
  if s.sockedID = fromSocketID then s
  else { s with channel := (s.channel.trySend { Ops := ops, SocketID := s.sockedID }).1 }

/-- What one send attempt does to a record of the document stream. -/
def deliverUpdate (project : ProjectSubscription) (fromID : String)
    (s : ProjectSubscriber) : ProjectSubscriber :=
  if s.sockedID = fromID then s
  else { s with channel :=
    (s.channel.trySend { Elements := project.Elements, SocketID := s.sockedID }).1 }

/-- What one send attempt does to a record of the cursor stream. -/
def deliverCursor {κ : Type} (cursor : κ) (fromSocketID : String)
    (s : CursorSubscriber κ) : CursorSubscriber κ :=
  if s.sockedID = fromSocketID then s
  else { s with channel := (s.channel.trySend cursor).1 }

/-- What one unsubscribe does to a registry, `closed` being the channel it
closes, if any: the lists of other projects are untouched; when a record of the
project carries the socket id, the first such record is taken out, the records
around it keep their order, its channel is the one closed, and the entry of the
project is deleted when nothing is left; when no record of the project carries
the socket id, no channel is closed and the registry is as before. -/
def Unsubscribed {σ γ : Type} (sid : σ → String) (ch : σ → γ)
    (before : String → Option (List σ)) (projectID socketID : String)
    (after : String → Option (List σ)) (closed : Option γ) : Prop :=
  (∀ p, p ≠ projectID → after p = before p) ∧
  (∀ (pre : List σ) (s : σ) (post : List σ), sliceAt before projectID = pre ++ s :: post →
    sid s = socketID → (∀ t ∈ pre, sid t ≠ socketID) →
    closed = some (ch s) ∧
    after projectID = if (pre ++ post).length = 0 then none else some (pre ++ post)) ∧
  ((∀ s ∈ sliceAt before projectID, sid s ≠ socketID) →
    closed = none ∧ (before projectID ≠ some [] → after = before))

/-- No project is registered with an empty list of records. -/
def NoEmptyEntry {σ : Type} (m : String → Option (List σ)) : Prop :=
  ∀ p, m p ≠ some []

namespace Demo

def chanA : Chan ProjectSubscription := { cap := 1, buf := [] }

def chanB : Chan ProjectSubscription := { cap := 2, buf := [] }

/-- Two document subscriptions of project p1 for which the generator drew the
same number. -/
def collided : Resolver String String :=
  (subscribeToProject (subscribeToProject (NewResolver String String) 5 "p1" chanA).1
    5 "p1" chanB).1

/-- Three ops subscribers of project p1; the channel of the third is full. -/
def opsSubs : List (ProjectOpsSubscriber String) :=
  [{ sockedID := "11111111", userID := "u1", userName := "Ann",
     channel := { cap := 2, buf := [] } },
   { sockedID := "22222222", userID := "u2", userName := "Bob",
     channel := { cap := 2, buf := [] } },
   { sockedID := "33333333", userID := "u3", userName := "Cy",
     channel := { cap := 1, buf := [{ Ops := ["old"], SocketID := "33333333" }] } }]

def docSubs : List ProjectSubscriber :=
  [{ sockedID := "11111111", channel := { cap := 1, buf := [] } },
   { sockedID := "22222222", channel := { cap := 1, buf := [] } }]

def cursorSubs : List (CursorSubscriber String) :=
  [{ sockedID := "11111111", channel := { cap := 1, buf := [] } },
   { sockedID := "22222222", channel := { cap := 1, buf := [] } }]

def presenceSubs : List PresenceSubscriber :=
  [{ sockedID := "11111111", channel := { cap := 1, buf := [] } },
   { sockedID := "22222222", channel := { cap := 1, buf := [] } }]

/-- A hub in which project p1 has subscribers in every registry. -/
def hub : Resolver String String :=
  { projectSubscribers := mapSet (fun _ => none) "p1" docSubs
    opsSubscribers := mapSet (fun _ => none) "p1" opsSubs
    cursorSubscribers := mapSet (fun _ => none) "p1" cursorSubs
    projectPresence := fun _ => none
    presenceSubscribers := mapSet (fun _ => none) "p1" presenceSubs }

end Demo

/-! ## Presence (`graph/resolvers/resolver.go`)

The inner presence map of a project is the list of its bindings.  Go visits
the bindings of a map in an order it does not specify, which may differ from
one call to the next; `getPresenceList` lists them in the order of the
bindings, which is one of the orders a call may take.  Its result is
therefore only spoken of through membership, the absence of duplicates and
`List.Perm`, never as an ordered list. -/

/-- Assignment `users[k] = v` on the bindings of a Go map: a key that is
present keeps its place and gets the new value, a new key is added. -/
def bindingsSet {β : Type} : List (String × β) → String → β → List (String × β)
  | [], k, v => [(k, v)]
  | (k', v') :: rest, k, v =>
    if k' = k then (k, v) :: rest else (k', v') :: bindingsSet rest k v

/-- The statement `delete(users, k)` on the bindings of a Go map. -/
def bindingsDelete {β : Type} (users : List (String × β)) (k : String) : List (String × β) :=
  users.filter (fun b => decide (b.1 ≠ k))

/-- The method `addPresence`. -/
def addPresence {ω κ : Type} (r : Resolver ω κ)
    (projectID userID userName email joinedAt : String) : Resolver ω κ :=
  let users : List (String × PresenceInfo) :=
    match r.projectPresence projectID with
    | some users => users
    | none => []
  let info : PresenceInfo :=
    { UserID := userID, UserName := userName, Email := email, JoinedAt := joinedAt,
      Status := PresenceStatus.Active }
  { r with projectPresence := mapSet r.projectPresence projectID (bindingsSet users userID info) }

/-- The method `removePresence`. -/
def removePresence {ω κ : Type} (r : Resolver ω κ) (projectID userID : String) :
    Resolver ω κ :=
  match r.projectPresence projectID with
  | some users =>
    let users1 := bindingsDelete users userID
    if users1.length = 0 then
      { r with projectPresence := mapDelete r.projectPresence projectID }
    else { r with projectPresence := mapSet r.projectPresence projectID users1 }
  | none => r

/-- The record `getPresenceList` builds from a stored entry. -/
def userPresenceOf (info : PresenceInfo) : UserPresence :=
  { UserID := info.UserID, UserName := info.UserName, Email := info.Email,
    Status := info.Status, JoinedAt := info.JoinedAt }

/-- The method `getPresenceList`.  The loop `for _, info := range users` visits
the bindings in an unspecified order; the list returned here is one of the
lists a call may return, every other one being a permutation of it. -/
def getPresenceList {ω κ : Type} (r : Resolver ω κ) (projectID : String) : List UserPresence :=
  match r.projectPresence projectID with
  | some users => users.map (fun b => userPresenceOf b.2)
  | none => []

/-- The expression `r.projectPresence[projectID][userID]`, when present. -/
def presenceAt {ω κ : Type} (r : Resolver ω κ) (projectID userID : String) :
    Option PresenceInfo :=
  match r.projectPresence projectID with
  | some users => users.lookup userID
  | none => none

/-- A call of one of the two presence methods that write. -/
inductive PresenceCall where
  | add (projectID userID userName email joinedAt : String) : PresenceCall
  | remove (projectID userID : String) : PresenceCall
  deriving DecidableEq, Repr

/-- The hub after one presence call. -/
def PresenceCall.run {ω κ : Type} (r : Resolver ω κ) : PresenceCall → Resolver ω κ
  | .add projectID userID userName email joinedAt =>
    addPresence r projectID userID userName email joinedAt
  | .remove projectID userID => removePresence r projectID userID

/-- The hub after a sequence of presence calls. -/
def runPresence {ω κ : Type} (r : Resolver ω κ) (calls : List PresenceCall) : Resolver ω κ :=
  calls.foldl PresenceCall.run r

/-- Spec side: what one call does to the entry expected for a user of a
project. -/
def expectedStep (projectID userID : String) (acc : Option UserPresence) :
    PresenceCall → Option UserPresence
  | .add p u userName email joinedAt =>
    if p = projectID ∧ u = userID then
      some { UserID := u, UserName := userName, Email := email,
             Status := PresenceStatus.Active, JoinedAt := joinedAt }
    else acc
  | .remove p u => if p = projectID ∧ u = userID then none else acc

/-- Spec side: the entry the presence list of a project is expected to hold
for a user after a sequence of calls on an empty hub: the data of the last
`add` of that user in that project, unless a `remove` came after it. -/
def expectedPresence (projectID userID : String) (calls : List PresenceCall) :
    Option UserPresence :=
  calls.foldl (expectedStep projectID userID) none

/-- The bindings of every project have pairwise distinct keys, each entry is
stored under its own user id, and no project is bound to an empty map. -/
def PresenceInv {ω κ : Type} (r : Resolver ω κ) : Prop :=
  ∀ p users, r.projectPresence p = some users →
    (users.map (fun b => b.1)).Nodup ∧ (∀ b ∈ users, b.2.UserID = b.1) ∧ users ≠ []

/-! ## Sequences of subscribe calls -/

/-- The hub after a sequence of `subscribeToProject` calls on one project, each
with the value drawn by the generator and the channel. -/
def subscribeAllToProject {ω κ : Type} (r : Resolver ω κ) (projectID : String)
    (calls : List (Nat × Chan ProjectSubscription)) : Resolver ω κ :=
  calls.foldl (fun r c => (subscribeToProject r c.1 projectID c.2).1) r

/-- The same for `subscribeToProjectOps`; a call also carries the user id and
the user name. -/
def subscribeAllToProjectOps {ω κ : Type} (r : Resolver ω κ) (projectID : String)
    (calls : List (Nat × String × String × Chan (ProjectOpsSubscription ω))) : Resolver ω κ :=
  calls.foldl (fun r c => (subscribeToProjectOps r c.1 projectID c.2.1 c.2.2.1 c.2.2.2).1) r

/-- The same for `subscribeToCursors`. -/
def subscribeAllToCursors {ω κ : Type} (r : Resolver ω κ) (projectID : String)
    (calls : List (Nat × Chan κ)) : Resolver ω κ :=
  calls.foldl (fun r c => (subscribeToCursors r c.1 projectID c.2).1) r

/-- The same for `subscribeToPresence`. -/
def subscribeAllToPresence {ω κ : Type} (r : Resolver ω κ) (projectID : String)
    (calls : List (Nat × Chan (List UserPresence))) : Resolver ω κ :=
  calls.foldl (fun r c => (subscribeToPresence r c.1 projectID c.2).1) r

/-- The value of a decimal numeral: the inverse of the printing of a natural
number. -/
def decimalValue (digits : List Char) : Nat :=
  digits.foldl (fun acc c => acc * 10 + (c.toNat - 48)) 0

/-- The warning `broadcastOps` prints when it drops a message. -/
def dropWarning {ω : Type} (projectID : String) (s : ProjectOpsSubscriber ω) : String :=
  "Warning: dropped ops for subscriber " ++ s.sockedID ++ " on project " ++ projectID ++
    " (channel full)\n"

/-- What an ops broadcast from `fromSocketID` does to the records of a project,
position by position: the record stays, with its ids and the capacity of its
channel; a record that does not carry the sender's id and whose channel has
room gets the message at the end of its queue; a channel that is full is as
it was, and so is the channel of a record carrying the sender's id. -/
def OpsDelivered {ω : Type} (ops : List ω) (fromSocketID : String)
    (before after : List (ProjectOpsSubscriber ω)) : Prop :=
  after.length = before.length ∧
  ∀ (i : Nat) (s : ProjectOpsSubscriber ω), before[i]? = some s →
    ∃ s', after[i]? = some s' ∧ s'.sockedID = s.sockedID ∧ s'.userID = s.userID ∧
      s'.userName = s.userName ∧ s'.channel.cap = s.channel.cap ∧
      (s.sockedID ≠ fromSocketID → s.channel.buf.length < s.channel.cap →
        s'.channel.buf = s.channel.buf ++ [{ Ops := ops, SocketID := s.sockedID }]) ∧
      (¬ s.channel.buf.length < s.channel.cap → s'.channel = s.channel) ∧
      (s.sockedID = fromSocketID → s'.channel = s.channel)

namespace Demo

/-- Two ops subscribers of project p1: a healthy one and one whose channel is
full. -/
def slowHub : Resolver String String :=
  { NewResolver String String with
    opsSubscribers := mapSet (fun _ => none) "p1"
      [{ sockedID := "22222222", userID := "u2", userName := "Bob",
         channel := { cap := 2, buf := [] } },
       { sockedID := "33333333", userID := "u3", userName := "Cy",
         channel := { cap := 1, buf := [{ Ops := ["old"], SocketID := "33333333" }] } }] }

/-- Ann joins p1, Bob joins p1, Ann joins p1 again with other data. -/
def presenceCalls : List PresenceCall :=
  [.add "p1" "u1" "Ann" "ann@x" "t1", .add "p1" "u2" "Bob" "bob@x" "t2",
   .add "p1" "u1" "Ann B" "ann@y" "t3"]

/-- The hub after `presenceCalls`. -/
def presenceHub : Resolver String String :=
  runPresence (NewResolver String String) presenceCalls

/-- A call during which the read of the project by the Materializer fails. -/
def findFails : Env := { Env.quiet with findFault := true }

/-- A call during which the aggregation of the latest records fails. -/
def aggregateFails : Env := { Env.quiet with aggregateFault := true }

/-- A call during which the decoding of the aggregation cursor fails. -/
def cursorFails : Env := { Env.quiet with cursorFault := true }

/-- An `ADD` without data. -/
def addNoData : OpInput :=
  { ClientSeq := 1, OpType := "ADD", ElementID := "e1", ElementVer := 1, BaseSeq := 0,
    Data := none }

/-- An `UPDATE` of `e1` whose data is the JSON text `null`. -/
def updateNull : OpInput :=
  { ClientSeq := 2, OpType := "UPDATE", ElementID := "e1", ElementVer := 2, BaseSeq := 1,
    Data := some JsonText.null }

end Demo

namespace Demo

/-- The call `updateV1` made while the Materializer cannot read the project. -/
def updateUnsaved : Call :=
  { env := findFails, projectID := pid, socketID := "20000002", userID := "alice",
    ops := [{ ClientSeq := 2, OpType := "UPDATE", ElementID := "e1", ElementVer := 1,
              BaseSeq := 1, Data := some (JsonText.object [("id", JVal.str "e1")]) }] }

/-- A stale write of `e1` (version 1, `baseSeq` 0) made while the aggregation of
the latest records fails. -/
def updateUnchecked : Call :=
  { env := aggregateFails, projectID := pid, socketID := "20000002", userID := "alice",
    ops := [{ ClientSeq := 2, OpType := "UPDATE", ElementID := "e1", ElementVer := 1,
              BaseSeq := 0, Data := some (JsonText.object [("id", JVal.str "e1")]) }] }

end Demo

/-! # Properties -/

/-! ## The loop over the batch -/

theorem processOps_append (projID : ObjectID) (socketID : String) (env : Env) (startSeq : Int)
    (xs ys : List OpInput) (i : Nat) (st : LoopState) :
    processOps projID socketID env startSeq i (xs ++ ys) st =
      processOps projID socketID env startSeq (i + xs.length) ys
        (processOps projID socketID env startSeq i xs st) := by
  induction xs generalizing i st with
  | nil => simp [processOps]
  | cons x xs ih =>
    show processOps projID socketID env startSeq (i + 1) (xs ++ ys) _ = _
    rw [ih, List.length_cons]
    have e : i + 1 + xs.length = i + (xs.length + 1) := by omega
    rw [e]
    rfl

theorem Batch.pre_succ (b : Batch) (i : Nat) (op : OpInput) (h : b.ops[i]? = some op) :
    b.pre (i + 1) = processOp b.projID b.socketID b.env b.startSeq (b.pre i) i op := by
  have hi : i < b.ops.length := by
    rcases Nat.lt_or_ge i b.ops.length with h1 | h1
    · exact h1
    · rw [List.getElem?_eq_none h1] at h; cases h
  unfold Batch.pre
  rw [List.take_succ, h, processOps_append]
  simp [processOps, List.length_take, Nat.min_eq_left (Nat.le_of_lt hi)]

theorem Batch.pre_latest (b : Batch) (i : Nat) : (b.pre i).latestOps = b.latestBefore i := rfl

theorem Batch.pre_full (b : Batch) : b.pre b.ops.length = b.loop := by
  unfold Batch.pre Batch.loop
  rw [List.take_length]

theorem Batch.pre_zero (b : Batch) : b.pre 0 = loopInit b.latest0 := by
  simp [Batch.pre, processOps]

theorem Batch.latestBefore_zero (b : Batch) : b.latestBefore 0 = b.latest0 := by
  rw [← Batch.pre_latest, Batch.pre_zero]; rfl

theorem Batch.rejectedAt_of_get (b : Batch) (i : Nat) (op : OpInput) (h : b.ops[i]? = some op) :
    b.rejectedAt i = conflicts (b.latestBefore i op.ElementID) op := by
  simp [Batch.rejectedAt, h]

theorem Batch.latestBefore_succ (b : Batch) (i : Nat) (op : OpInput) (h : b.ops[i]? = some op)
    (e : String) :
    b.latestBefore (i + 1) e =
      if b.rejectedAt i = false ∧ e = op.ElementID then
        some ⟨b.startSeq + (i : Int), op.ElementVer, op.OpType⟩
      else b.latestBefore i e := by
  rw [← Batch.pre_latest, Batch.pre_succ b i op h, Batch.rejectedAt_of_get b i op h,
    ← Batch.pre_latest]
  unfold processOp
  cases hl : (b.pre i).latestOps op.ElementID with
  | none => simp [conflicts, acceptOp, mapSet]
  | some l =>
    by_cases hc : l.Seq > op.BaseSeq ∧ op.ElementVer ≤ l.ElementVer
    · simp [conflicts, hc]
    · simp [conflicts, hc, acceptOp, mapSet]

theorem Batch.pre_accepted_succ (b : Batch) (i : Nat) (op : OpInput) (h : b.ops[i]? = some op) :
    (b.pre (i + 1)).acceptedOps = (b.pre i).acceptedOps ++ (b.acceptedAt i).toList := by
  rw [Batch.pre_succ b i op h]
  unfold Batch.acceptedAt
  rw [Batch.rejectedAt_of_get b i op h, ← Batch.pre_latest]
  simp only [h]
  unfold processOp
  cases hl : (b.pre i).latestOps op.ElementID with
  | none => simp [conflicts, acceptOp]
  | some l =>
    by_cases hc : l.Seq > op.BaseSeq ∧ op.ElementVer ≤ l.ElementVer
    · simp [conflicts, hc]
    · simp [conflicts, hc, acceptOp]

theorem Batch.pre_rejected_succ (b : Batch) (i : Nat) (op : OpInput) (h : b.ops[i]? = some op) :
    (b.pre (i + 1)).rejected = (b.pre i).rejected ++ (b.rejectionAt i).toList := by
  rw [Batch.pre_succ b i op h]
  unfold Batch.rejectionAt
  rw [← Batch.pre_latest]
  simp only [h]
  unfold processOp
  cases hl : (b.pre i).latestOps op.ElementID with
  | none => simp [acceptOp]
  | some l =>
    by_cases hc : l.Seq > op.BaseSeq ∧ op.ElementVer ≤ l.ElementVer
    · simp [conflicts, hc]
    · simp [conflicts, hc, acceptOp]

theorem Batch.pre_accepted (b : Batch) (i : Nat) (hi : i ≤ b.ops.length) :
    (b.pre i).acceptedOps = (List.range i).filterMap b.acceptedAt := by
  induction i with
  | zero => simp [Batch.pre_zero, loopInit]
  | succ i ih =>
    have hlt : i < b.ops.length := hi
    have hget : b.ops[i]? = some b.ops[i] := List.getElem?_eq_getElem hlt
    rw [Batch.pre_accepted_succ b i _ hget, ih (Nat.le_of_lt hlt), List.range_succ,
      List.filterMap_append]
    cases hc : b.acceptedAt i <;> simp [List.filterMap_cons, hc]

theorem Batch.pre_rejected (b : Batch) (i : Nat) (hi : i ≤ b.ops.length) :
    (b.pre i).rejected = (List.range i).filterMap b.rejectionAt := by
  induction i with
  | zero => simp [Batch.pre_zero, loopInit]
  | succ i ih =>
    have hlt : i < b.ops.length := hi
    have hget : b.ops[i]? = some b.ops[i] := List.getElem?_eq_getElem hlt
    rw [Batch.pre_rejected_succ b i _ hget, ih (Nat.le_of_lt hlt), List.range_succ,
      List.filterMap_append]
    cases hc : b.rejectionAt i <;> simp [List.filterMap_cons, hc]

theorem Batch.loop_accepted (b : Batch) :
    b.loop.acceptedOps = (List.range b.ops.length).filterMap b.acceptedAt := by
  rw [← Batch.pre_full, Batch.pre_accepted b _ (Nat.le_refl _)]

theorem Batch.loop_rejected (b : Batch) :
    b.loop.rejected = (List.range b.ops.length).filterMap b.rejectionAt := by
  rw [← Batch.pre_full, Batch.pre_rejected b _ (Nat.le_refl _)]

/-! ## The aggregation -/

theorem groupFirst_eq (l : List Operation) : groupFirst l = l.foldl groupStep [] := rfl

theorem groupFold_nodup (l : List Operation) (acc : List LatestRow)
    (h : (acc.map (fun r => r.ElementID)).Nodup) :
    ((l.foldl groupStep acc).map (fun r => r.ElementID)).Nodup := by
  induction l generalizing acc with
  | nil => simpa using h
  | cons o l ih =>
    simp only [List.foldl_cons]
    apply ih
    unfold groupStep
    split
    · exact h
    · rename_i hany
      simp only [List.map_append, List.map_cons, List.map_nil]
      rw [List.nodup_append]
      refine ⟨h, by simp, ?_⟩
      intro a ha hb
      simp only [List.mem_singleton] at hb
      subst hb
      apply hany
      simp only [List.mem_map] at ha
      obtain ⟨r, hr, hre⟩ := ha
      simp only [List.any_eq_true, beq_iff_eq]
      exact ⟨r, hr, hre⟩

theorem groupFold_find (l : List Operation) (acc : List LatestRow) (e : String) :
    (l.foldl groupStep acc).find? (fun r => r.ElementID == e) =
      match acc.find? (fun r => r.ElementID == e) with
      | some r => some r
      | none => (l.find? (fun o => o.ElementID == e)).map rowOf := by
  induction l generalizing acc with
  | nil => simp; cases acc.find? (fun r => r.ElementID == e) <;> rfl
  | cons o l ih =>
    simp only [List.foldl_cons]
    rw [ih]
    unfold groupStep
    by_cases hany : (acc.any (fun r => r.ElementID == o.ElementID)) = true
    · rw [if_pos hany]
      cases hacc : acc.find? (fun r => r.ElementID == e) with
      | some r => rfl
      | none =>
        have hne : (o.ElementID == e) = false := by
          rw [List.find?_eq_none] at hacc
          simp only [List.any_eq_true, beq_iff_eq] at hany
          obtain ⟨r, hr, hre⟩ := hany
          have := hacc r hr
          simp only [beq_iff_eq] at this
          rw [beq_eq_false_iff_ne]
          intro heq
          exact this (hre.trans heq)
        simp only [List.find?_cons, hne]
    · rw [if_neg hany, List.find?_append]
      cases hacc : acc.find? (fun r => r.ElementID == e) with
      | some r => rfl
      | none =>
        simp only [Option.none_or, List.find?_cons, List.find?_nil]
        by_cases hoe : o.ElementID = e
        · simp [hoe, rowOf]
        · have : (o.ElementID == e) = false := by rw [beq_eq_false_iff_ne]; exact hoe
          simp [this]

theorem foldl_mapSet_nodup (rows : List LatestRow) (m0 : String → Option LatestInfo)
    (h : (rows.map (fun r => r.ElementID)).Nodup) (e : String) :
    (rows.foldl (fun m res => mapSet m res.ElementID ⟨res.LatestSeq, res.ElementVer, res.OpType⟩)
        m0) e =
      match rows.find? (fun r => r.ElementID == e) with
      | some r => some ⟨r.LatestSeq, r.ElementVer, r.OpType⟩
      | none => m0 e := by
  induction rows generalizing m0 with
  | nil => rfl
  | cons r rows ih =>
    simp only [List.map_cons, List.nodup_cons] at h
    simp only [List.foldl_cons]
    rw [ih _ h.2, List.find?_cons]
    by_cases hre : r.ElementID = e
    · have hnone : rows.find? (fun r => r.ElementID == e) = none := by
        rw [List.find?_eq_none]
        intro x hx hxe
        simp only [beq_iff_eq] at hxe
        apply h.1
        simp only [List.mem_map]
        exact ⟨x, hx, hxe.trans hre.symm⟩
      simp [hnone, hre, mapSet]
    · have : (r.ElementID == e) = false := by rw [beq_eq_false_iff_ne]; exact hre
      rw [this]
      cases rows.find? (fun r => r.ElementID == e) with
      | some x => rfl
      | none =>
        simp only [mapSet]
        rw [if_neg (fun h' => hre h'.symm)]

/-- What the map built from the aggregation holds for an element. -/
theorem latestMap_eq (docs : List Operation) (e : String) :
    ((groupFirst docs).foldl
        (fun m res => mapSet m res.ElementID ⟨res.LatestSeq, res.ElementVer, res.OpType⟩)
        (fun _ => none)) e =
      (docs.find? (fun o => o.ElementID == e)).map infoOf := by
  rw [foldl_mapSet_nodup _ _ (by rw [groupFirst_eq]; exact groupFold_nodup docs [] (by simp)),
    groupFirst_eq, groupFold_find]
  simp only [List.find?_nil]
  cases docs.find? (fun o => o.ElementID == e) <;> rfl

theorem sortSeqDesc_sorted (l : List Operation) :
    (sortSeqDesc l).Pairwise (fun a b => a.Seq ≥ b.Seq) := by
  haveI : IsTotal Operation (fun a b => a.Seq ≥ b.Seq) := ⟨fun a b => Int.le_total b.Seq a.Seq⟩
  haveI : IsTrans Operation (fun a b => a.Seq ≥ b.Seq) :=
    ⟨fun a b c hab hbc => Int.le_trans hbc hab⟩
  exact List.sorted_insertionSort (fun a b => a.Seq ≥ b.Seq) l

theorem mem_sortSeqDesc (l : List Operation) (o : Operation) : o ∈ sortSeqDesc l ↔ o ∈ l :=
  (List.perm_insertionSort (fun a b => a.Seq ≥ b.Seq) l).mem_iff

theorem find_first_max (l : List Operation) (p : Operation → Bool) (r : Operation)
    (hs : l.Pairwise (fun a b => a.Seq ≥ b.Seq)) (hf : l.find? p = some r) :
    ∀ r' ∈ l, p r' = true → r'.Seq ≤ r.Seq := by
  induction l with
  | nil => simp at hf
  | cons a l ih =>
    rw [List.pairwise_cons] at hs
    rw [List.find?_cons] at hf
    intro r' hr' hp
    cases hpa : p a with
    | true =>
      rw [hpa] at hf
      simp only [Option.some.injEq] at hf
      subst hf
      rcases List.mem_cons.1 hr' with h | h
      · subst h; exact Int.le_refl _
      · exact hs.1 r' h
    | false =>
      rw [hpa] at hf
      rcases List.mem_cons.1 hr' with h | h
      · subst h; rw [hpa] at hp; cases hp
      · exact ih hs.2 hf r' h hp

/-- The map read before the loop holds, for an element of the batch, a
highest-seq log record of that element, and nothing when the log has none. -/
theorem readLatest_spec (env : Env) (log : List Operation) (projID : ObjectID)
    (ops : List OpInput) (e : String) (he : e ∈ ops.map (fun op => op.ElementID))
    (hagg : env.aggregateFault = false) (hcur : env.cursorFault = false) :
    (∃ L, readLatest env log projID ops e = some L ∧ LogLatest log projID e L) ∨
    (readLatest env log projID ops e = none ∧ LogSilent log projID e) := by
  have hlen : (ops.map (fun op => op.ElementID)).length > 0 := List.length_pos_of_mem he
  unfold readLatest
  simp only [hlen, hagg, hcur, if_true]
  unfold aggregateLatest
  rw [latestMap_eq]
  cases hf : (sortSeqDesc (log.filter (fun o => decide (o.ProjectID = projID) &&
      decide (o.ElementID ∈ ops.map (fun op => op.ElementID))))).find?
      (fun o => o.ElementID == e) with
  | none =>
    right
    refine ⟨rfl, ?_⟩
    intro r hr hp hre
    rw [List.find?_eq_none] at hf
    have := hf r (by
      rw [mem_sortSeqDesc, List.mem_filter]
      refine ⟨hr, ?_⟩
      simp [hp, hre, -List.mem_map]
      exact he)
    simp [hre] at this
  | some r =>
    left
    refine ⟨infoOf r, rfl, r, ?_, ?_, ?_, ?_, rfl⟩
    · have := List.mem_of_find?_eq_some hf
      rw [mem_sortSeqDesc, List.mem_filter] at this
      exact this.1
    · have := List.mem_of_find?_eq_some hf
      rw [mem_sortSeqDesc, List.mem_filter] at this
      have h2 := this.2
      simp only [Bool.and_eq_true, decide_eq_true_eq] at h2
      exact h2.1
    · have := List.find?_some hf
      simpa using this
    · intro r' hr' hp' he'
      apply find_first_max _ _ r (sortSeqDesc_sorted _) hf r'
      · rw [mem_sortSeqDesc, List.mem_filter]
        refine ⟨hr', ?_⟩
        simp [hp', he', -List.mem_map]
        exact he
      · simp [he']

/-! ## The shape of a call -/

/-- The tail of `ApplyOps` after the loop -/
theorem ApplyOps_claimed (env : Env) (s : Store) (projectID socketID : String)
    (ops : List OpInput) (userID : String) (projID : ObjectID) (q : Project) (ps : List Project)
    (hne : ops ≠ []) (hid : ObjectIDFromHex projectID = some projID)
    (hclaim : env.claimFault = false)
    (hfind : findOneAndUpdate projID userID (ops.length : Int) env.now s.projects = some (q, ps)) :
    ApplyOps env s projectID socketID ops userID =
      (let fin := (batchOf env s projID socketID ops q).loop
       if fin.acceptedOps.length > 0 then
          match env.insertFault with
          | some k =>
            (.error .insertFailed,
              { projects := ps, operations := s.operations ++ fin.acceptedOps.take k })
          | none =>
            match applyOpsToElements env ps projID fin.acceptedOps with
            | .panic => (.panic, { projects := ps, operations := s.operations ++ fin.acceptedOps })
            | .error _ =>
              (.ok { Ack := true, ServerSeq := q.HeadSeq,
                     Rejected := fin.rejected, Accepted := fin.acceptedOps },
                { projects := ps, operations := s.operations ++ fin.acceptedOps })
            | .ok projects2 =>
              (.ok { Ack := true, ServerSeq := q.HeadSeq,
                     Rejected := fin.rejected, Accepted := fin.acceptedOps },
                { projects := projects2, operations := s.operations ++ fin.acceptedOps })
        else
          (.ok { Ack := true, ServerSeq := q.HeadSeq,
                 Rejected := fin.rejected, Accepted := fin.acceptedOps },
            { projects := ps, operations := s.operations })) := by
  have hlen : ¬ ((ops.length : Int) = 0) := by
    intro h
    have : ops.length = 0 := by exact_mod_cast h
    exact hne (List.length_eq_zero.1 this)
  unfold ApplyOps
  simp only [hid, hlen, hclaim, hfind, if_false]
  rfl

/-! ## C1: the conflict rule -/

theorem getElem?_lt {α : Type} (l : List α) (i : Nat) (a : α) (h : l[i]? = some a) :
    i < l.length := by
  rcases Nat.lt_or_ge i l.length with h1 | h1
  · exact h1
  · rw [List.getElem?_eq_none h1] at h; cases h

/-- The map the loop consults at index `i` holds the latest record of each
element in the sense of the conflict rule. -/
theorem Batch.latestBefore_isLatest (b : Batch) (log : List Operation) (e : String)
    (h0 : (∃ L, b.latest0 e = some L ∧ LogLatest log b.projID e L) ∨
      (b.latest0 e = none ∧ LogSilent log b.projID e))
    (i : Nat) (hi : i ≤ b.ops.length) :
    b.IsLatestRecord log i e (b.latestBefore i e) := by
  induction i with
  | zero =>
    rw [Batch.latestBefore_zero]
    have hnone : b.NoneAcceptedBefore 0 e := by
      intro j op hj; omega
    rcases h0 with ⟨L, hL, hlog⟩ | ⟨hL, hlog⟩
    · exact Or.inr (Or.inl ⟨L, hL, hnone, hlog⟩)
    · exact Or.inr (Or.inr ⟨hL, hnone, hlog⟩)
  | succ i ih =>
    have hlt : i < b.ops.length := hi
    have hget : b.ops[i]? = some b.ops[i] := List.getElem?_eq_getElem hlt
    have ih := ih (Nat.le_of_lt hlt)
    rw [Batch.latestBefore_succ b i _ hget]
    by_cases hc : b.rejectedAt i = false ∧ e = b.ops[i].ElementID
    · rw [if_pos hc]
      refine Or.inl ⟨_, rfl, i, b.ops[i], Nat.lt_succ_self i, hget, hc.2.symm, hc.1, ?_, rfl⟩
      intro k op' hk1 hk2; omega
    · rw [if_neg hc]
      have hstep : ∀ op', b.ops[i]? = some op' → op'.ElementID = e → b.rejectedAt i = true := by
        intro op' hop' he'
        rw [hget] at hop'
        simp only [Option.some.injEq] at hop'
        subst hop'
        cases hr : b.rejectedAt i with
        | true => rfl
        | false => exact absurd ⟨hr, he'.symm⟩ hc
      have hnone : b.NoneAcceptedBefore i e → b.NoneAcceptedBefore (i + 1) e := by
        intro hn j op hj hop he'
        rcases Nat.lt_succ_iff_lt_or_eq.1 hj with h | h
        · exact hn j op h hop he'
        · subst h; exact hstep op hop he'
      rcases ih with ⟨L, hL, j, op, hj, hop, hoe, hrj, hbetween, hLeq⟩ | ⟨L, hL, hn, hlog⟩ |
        ⟨hL, hn, hlog⟩
      · refine Or.inl ⟨L, hL, j, op, Nat.lt_succ_of_lt hj, hop, hoe, hrj, ?_, hLeq⟩
        intro k op' hk1 hk2 hop' he'
        rcases Nat.lt_succ_iff_lt_or_eq.1 hk2 with h | h
        · exact hbetween k op' hk1 h hop' he'
        · subst h; exact hstep op' hop' he'
      · exact Or.inr (Or.inl ⟨L, hL, hnone hn, hlog⟩)
      · exact Or.inr (Or.inr ⟨hL, hnone hn, hlog⟩)

theorem conflicts_iff (latest : Option LatestInfo) (op : OpInput) :
    conflicts latest op = true ↔
      ∃ L, latest = some L ∧ L.Seq > op.BaseSeq ∧ op.ElementVer ≤ L.ElementVer := by
  cases latest with
  | none => simp [conflicts]
  | some l => simp [conflicts]

/-- What a call that claimed its range leaves in the log and returns, when
the insert does not fail. -/
theorem ApplyOps_log (env : Env) (s : Store) (projectID socketID : String)
    (ops : List OpInput) (userID : String) (projID : ObjectID) (q : Project) (ps : List Project)
    (hne : ops ≠ []) (hid : ObjectIDFromHex projectID = some projID)
    (hclaim : env.claimFault = false)
    (hfind : findOneAndUpdate projID userID (ops.length : Int) env.now s.projects = some (q, ps))
    (hins : env.insertFault = none) :
    (ApplyOps env s projectID socketID ops userID).2.operations =
        s.operations ++ (batchOf env s projID socketID ops q).loop.acceptedOps ∧
    ((ApplyOps env s projectID socketID ops userID).1 = .panic ∨
      (ApplyOps env s projectID socketID ops userID).1 =
        .ok { Ack := true, ServerSeq := q.HeadSeq,
              Rejected := (batchOf env s projID socketID ops q).loop.rejected,
              Accepted := (batchOf env s projID socketID ops q).loop.acceptedOps }) := by
  rw [ApplyOps_claimed env s projectID socketID ops userID projID q ps hne hid hclaim hfind]
  simp only [hins]
  by_cases hlen : (batchOf env s projID socketID ops q).loop.acceptedOps.length > 0
  · simp only [hlen, if_true]
    cases applyOpsToElements env ps projID (batchOf env s projID socketID ops q).loop.acceptedOps
      <;> simp
  · simp only [hlen, if_false]
    have : (batchOf env s projID socketID ops q).loop.acceptedOps = [] := by
      apply List.length_eq_zero.1; omega
    simp [this]

/-- The conflict rule, when the read succeeds: for a non-empty batch whose
sequence claim succeeds and whose read of the latest records succeeds, the log
receives exactly the accepted ops, and the
op at index `i` is rejected if and only if a latest record exists for its
element (the most recent accepted op of the batch before `i`, else a
highest-seq log record of the element) with `latest.seq > op.baseSeq` and
`op.elementVer <= latest.elementVer`; every other op is accepted, in
particular an op whose `elementVer` exceeds that of the latest record. -/
theorem conflict_rule (env : Env) (s : Store) (projectID socketID : String)
    (ops : List OpInput) (userID : String) (projID : ObjectID) (q : Project) (ps : List Project)
    (hne : ops ≠ []) (hid : ObjectIDFromHex projectID = some projID)
    (hclaim : env.claimFault = false)
    (hfind : findOneAndUpdate projID userID (ops.length : Int) env.now s.projects = some (q, ps))
    (hagg : env.aggregateFault = false) (hcur : env.cursorFault = false) :
    (env.insertFault = none →
      (ApplyOps env s projectID socketID ops userID).2.operations =
          s.operations ++
            (List.range ops.length).filterMap (batchOf env s projID socketID ops q).acceptedAt ∧
      ((ApplyOps env s projectID socketID ops userID).1 = .panic ∨
        (ApplyOps env s projectID socketID ops userID).1 =
          .ok { Ack := true, ServerSeq := q.HeadSeq,
                Rejected := (List.range ops.length).filterMap
                  (batchOf env s projID socketID ops q).rejectionAt,
                Accepted := (List.range ops.length).filterMap
                  (batchOf env s projID socketID ops q).acceptedAt })) ∧
    (∀ i op, ops[i]? = some op →
      ((batchOf env s projID socketID ops q).rejectionAt i).isSome =
          (batchOf env s projID socketID ops q).rejectedAt i ∧
      ((batchOf env s projID socketID ops q).acceptedAt i).isSome =
          !(batchOf env s projID socketID ops q).rejectedAt i ∧
      ∃ latest,
        (batchOf env s projID socketID ops q).IsLatestRecord s.operations i op.ElementID latest ∧
        ((batchOf env s projID socketID ops q).rejectedAt i = true ↔
          ∃ L, latest = some L ∧ L.Seq > op.BaseSeq ∧ op.ElementVer ≤ L.ElementVer) ∧
        (∀ L, latest = some L → op.ElementVer > L.ElementVer →
          (batchOf env s projID socketID ops q).rejectedAt i = false)) := by
  refine ⟨?_, ?_⟩
  · intro hins
    have h := ApplyOps_log env s projectID socketID ops userID projID q ps hne hid hclaim hfind hins
    rw [Batch.loop_accepted, Batch.loop_rejected] at h
    exact h
  · intro i op hop
    have hi : i < ops.length := getElem?_lt ops i op hop
    have hmem : op.ElementID ∈ ops.map (fun op => op.ElementID) :=
      List.mem_map.2 ⟨op, List.getElem?_mem hop, rfl⟩
    have hb : (batchOf env s projID socketID ops q).ops[i]? = some op := hop
    have hrej := Batch.rejectedAt_of_get _ i op hb
    refine ⟨?_, ?_, (batchOf env s projID socketID ops q).latestBefore i op.ElementID, ?_, ?_, ?_⟩
    · unfold Batch.rejectionAt
      rw [hrej]
      simp only [hb]
      cases hl : (batchOf env s projID socketID ops q).latestBefore i op.ElementID with
      | none => simp [conflicts]
      | some l => by_cases hc : conflicts (some l) op = true <;> simp [hc]
    · unfold Batch.acceptedAt
      simp only [hb]
      cases hr : (batchOf env s projID socketID ops q).rejectedAt i <;> simp
    · exact Batch.latestBefore_isLatest _ s.operations op.ElementID
        (readLatest_spec env s.operations projID ops op.ElementID hmem hagg hcur) i
        (Nat.le_of_lt hi)
    · rw [hrej]; exact conflicts_iff _ _
    · intro L hL hver
      rw [hrej, hL]
      simp only [conflicts, decide_eq_false_iff_not, not_and, not_le]
      intro _; exact hver

/-! ## C4: accepted ops and their seqs -/

theorem Batch.acceptedAt_some (b : Batch) (i : Nat) (o : Operation) (h : b.acceptedAt i = some o) :
    ∃ op, b.ops[i]? = some op ∧ b.rejectedAt i = false ∧
      o = mkOperation b.projID b.socketID (b.startSeq + (i : Int)) (b.env.opTime i) op := by
  unfold Batch.acceptedAt at h
  cases hop : b.ops[i]? with
  | none => rw [hop] at h; cases h
  | some op =>
    rw [hop] at h
    cases hr : b.rejectedAt i with
    | true => rw [hr] at h; simp at h
    | false =>
      rw [hr] at h
      simp only [Bool.false_eq_true, if_false, Option.some.injEq] at h
      exact ⟨op, rfl, rfl, h.symm⟩

theorem Batch.acceptedAt_seq (b : Batch) (i : Nat) (o : Operation) (h : b.acceptedAt i = some o) :
    o.Seq = b.startSeq + (i : Int) := by
  obtain ⟨op, _, _, ho⟩ := Batch.acceptedAt_some b i o h
  rw [ho]; rfl

/-- The accepted documents of a batch carry strictly increasing seqs. -/
theorem Batch.accepted_increasing (b : Batch) (n : Nat) :
    ((List.range n).filterMap b.acceptedAt).Pairwise (fun x y => x.Seq < y.Seq) := by
  refine List.Pairwise.filterMap b.acceptedAt ?_ (List.pairwise_lt_range n)
  intro i j hij x hx y hy
  rw [Batch.acceptedAt_seq b i x (by simpa using hx), Batch.acceptedAt_seq b j y (by simpa using hy)]
  omega

/-- A call on a non-empty batch that returns a result went through the claim
and the loop. -/
theorem ApplyOps_ok_inv (env : Env) (s : Store) (projectID socketID : String)
    (ops : List OpInput) (userID : String) (res : ApplyOpsResult) (hne : ops ≠ [])
    (hok : (ApplyOps env s projectID socketID ops userID).1 = .ok res) :
    ∃ projID q ps, ObjectIDFromHex projectID = some projID ∧ env.claimFault = false ∧
      findOneAndUpdate projID userID (ops.length : Int) env.now s.projects = some (q, ps) ∧
      res = { Ack := true, ServerSeq := q.HeadSeq,
              Rejected := (batchOf env s projID socketID ops q).loop.rejected,
              Accepted := (batchOf env s projID socketID ops q).loop.acceptedOps } ∧
      (ApplyOps env s projectID socketID ops userID).2.operations =
        s.operations ++ (batchOf env s projID socketID ops q).loop.acceptedOps := by
  cases hid : ObjectIDFromHex projectID with
  | none => simp [ApplyOps, hid] at hok
  | some projID =>
    have hlen : ¬ ((ops.length : Int) = 0) := by
      intro h
      have : ops.length = 0 := by exact_mod_cast h
      exact hne (List.length_eq_zero.1 this)
    cases hclaim : env.claimFault with
    | true => simp [ApplyOps, hid, hlen, hclaim] at hok
    | false =>
      cases hfind : findOneAndUpdate projID userID (ops.length : Int) env.now s.projects with
      | none => simp [ApplyOps, hid, hlen, hclaim, hfind] at hok
      | some qp =>
        obtain ⟨q, ps⟩ := qp
        refine ⟨projID, q, ps, rfl, rfl, hfind, ?_⟩
        rw [ApplyOps_claimed env s projectID socketID ops userID projID q ps hne hid hclaim hfind]
          at hok ⊢
        by_cases hl : (batchOf env s projID socketID ops q).loop.acceptedOps.length > 0
        · simp only [hl, if_true] at hok ⊢
          cases hins : env.insertFault with
          | some k => rw [hins] at hok; simp at hok
          | none =>
            rw [hins] at hok
            simp only at hok ⊢
            cases hm : applyOpsToElements env ps projID
                (batchOf env s projID socketID ops q).loop.acceptedOps with
            | panic => rw [hm] at hok; simp at hok
            | error e =>
              rw [hm] at hok
              simp only [Outcome.ok.injEq] at hok
              exact ⟨hok.symm, rfl⟩
            | ok p2 =>
              rw [hm] at hok
              simp only [Outcome.ok.injEq] at hok
              exact ⟨hok.symm, rfl⟩
        · simp only [hl, if_false] at hok ⊢
          simp only [Outcome.ok.injEq] at hok
          refine ⟨hok.symm, ?_⟩
          have : (batchOf env s projID socketID ops q).loop.acceptedOps = [] := by
            apply List.length_eq_zero.1; omega
          simp [this]

/-- C4: after a successful call on a non-empty batch the log has grown by exactly
the ops of `result.Accepted`, in input order; the op accepted from input
index `i` carries `seq = startSeq + i` with `startSeq = newHeadSeq - n + 1`,
and no accepted op carries the seq of a rejected slot. -/
theorem C4_accepted_are_appended (env : Env) (s : Store) (projectID socketID : String)
    (ops : List OpInput) (userID : String) (res : ApplyOpsResult) (hne : ops ≠ [])
    (hok : (ApplyOps env s projectID socketID ops userID).1 = .ok res) :
    (ApplyOps env s projectID socketID ops userID).2.operations = s.operations ++ res.Accepted ∧
    res.Accepted.Pairwise (fun x y => x.Seq < y.Seq) ∧
    ∃ projID q ps, ObjectIDFromHex projectID = some projID ∧
      findOneAndUpdate projID userID (ops.length : Int) env.now s.projects = some (q, ps) ∧
      res.ServerSeq = q.HeadSeq ∧
      res.Accepted =
        (List.range ops.length).filterMap (batchOf env s projID socketID ops q).acceptedAt ∧
      (∀ i op, ops[i]? = some op →
        (batchOf env s projID socketID ops q).rejectedAt i = false →
        (batchOf env s projID socketID ops q).acceptedAt i =
          some (mkOperation projID socketID (res.ServerSeq - (ops.length : Int) + 1 + (i : Int))
            (env.opTime i) op)) ∧
      (∀ i, i < ops.length → (batchOf env s projID socketID ops q).rejectedAt i = true →
        ∀ o ∈ res.Accepted, o.Seq ≠ res.ServerSeq - (ops.length : Int) + 1 + (i : Int)) := by
  obtain ⟨projID, q, ps, hid, _, hfind, hres, hlog⟩ :=
    ApplyOps_ok_inv env s projectID socketID ops userID res hne hok
  have hacc : res.Accepted =
      (List.range ops.length).filterMap (batchOf env s projID socketID ops q).acceptedAt := by
    rw [hres]
    exact Batch.loop_accepted (batchOf env s projID socketID ops q)
  have hseq : res.ServerSeq = q.HeadSeq := by rw [hres]
  refine ⟨?_, ?_, projID, q, ps, hid, hfind, hseq, hacc, ?_, ?_⟩
  · rw [hlog, hres]
  · rw [hacc]; exact Batch.accepted_increasing _ _
  · intro i op hop hrej
    have hb : (batchOf env s projID socketID ops q).ops[i]? = some op := hop
    unfold Batch.acceptedAt
    simp only [hb, hrej, Bool.false_eq_true, if_false]
    rw [hseq]
    rfl
  · intro i _ hrej o ho
    rw [hacc, List.mem_filterMap] at ho
    obtain ⟨j, _, hj⟩ := ho
    obtain ⟨op, _, hrj, _⟩ := Batch.acceptedAt_some _ j o hj
    have hs := Batch.acceptedAt_seq _ j o hj
    rw [hs, hseq]
    intro heq
    have hji : j = i := by
      have : (batchOf env s projID socketID ops q).startSeq
          = q.HeadSeq - (ops.length : Int) + 1 := rfl
      rw [this] at heq
      omega
    rw [hji, hrej] at hrj
    cases hrj

theorem conflict_rule_demo :
    ObjectIDFromHex Demo.pid = some Demo.projID ∧
    (ApplyOps Env.quiet Demo.store5 Demo.pid "20000002" [Demo.staleOp, Demo.advancedOp]
        "bob").2.operations =
      Demo.store5.operations ++
        (List.range 2).filterMap
          (batchOf Env.quiet Demo.store5 Demo.projID "20000002" [Demo.staleOp, Demo.advancedOp]
            (Demo.claimed 2)).acceptedAt :=
  ⟨by decide,
    ((conflict_rule Env.quiet Demo.store5 Demo.pid "20000002" [Demo.staleOp, Demo.advancedOp]
      "bob" Demo.projID (Demo.claimed 2) [Demo.claimed 2]
      (by decide) (by decide) rfl (by decide) rfl rfl).1 rfl).1⟩

theorem C4_accepted_are_appended_witness :
    (ApplyOps Env.quiet Demo.store5 Demo.pid "20000002" [Demo.staleOp, Demo.advancedOp] "bob").1 =
      .ok { Ack := true, ServerSeq := 7, Rejected := [Demo.staleRejection],
            Accepted := [Demo.advancedDoc] } ∧
    (ApplyOps Env.quiet Demo.store5 Demo.pid "20000002" [Demo.staleOp, Demo.advancedOp]
        "bob").2.operations = Demo.store5.operations ++ [Demo.advancedDoc] :=
  ⟨by decide,
    (C4_accepted_are_appended Env.quiet Demo.store5 Demo.pid "20000002"
      [Demo.staleOp, Demo.advancedOp] "bob"
      { Ack := true, ServerSeq := 7, Rejected := [Demo.staleRejection],
        Accepted := [Demo.advancedDoc] } (by decide) (by decide)).1⟩

/-! ## C5: the acknowledgement -/

/-- C5 (failing input): on a fresh project the owner submits `ADD e1` with data `null`
followed by `DELETE e1`.  The claim succeeds and moves `headSeq` from 0 to 2,
both ops are accepted and written to the log, and the call then panics in the
Materializer instead of returning `Ack = true`. -/
theorem C5_no_ack_on_null_data :
    ApplyOps Env.quiet Demo.store0 Demo.pid "20000002" [Demo.addNull, Demo.deleteE1] "alice" =
      (Outcome.panic,
        { projects := [{ Demo.project 0 with HeadSeq := 2, UpdatedAt := "t" }],
          operations :=
            [mkOperation Demo.projID "20000002" 1 "t" Demo.addNull,
             mkOperation Demo.projID "20000002" 2 "t" Demo.deleteE1] }) := by
  decide

/-! ## C6 and C7: rejections -/

theorem Batch.rejectionAt_of_rejected (b : Batch) (i : Nat) (op : OpInput)
    (hop : b.ops[i]? = some op) (hrej : b.rejectedAt i = true) :
    ∃ L, b.latestBefore i op.ElementID = some L ∧ L.Seq > op.BaseSeq ∧
      op.ElementVer ≤ L.ElementVer ∧ b.rejectionAt i = some (mkRejected L op) := by
  rw [Batch.rejectedAt_of_get b i op hop] at hrej
  obtain ⟨L, hL, h1, h2⟩ := (conflicts_iff _ _).1 hrej
  refine ⟨L, hL, h1, h2, ?_⟩
  unfold Batch.rejectionAt
  simp only [hop, hL]
  rw [hL] at hrej
  simp [hrej]

theorem Batch.rejectionAt_some (b : Batch) (i : Nat) (r : RejectedOp)
    (h : b.rejectionAt i = some r) :
    ∃ op, b.ops[i]? = some op ∧ b.rejectedAt i = true := by
  unfold Batch.rejectionAt at h
  cases hop : b.ops[i]? with
  | none => rw [hop] at h; cases h
  | some op =>
    refine ⟨op, rfl, ?_⟩
    rw [hop] at h
    rw [Batch.rejectedAt_of_get b i op hop]
    cases hl : b.latestBefore i op.ElementID with
    | none => simp only [hl] at h; cases h
    | some l =>
      simp only [hl] at h
      by_cases hc : conflicts (some l) op = true
      · exact hc
      · simp [hc] at h

/-- C6: every entry of `Rejected` comes from an op of the batch that the loop
rejected, and carries that op's `clientSeq` and `elementId` and the reason
"element modified at seq L (ver V), your base was seq B (ver W)" built from
the latest record and the op; every rejected op has such an entry. -/
theorem C6_rejected_entry (env : Env) (s : Store) (projectID socketID : String)
    (ops : List OpInput) (userID : String) (res : ApplyOpsResult) (hne : ops ≠ [])
    (hok : (ApplyOps env s projectID socketID ops userID).1 = .ok res) :
    res.Ack = true ∧
    ∃ projID q ps, ObjectIDFromHex projectID = some projID ∧
      findOneAndUpdate projID userID (ops.length : Int) env.now s.projects = some (q, ps) ∧
      res.Rejected =
        (List.range ops.length).filterMap (batchOf env s projID socketID ops q).rejectionAt ∧
      (∀ r ∈ res.Rejected, ∃ i op L, ops[i]? = some op ∧
        (batchOf env s projID socketID ops q).rejectedAt i = true ∧
        (batchOf env s projID socketID ops q).latestBefore i op.ElementID = some L ∧
        r.ClientSeq = op.ClientSeq ∧ r.ElementID = op.ElementID ∧
        r.Reason = "element modified at seq " ++ toString L.Seq ++ " (ver " ++
          toString L.ElementVer ++ "), your base was seq " ++ toString op.BaseSeq ++ " (ver " ++
          toString op.ElementVer ++ ")") ∧
      (∀ i op, ops[i]? = some op →
        (batchOf env s projID socketID ops q).rejectedAt i = true →
        ∃ L, (batchOf env s projID socketID ops q).latestBefore i op.ElementID = some L ∧
          mkRejected L op ∈ res.Rejected) := by
  obtain ⟨projID, q, ps, hid, _, hfind, hres, _⟩ :=
    ApplyOps_ok_inv env s projectID socketID ops userID res hne hok
  have hrejl : res.Rejected =
      (List.range ops.length).filterMap (batchOf env s projID socketID ops q).rejectionAt := by
    rw [hres]
    exact Batch.loop_rejected (batchOf env s projID socketID ops q)
  refine ⟨by rw [hres], projID, q, ps, hid, hfind, hrejl, ?_, ?_⟩
  · intro r hr
    rw [hrejl, List.mem_filterMap] at hr
    obtain ⟨i, _, hi⟩ := hr
    obtain ⟨op, hop, hrej⟩ := Batch.rejectionAt_some _ i r hi
    obtain ⟨L, hL, _, _, hrL⟩ := Batch.rejectionAt_of_rejected _ i op hop hrej
    rw [hi] at hrL
    simp only [Option.some.injEq] at hrL
    refine ⟨i, op, L, hop, hrej, hL, ?_, ?_, ?_⟩ <;> rw [hrL] <;> rfl
  · intro i op hop hrej
    obtain ⟨L, hL, _, _, hrL⟩ := Batch.rejectionAt_of_rejected _ i op hop hrej
    refine ⟨L, hL, ?_⟩
    rw [hrejl, List.mem_filterMap]
    exact ⟨i, List.mem_range.2 (getElem?_lt ops i op hop), hrL⟩

/-- The scenario of the conflicting edit: the latest record of `e1` is at seq 5
with version 3 and `headSeq` is 5; a single op on `e1` with `baseSeq` 4 and
`elementVer` 2 is rejected with the expected reason, `Ack` is true, nothing is
accepted and `headSeq` becomes 6. -/
theorem C6_rejected_entry_witness :
    ApplyOps Env.quiet Demo.store5 Demo.pid "20000002" [Demo.staleOp] "bob" =
      (.ok { Ack := true, ServerSeq := 6,
             Rejected :=
               [{ ClientSeq := 7, ElementID := "e1",
                  Reason := "element modified at seq 5 (ver 3), your base was seq 4 (ver 2)" }],
             Accepted := [] },
        { projects := [Demo.claimed 1], operations := [Demo.opE1] }) ∧
    (Demo.claimed 1).HeadSeq = 6 ∧
    ({ Ack := true, ServerSeq := 6, Rejected := [Demo.staleRejection],
       Accepted := [] } : ApplyOpsResult).Ack = true :=
  ⟨by decide, by decide,
    (C6_rejected_entry Env.quiet Demo.store5 Demo.pid "20000002" [Demo.staleOp] "bob"
      { Ack := true, ServerSeq := 6, Rejected := [Demo.staleRejection], Accepted := [] }
      (by decide) (by decide)).1⟩

/-- Inside the loop, an accepted op becomes the latest record of its element
for the following ops, and a rejected op leaves the map untouched. -/
theorem Batch.visibility (env : Env) (s : Store) (projID : ObjectID) (socketID : String)
    (ops : List OpInput) (q : Project) :
    (∀ i j opi opj, ops[i]? = some opi → ops[j]? = some opj → i < j →
      opj.ElementID = opi.ElementID →
      (batchOf env s projID socketID ops q).rejectedAt i = false →
      (∀ k opk, i < k → k < j → ops[k]? = some opk → opk.ElementID ≠ opi.ElementID) →
      opj.BaseSeq < q.HeadSeq - (ops.length : Int) + 1 + (i : Int) →
      opj.ElementVer ≤ opi.ElementVer →
      (batchOf env s projID socketID ops q).rejectedAt j = true ∧
      (batchOf env s projID socketID ops q).rejectionAt j =
        some { ClientSeq := opj.ClientSeq, ElementID := opj.ElementID,
               Reason := rejectReason
                 ⟨q.HeadSeq - (ops.length : Int) + 1 + (i : Int), opi.ElementVer, opi.OpType⟩
                 opj } ∧
      (batchOf env s projID socketID ops q).acceptedAt j = none) ∧
    (∀ i, (batchOf env s projID socketID ops q).rejectedAt i = true →
      (batchOf env s projID socketID ops q).latestBefore (i + 1) =
        (batchOf env s projID socketID ops q).latestBefore i) := by
  refine ⟨?_, ?_⟩
  · intro i j opi opj hi hj hij he hacc hnext hbase hver
    have hlatest : ∀ k, i < k → k ≤ j →
        (batchOf env s projID socketID ops q).latestBefore k opi.ElementID =
          some ⟨q.HeadSeq - (ops.length : Int) + 1 + (i : Int), opi.ElementVer, opi.OpType⟩ := by
      intro k hk1 hk2
      induction k with
      | zero => omega
      | succ k ih =>
        have hklt : k < ops.length := by
          have := getElem?_lt ops j opj hj
          omega
        have hget : (batchOf env s projID socketID ops q).ops[k]? = some ops[k] :=
          List.getElem?_eq_getElem hklt
        rw [Batch.latestBefore_succ _ k _ hget]
        rcases Nat.lt_succ_iff_lt_or_eq.1 hk1 with h | h
        · have hne : ¬ ((batchOf env s projID socketID ops q).rejectedAt k = false ∧
              opi.ElementID = ops[k].ElementID) := by
            intro hc
            exact hnext k ops[k] h (by omega) (List.getElem?_eq_getElem hklt) hc.2.symm
          rw [if_neg hne]
          exact ih h (by omega)
        · subst h
          have hopi : ops[i] = opi := by
            have := List.getElem?_eq_getElem hklt
            rw [hi] at this
            exact (Option.some.inj this).symm
          rw [if_pos ⟨hacc, by rw [hopi]⟩, hopi]
          rfl
    have hL := hlatest j hij (Nat.le_refl j)
    have hb : (batchOf env s projID socketID ops q).ops[j]? = some opj := hj
    have hrej : (batchOf env s projID socketID ops q).rejectedAt j = true := by
      rw [Batch.rejectedAt_of_get _ j opj hb, he, hL]
      simp only [conflicts, decide_eq_true_eq]
      exact ⟨hbase, hver⟩
    refine ⟨hrej, ?_, ?_⟩
    · obtain ⟨L, hL', _, _, hr⟩ := Batch.rejectionAt_of_rejected _ j opj hb hrej
      rw [he, hL] at hL'
      simp only [Option.some.injEq] at hL'
      rw [hr, ← hL']
      rfl
    · unfold Batch.acceptedAt
      simp [hb, hrej]
  · intro i hrej
    funext e
    cases hop : (batchOf env s projID socketID ops q).ops[i]? with
    | none =>
      unfold Batch.rejectedAt at hrej
      rw [hop] at hrej
      cases hrej
    | some op =>
      rw [Batch.latestBefore_succ _ i op hop, if_neg]
      rw [hrej]
      simp

/-- C7: within one batch an accepted op is visible to the conflict check of the
later ops: when the op at index `i` is accepted and the op at index `j > i` is
the next op on the same element, with `baseSeq < startSeq + i` and an
`elementVer` not above that of op `i`, op `j` is rejected, its entry in
`Rejected` cites `startSeq + i` and the version of op `i`, and no document is
written for it; and a rejected op leaves the map of latest records seen by the
later ops as it was. -/
theorem C7_batch_visibility (env : Env) (s : Store) (projectID socketID : String)
    (ops : List OpInput) (userID : String) (res : ApplyOpsResult) (hne : ops ≠ [])
    (hok : (ApplyOps env s projectID socketID ops userID).1 = .ok res) :
    ∃ projID q ps, ObjectIDFromHex projectID = some projID ∧
      findOneAndUpdate projID userID (ops.length : Int) env.now s.projects = some (q, ps) ∧
      res.ServerSeq = q.HeadSeq ∧
      (∀ i j opi opj, ops[i]? = some opi → ops[j]? = some opj → i < j →
        opj.ElementID = opi.ElementID →
        (batchOf env s projID socketID ops q).rejectedAt i = false →
        (∀ k opk, i < k → k < j → ops[k]? = some opk → opk.ElementID ≠ opi.ElementID) →
        opj.BaseSeq < res.ServerSeq - (ops.length : Int) + 1 + (i : Int) →
        opj.ElementVer ≤ opi.ElementVer →
        (batchOf env s projID socketID ops q).rejectedAt j = true ∧
        (batchOf env s projID socketID ops q).acceptedAt j = none ∧
        ({ ClientSeq := opj.ClientSeq, ElementID := opj.ElementID,
           Reason := "element modified at seq " ++
             toString (res.ServerSeq - (ops.length : Int) + 1 + (i : Int)) ++ " (ver " ++
             toString opi.ElementVer ++ "), your base was seq " ++ toString opj.BaseSeq ++
             " (ver " ++ toString opj.ElementVer ++ ")" } : RejectedOp) ∈ res.Rejected) ∧
      (∀ i, (batchOf env s projID socketID ops q).rejectedAt i = true →
        (batchOf env s projID socketID ops q).latestBefore (i + 1) =
          (batchOf env s projID socketID ops q).latestBefore i) := by
  obtain ⟨projID, q, ps, hid, _, hfind, hres, _⟩ :=
    ApplyOps_ok_inv env s projectID socketID ops userID res hne hok
  have hseq : res.ServerSeq = q.HeadSeq := by rw [hres]
  have hrejl : res.Rejected =
      (List.range ops.length).filterMap (batchOf env s projID socketID ops q).rejectionAt := by
    rw [hres]
    exact Batch.loop_rejected (batchOf env s projID socketID ops q)
  have hv := Batch.visibility env s projID socketID ops q
  refine ⟨projID, q, ps, hid, hfind, hseq, ?_, hv.2⟩
  intro i j opi opj hi hj hij he hacc hnext hbase hver
  rw [hseq] at hbase ⊢
  obtain ⟨h1, h2, h3⟩ := hv.1 i j opi opj hi hj hij he hacc hnext hbase hver
  refine ⟨h1, h3, ?_⟩
  rw [hrejl, List.mem_filterMap]
  exact ⟨j, List.mem_range.2 (getElem?_lt ops j opj hj), h2⟩

theorem C7_batch_visibility_witness :
    (ApplyOps Env.quiet Demo.store0 Demo.pid "20000002" [Demo.firstOp, Demo.secondOp] "alice").1 =
      .ok Demo.pairResult ∧
    ∃ projID q ps, ObjectIDFromHex Demo.pid = some projID ∧
      findOneAndUpdate projID "alice" (([Demo.firstOp, Demo.secondOp].length : Nat) : Int)
        Env.quiet.now Demo.store0.projects = some (q, ps) ∧
      Demo.pairResult.ServerSeq = q.HeadSeq :=
  ⟨by decide,
    match C7_batch_visibility Env.quiet Demo.store0 Demo.pid "20000002"
      [Demo.firstOp, Demo.secondOp] "alice" Demo.pairResult (by decide) (by decide) with
    | ⟨projID, q, ps, h1, h2, h3, _⟩ => ⟨projID, q, ps, h1, h2, h3⟩⟩

/-! ## C8, C9 and C10 -/

theorem findOneAndUpdate_none (projID : ObjectID) (userID : String) (n : Int) (now : String)
    (ps : List Project) (h : ∀ p ∈ ps, matchesClaim projID userID p = false) :
    findOneAndUpdate projID userID n now ps = none := by
  induction ps with
  | nil => rfl
  | cons p ps ih =>
    have hp := h p (List.mem_cons_self p ps)
    simp only [findOneAndUpdate, hp, Bool.false_eq_true, if_false]
    rw [ih (fun x hx => h x (List.mem_cons_of_mem p hx))]

/-- C8: for a non-empty batch, when no project document has the given id with the
user as owner or member (the project is missing, or the user has no access),
`ApplyOps` returns an error and no result and leaves the whole store, hence
`headSeq`, the log and the snapshot, unchanged.  The error depends only on the
id text and on the driver, so a missing project and an inaccessible one give
the same error. -/
theorem C8_unauthorized (env : Env) (s : Store) (projectID socketID : String)
    (ops : List OpInput) (userID : String) (hne : ops ≠ [])
    (hno : ∀ projID, ObjectIDFromHex projectID = some projID →
      ∀ p ∈ s.projects, ¬ (p.ID = projID ∧ (p.Owner = userID ∨ userID ∈ p.Members))) :
    ApplyOps env s projectID socketID ops userID = (.error (claimError env projectID), s) ∧
    (∀ projID, ObjectIDFromHex projectID = some projID → env.claimFault = false →
      (ApplyOps env s projectID socketID ops userID).1 =
        .error (.claimFailed .noDocuments)) := by
  have hlen : ¬ ((ops.length : Int) = 0) := by
    intro h
    have : ops.length = 0 := by exact_mod_cast h
    exact hne (List.length_eq_zero.1 this)
  have main : ApplyOps env s projectID socketID ops userID =
      (.error (claimError env projectID), s) := by
    unfold claimError
    cases hid : ObjectIDFromHex projectID with
    | none => simp [ApplyOps, hid]
    | some projID =>
      cases hclaim : env.claimFault with
      | true => simp [ApplyOps, hid, hlen, hclaim]
      | false =>
        have hnone : findOneAndUpdate projID userID (ops.length : Int) env.now s.projects
            = none := by
          apply findOneAndUpdate_none
          intro p hp
          have := hno projID hid p hp
          simp only [matchesClaim, Bool.and_eq_false_iff, Bool.or_eq_false_iff,
            decide_eq_false_iff_not]
          by_cases h1 : p.ID = projID
          · right
            exact ⟨fun h => this ⟨h1, Or.inl h⟩, fun h => this ⟨h1, Or.inr h⟩⟩
          · left; exact h1
        simp [ApplyOps, hid, hlen, hclaim, hnone]
  refine ⟨main, ?_⟩
  intro projID hid hclaim
  rw [main]
  simp [claimError, hid, hclaim]

/-- C9: for a well-formed project id, `ApplyOps` with an empty batch returns
`Ack = true` and `ServerSeq = 0` with no accepted and no rejected op, and
leaves the store (`headSeq`, log and snapshot) unchanged, for every user. -/
theorem C9_empty_batch (env : Env) (s : Store) (projectID socketID userID : String)
    (projID : ObjectID) (hid : ObjectIDFromHex projectID = some projID) :
    ApplyOps env s projectID socketID [] userID =
      (.ok { Ack := true, ServerSeq := 0, Rejected := [], Accepted := [] }, s) := by
  simp [ApplyOps, hid]

theorem C9_empty_batch_witness :
    ObjectIDFromHex Demo.pid = some Demo.projID ∧
    ApplyOps Env.quiet Demo.store5 Demo.pid "20000002" [] "mallory" =
      (.ok { Ack := true, ServerSeq := 0, Rejected := [], Accepted := [] }, Demo.store5) :=
  ⟨by decide,
    C9_empty_batch Env.quiet Demo.store5 Demo.pid "20000002" "mallory" Demo.projID (by decide)⟩

/-- C10: in the forward-apply step of the Materializer and of the Reconstructor,
an `ADD` or `UPDATE` whose data decodes to a JSON object sets the entry of
`elementId` to the decoded object; an absent id is appended at the end of the
order, a present id keeps the order as it is; the entries of all other
elements are unchanged. -/
theorem C10_add_update_step (st : ElemState) (op : Operation) (d : JsonText) (o : JObject)
    (htype : op.OpType = "ADD" ∨ op.OpType = "UPDATE") (hdata : op.Data = some d)
    (hobj : unmarshalObject d = some (some o)) :
    ∃ st', applyOpMaterializer st op = some st' ∧ applyOpReconstruct st op = some st' ∧
      st'.elementMap op.ElementID = some (some o) ∧
      (∀ e, e ≠ op.ElementID → st'.elementMap e = st.elementMap e) ∧
      (st.elementMap op.ElementID = none → st'.elementOrder = st.elementOrder ++ [op.ElementID]) ∧
      (st.elementMap op.ElementID ≠ none → st'.elementOrder = st.elementOrder) := by
  refine ⟨applyData st op, ?_, ?_, ?_, ?_, ?_, ?_⟩
  · unfold applyOpMaterializer
    rcases htype with h | h
    · rw [if_pos h]
    · by_cases h1 : op.OpType = "ADD"
      · rw [if_pos h1]
      · rw [if_neg h1, if_pos h]
  · unfold applyOpReconstruct
    rw [if_pos htype]
  · simp [applyData, hdata, hobj, mapSet]
  · intro e he
    simp [applyData, hdata, hobj, mapSet, he]
  · intro habs
    simp [applyData, hdata, hobj, habs]
  · intro hpres
    have : (st.elementMap op.ElementID).isSome = true := by
      cases h : st.elementMap op.ElementID with
      | none => exact absurd h hpres
      | some v => rfl
    simp [applyData, hdata, hobj, this]

theorem C8_unauthorized_witness :
    ApplyOps Env.quiet Demo.store5 Demo.pid "20000002" [Demo.staleOp] "mallory" =
      (.error (claimError Env.quiet Demo.pid), Demo.store5) ∧
    ApplyOps Env.quiet Demo.store5 Demo.otherPid "20000002" [Demo.staleOp] "bob" =
      (.error (claimError Env.quiet Demo.otherPid), Demo.store5) ∧
    claimError Env.quiet Demo.pid = claimError Env.quiet Demo.otherPid :=
  ⟨(C8_unauthorized Env.quiet Demo.store5 Demo.pid "20000002" [Demo.staleOp] "mallory"
      (by decide)
      (fun projID hid p hp => by
        have h1 : p = Demo.project 5 := by simpa [Demo.store5] using hp
        have h2 : projID = Demo.projID := by
          have : ObjectIDFromHex Demo.pid = some Demo.projID := by decide
          rw [this] at hid
          exact (Option.some.inj hid).symm
        subst h1 h2
        decide)).1,
   (C8_unauthorized Env.quiet Demo.store5 Demo.otherPid "20000002" [Demo.staleOp] "bob"
      (by decide)
      (fun projID hid p hp => by
        have h1 : p = Demo.project 5 := by simpa [Demo.store5] using hp
        have h2 : projID = ⟨Demo.otherPid⟩ := by
          have : ObjectIDFromHex Demo.otherPid = some ⟨Demo.otherPid⟩ := by decide
          rw [this] at hid
          exact (Option.some.inj hid).symm
        subst h1 h2
        decide)).1,
   by decide⟩

theorem C10_add_update_step_witness :
    ∃ st', applyOpMaterializer Demo.twoElements Demo.updE0 = some st' ∧
      applyOpReconstruct Demo.twoElements Demo.updE0 = some st' ∧
      st'.elementMap "e0" = some (some [("id", JVal.str "e0"), ("x", JVal.num 3 0)]) ∧
      st'.elementOrder = ["e0", "e1"] :=
  match C10_add_update_step Demo.twoElements Demo.updE0
      (JsonText.object [("id", JVal.str "e0"), ("x", JVal.num 3 0)])
      [("id", JVal.str "e0"), ("x", JVal.num 3 0)] (Or.inr rfl) rfl rfl with
  | ⟨st', h1, h2, h3, _, _, h6⟩ => ⟨st', h1, h2, h3, h6 (by decide)⟩

/-! ## Well-formed stores -/

theorem findOneAndUpdate_id (projID : ObjectID) (userID : String) (n : Int) (now : String)
    (projects : List Project) (q : Project) (ps : List Project)
    (h : findOneAndUpdate projID userID n now projects = some (q, ps)) :
    q.ID = projID ∧ projID ∈ projects.map (fun p => p.ID) := by
  induction projects generalizing ps with
  | nil => simp [findOneAndUpdate] at h
  | cons p rest ih =>
    unfold findOneAndUpdate at h
    by_cases hm : matchesClaim projID userID p = true
    · rw [if_pos hm] at h
      simp only [Option.some.injEq, Prod.mk.injEq] at h
      have hid : p.ID = projID := by
        simp only [matchesClaim, Bool.and_eq_true, decide_eq_true_eq] at hm
        exact hm.1
      refine ⟨by rw [← h.1]; exact hid, ?_⟩
      simp [hid]
    · rw [if_neg hm] at h
      cases hr : findOneAndUpdate projID userID n now rest with
      | none => rw [hr] at h; simp at h
      | some qp =>
        obtain ⟨q', ps'⟩ := qp
        rw [hr] at h
        simp only [Option.some.injEq, Prod.mk.injEq] at h
        obtain ⟨h1, h2⟩ := ih ps' (by rw [hr, h.1])
        exact ⟨h1, by simp only [List.map_cons, List.mem_cons]; exact Or.inr h2⟩

theorem map_bumpHead_of_not_mem (projID : ObjectID) (n : Int) (now : String)
    (l : List Project) (h : projID ∉ l.map (fun p => p.ID)) :
    l.map (bumpHead projID n now) = l := by
  induction l with
  | nil => rfl
  | cons p rest ih =>
    simp only [List.map_cons, List.mem_cons, not_or] at h
    simp only [List.map_cons]
    rw [ih h.2]
    unfold bumpHead
    rw [if_neg (fun hh => h.1 hh.symm)]

/-- With unique project ids the claim rewrites exactly the documents with the
claimed id. -/
theorem findOneAndUpdate_map (projID : ObjectID) (userID : String) (n : Int) (now : String)
    (projects : List Project) (q : Project) (ps : List Project)
    (hnd : (projects.map (fun p => p.ID)).Nodup)
    (h : findOneAndUpdate projID userID n now projects = some (q, ps)) :
    ps = projects.map (bumpHead projID n now) ∧
    ∃ p ∈ projects, p.ID = projID ∧ q = bumpHead projID n now p := by
  induction projects generalizing ps with
  | nil => simp [findOneAndUpdate] at h
  | cons p rest ih =>
    simp only [List.map_cons, List.nodup_cons] at hnd
    unfold findOneAndUpdate at h
    by_cases hm : matchesClaim projID userID p = true
    · rw [if_pos hm] at h
      simp only [Option.some.injEq, Prod.mk.injEq] at h
      have hid : p.ID = projID := by
        simp only [matchesClaim, Bool.and_eq_true, decide_eq_true_eq] at hm
        exact hm.1
      have hq : q = bumpHead projID n now p := by
        rw [← h.1]; unfold bumpHead; rw [if_pos hid]
      refine ⟨?_, p, List.mem_cons_self _ _, hid, hq⟩
      rw [← h.2, List.map_cons, map_bumpHead_of_not_mem projID n now rest (by rw [← hid]; exact hnd.1),
        ← hq, h.1]
    · rw [if_neg hm] at h
      cases hr : findOneAndUpdate projID userID n now rest with
      | none => rw [hr] at h; simp at h
      | some qp =>
        obtain ⟨q', ps'⟩ := qp
        rw [hr] at h
        simp only [Option.some.injEq, Prod.mk.injEq] at h
        obtain ⟨h1, p0, hp0, hp0id, hp0q⟩ := ih ps' hnd.2 (by rw [hr, h.1])
        have hne : p.ID ≠ projID := by
          intro hh
          apply hnd.1
          rw [hh]
          exact (findOneAndUpdate_id projID userID n now rest q' ps' hr).2
        refine ⟨?_, p0, List.mem_cons_of_mem _ hp0, hp0id, hp0q⟩
        rw [← h.2, List.map_cons, ← h1]
        unfold bumpHead
        rw [if_neg hne]

theorem updateElements_map (projID : ObjectID) (text : JsonText) (now : String)
    (projects : List Project) (hnd : (projects.map (fun p => p.ID)).Nodup) :
    updateElements projID text now projects = projects.map (setElements projID text now) := by
  induction projects with
  | nil => rfl
  | cons p rest ih =>
    simp only [List.map_cons, List.nodup_cons] at hnd
    unfold updateElements
    by_cases hid : p.ID = projID
    · rw [if_pos hid, List.map_cons]
      have hrest : rest.map (setElements projID text now) = rest := by
        have hnm : projID ∉ rest.map (fun p => p.ID) := by rw [← hid]; exact hnd.1
        clear ih hnd
        induction rest with
        | nil => rfl
        | cons r rest ih2 =>
          simp only [List.map_cons, List.mem_cons, not_or] at hnm
          simp only [List.map_cons]
          rw [ih2 hnm.2]
          unfold setElements
          rw [if_neg (fun hh => hnm.1 hh.symm)]
      rw [hrest]
      unfold setElements
      rw [if_pos hid]
    · rw [if_neg hid, List.map_cons, ih hnd.2]
      unfold setElements
      rw [if_neg hid]

theorem bumpHead_id (projID : ObjectID) (n : Int) (now : String) (p : Project) :
    (bumpHead projID n now p).ID = p.ID := by
  unfold bumpHead; split <;> rfl

theorem setElements_id (projID : ObjectID) (text : JsonText) (now : String) (p : Project) :
    (setElements projID text now p).ID = p.ID := by
  unfold setElements; split <;> rfl

theorem setElements_head (projID : ObjectID) (text : JsonText) (now : String) (p : Project) :
    (setElements projID text now p).HeadSeq = p.HeadSeq := by
  unfold setElements; split <;> rfl

theorem map_bumpHead_ids (projID : ObjectID) (n : Int) (now : String) (l : List Project) :
    (l.map (bumpHead projID n now)).map (fun p => p.ID) = l.map (fun p => p.ID) := by
  rw [List.map_map]
  apply List.map_congr_left
  intro p _
  exact bumpHead_id projID n now p

theorem map_setElements_ids (projID : ObjectID) (text : JsonText) (now : String)
    (l : List Project) :
    (l.map (setElements projID text now)).map (fun p => p.ID) = l.map (fun p => p.ID) := by
  rw [List.map_map]
  apply List.map_congr_left
  intro p _
  exact setElements_id projID text now p

theorem applyOpsToElements_ok (env : Env) (ps : List Project) (projID : ObjectID)
    (acc : List Operation) (p2 : List Project)
    (h : applyOpsToElements env ps projID acc = .ok p2) :
    ∃ text, p2 = updateElements projID text env.snapshotTime ps := by
  unfold applyOpsToElements at h
  by_cases hf : env.findFault = true
  · rw [if_pos hf] at h; cases h
  · rw [if_neg hf] at h
    cases hp : ps.find? (fun p => decide (p.ID = projID)) with
    | none => rw [hp] at h; cases h
    | some project =>
      rw [hp] at h
      simp only at h
      cases ha : applyAll applyOpMaterializer (loadElements (parseSnapshot project.Elements)) acc
        with
      | none => rw [ha] at h; cases h
      | some st =>
        rw [ha] at h
        simp only at h
        by_cases hu : env.updateFault = true
        · rw [if_pos hu] at h; cases h
        · rw [if_neg hu] at h
          simp only [Outcome.ok.injEq] at h
          exact ⟨_, h.symm⟩

/-- The store after a call that claimed its range. -/
theorem ApplyOps_claimed_store (env : Env) (s : Store) (projectID socketID : String)
    (ops : List OpInput) (userID : String) (projID : ObjectID) (q : Project) (ps : List Project)
    (hne : ops ≠ []) (hid : ObjectIDFromHex projectID = some projID)
    (hclaim : env.claimFault = false)
    (hfind : findOneAndUpdate projID userID (ops.length : Int) env.now s.projects = some (q, ps)) :
    ∃ k, (ApplyOps env s projectID socketID ops userID).2.operations =
        s.operations ++ (batchOf env s projID socketID ops q).loop.acceptedOps.take k ∧
      ((ApplyOps env s projectID socketID ops userID).2.projects = ps ∨
        ∃ text, (ApplyOps env s projectID socketID ops userID).2.projects =
          updateElements projID text env.snapshotTime ps) := by
  rw [ApplyOps_claimed env s projectID socketID ops userID projID q ps hne hid hclaim hfind]
  dsimp only
  generalize (batchOf env s projID socketID ops q).loop = fin
  by_cases hl : fin.acceptedOps.length > 0
  · simp only [hl, if_true]
    cases hins : env.insertFault with
    | some k => exact ⟨k, rfl, Or.inl rfl⟩
    | none =>
      simp only
      cases hm : applyOpsToElements env ps projID fin.acceptedOps with
      | panic => exact ⟨fin.acceptedOps.length, by simp, Or.inl rfl⟩
      | error e => exact ⟨fin.acceptedOps.length, by simp, Or.inl rfl⟩
      | ok p2 =>
        obtain ⟨text, ht⟩ := applyOpsToElements_ok env ps projID fin.acceptedOps p2 hm
        exact ⟨fin.acceptedOps.length, by simp, Or.inr ⟨text, ht⟩⟩
  · simp only [hl, if_false]
    have : fin.acceptedOps = [] := by apply List.length_eq_zero.1; omega
    exact ⟨0, by simp [this], Or.inl (by simp)⟩

/-- The store a call leaves behind: either the store it found, or the claimed
project with an advanced head, a log extended by accepted ops of the batch,
and possibly a rewritten snapshot. -/
theorem ApplyOps_store_cases (env : Env) (s : Store) (projectID socketID : String)
    (ops : List OpInput) (userID : String) (hnd : (s.projects.map (fun p => p.ID)).Nodup) :
    (ApplyOps env s projectID socketID ops userID).2 = s ∨
    ∃ projID q k, ops ≠ [] ∧ ObjectIDFromHex projectID = some projID ∧
      (∃ p ∈ s.projects, p.ID = projID ∧ q = bumpHead projID (ops.length : Int) env.now p) ∧
      (ApplyOps env s projectID socketID ops userID).2.operations =
        s.operations ++ ((List.range ops.length).filterMap
          (batchOf env s projID socketID ops q).acceptedAt).take k ∧
      ((ApplyOps env s projectID socketID ops userID).2.projects =
          s.projects.map (bumpHead projID (ops.length : Int) env.now) ∨
        ∃ text, (ApplyOps env s projectID socketID ops userID).2.projects =
          (s.projects.map (bumpHead projID (ops.length : Int) env.now)).map
            (setElements projID text env.snapshotTime)) := by
  cases hid : ObjectIDFromHex projectID with
  | none => left; simp [ApplyOps, hid]
  | some projID =>
    by_cases hne : ops = []
    · left; subst hne; simp [ApplyOps, hid]
    · have hlen : ¬ ((ops.length : Int) = 0) := by
        intro h
        have : ops.length = 0 := by exact_mod_cast h
        exact hne (List.length_eq_zero.1 this)
      cases hclaim : env.claimFault with
      | true => left; simp [ApplyOps, hid, hlen, hclaim]
      | false =>
        cases hfind : findOneAndUpdate projID userID (ops.length : Int) env.now s.projects with
        | none => left; simp [ApplyOps, hid, hlen, hclaim, hfind]
        | some qp =>
          obtain ⟨q, ps⟩ := qp
          right
          obtain ⟨hps, hq⟩ := findOneAndUpdate_map projID userID _ env.now s.projects q ps hnd hfind
          have hndps : (ps.map (fun p => p.ID)).Nodup := by
            rw [hps, map_bumpHead_ids]; exact hnd
          obtain ⟨k, hk1, hk2⟩ := ApplyOps_claimed_store env s projectID socketID ops userID
            projID q ps hne hid hclaim hfind
          rw [Batch.loop_accepted] at hk1
          refine ⟨projID, q, k, hne, rfl, hq, hk1, ?_⟩
          rcases hk2 with h | ⟨text, h⟩
          · left; rw [h, hps]
          · right
            refine ⟨text, ?_⟩
            rw [h, updateElements_map projID text env.snapshotTime ps hndps, hps]

theorem bumpHead_head_le (projID : ObjectID) (n : Int) (now : String) (p : Project)
    (hn : 0 ≤ n) : p.HeadSeq ≤ (bumpHead projID n now p).HeadSeq := by
  unfold bumpHead
  split
  · simp only; omega
  · exact Int.le_refl _

/-- Every call keeps the store well formed, whatever the driver does. -/
theorem ApplyOps_wellFormed (env : Env) (s : Store) (projectID socketID : String)
    (ops : List OpInput) (userID : String) (hwf : s.WellFormed) :
    (ApplyOps env s projectID socketID ops userID).2.WellFormed := by
  obtain ⟨hnd, hhead, hpw⟩ := hwf
  rcases ApplyOps_store_cases env s projectID socketID ops userID hnd with h | h
  · rw [h]; exact ⟨hnd, hhead, hpw⟩
  · obtain ⟨projID, q, k, hne, hid, ⟨p0, hp0, hp0id, hq⟩, hops, hprojs⟩ := h
    have hn : (0 : Int) ≤ (ops.length : Int) := Int.natCast_nonneg _
    -- every old project has a successor with the same id and a head that is not lower
    have hsucc : ∀ p ∈ s.projects, ∃ p' ∈ (ApplyOps env s projectID socketID ops userID).2.projects,
        p'.ID = p.ID ∧ (bumpHead projID (ops.length : Int) env.now p).HeadSeq = p'.HeadSeq := by
      intro p hp
      rcases hprojs with h | ⟨text, h⟩
      · rw [h]
        exact ⟨bumpHead projID _ env.now p, List.mem_map_of_mem _ hp, bumpHead_id _ _ _ _, rfl⟩
      · rw [h]
        refine ⟨setElements projID text env.snapshotTime (bumpHead projID _ env.now p),
          List.mem_map_of_mem _ (List.mem_map_of_mem _ hp), ?_, ?_⟩
        · rw [setElements_id, bumpHead_id]
        · rw [setElements_head]
    have hnew : ∀ o ∈ ((List.range ops.length).filterMap
        (batchOf env s projID socketID ops q).acceptedAt).take k,
        o.ProjectID = projID ∧ p0.HeadSeq < o.Seq ∧ o.Seq ≤ q.HeadSeq := by
      intro o ho
      have ho' := List.mem_of_mem_take ho
      rw [List.mem_filterMap] at ho'
      obtain ⟨i, hi, hoi⟩ := ho'
      have hi' : i < ops.length := List.mem_range.1 hi
      obtain ⟨op, _, _, hdoc⟩ := Batch.acceptedAt_some _ i o hoi
      have hqh : q.HeadSeq = p0.HeadSeq + (ops.length : Int) := by
        rw [hq]; unfold bumpHead; rw [if_pos hp0id]
      have hstart : (batchOf env s projID socketID ops q).startSeq =
          q.HeadSeq - (ops.length : Int) + 1 := rfl
      refine ⟨by rw [hdoc]; rfl, ?_, ?_⟩
      · rw [Batch.acceptedAt_seq _ i o hoi, hstart, hqh]; omega
      · rw [Batch.acceptedAt_seq _ i o hoi, hstart]; omega
    refine ⟨?_, ?_, ?_⟩
    · rcases hprojs with h | ⟨text, h⟩
      · rw [h, map_bumpHead_ids]; exact hnd
      · rw [h, map_setElements_ids, map_bumpHead_ids]; exact hnd
    · intro o ho
      rw [hops, List.mem_append] at ho
      rcases ho with ho | ho
      · obtain ⟨p, hp, hpid, hle⟩ := hhead o ho
        obtain ⟨p', hp', hid', hh'⟩ := hsucc p hp
        refine ⟨p', hp', by rw [hid', hpid], ?_⟩
        rw [← hh']
        exact Int.le_trans hle (bumpHead_head_le _ _ _ _ hn)
      · obtain ⟨h1, _, h3⟩ := hnew o ho
        obtain ⟨p', hp', hid', hh'⟩ := hsucc p0 hp0
        refine ⟨p', hp', by rw [hid', hp0id, h1], ?_⟩
        rw [← hh', ← hq]
        exact h3
    · rw [hops, List.pairwise_append]
      refine ⟨hpw, ?_, ?_⟩
      · have := Batch.accepted_increasing (batchOf env s projID socketID ops q) ops.length
        exact List.Pairwise.imp (fun {a b} (h : a.Seq < b.Seq) (_ : a.ProjectID = b.ProjectID) => h)
          (this.sublist (List.take_sublist k _))
      · intro a ha b hb hab
        obtain ⟨h1, h2, _⟩ := hnew b hb
        obtain ⟨p, hp, hpid, hle⟩ := hhead a ha
        have hpp : p = p0 := by
          apply List.inj_on_of_nodup_map hnd hp hp0
          rw [hpid, hab, h1, hp0id]
        rw [hpp] at hle
        omega

theorem runCalls_wellFormed (s : Store) (cs : List Call) (hwf : s.WellFormed) :
    (runCalls s cs).WellFormed := by
  induction cs generalizing s with
  | nil => exact hwf
  | cons c cs ih =>
    exact ih _ (ApplyOps_wellFormed c.env s c.projectID c.socketID c.ops c.userID hwf)

theorem wellFormed_init (ps : List Project) (hnd : (ps.map (fun p => p.ID)).Nodup) :
    Store.WellFormed { projects := ps, operations := [] } :=
  ⟨hnd, by simp, List.Pairwise.nil⟩

/-! ## C2: the order of the accepted ops of an element -/

/-- C2 (as stated, refuted): on a fresh project `e1` is created with version 5 at
seq 1, then an up-to-date client (`baseSeq` 1) writes it with version 1.  Both
calls succeed, the second op is accepted at seq 2, and the versions of the
accepted ops of `e1` in seq order are 5 then 1. -/
theorem C2_versions_can_decrease :
    (∃ r, (ApplyOps Demo.createV5.env Demo.store0 Demo.createV5.projectID
        Demo.createV5.socketID Demo.createV5.ops Demo.createV5.userID).1 = .ok r) ∧
    (∃ r, (ApplyOps Demo.updateV1.env (runCalls Demo.store0 [Demo.createV5])
        Demo.updateV1.projectID Demo.updateV1.socketID Demo.updateV1.ops
        Demo.updateV1.userID).1 = .ok r) ∧
    (elementLog (runCalls Demo.store0 [Demo.createV5, Demo.updateV1]) Demo.projID "e1").map
        (fun o => (o.Seq, o.ElementVer)) = [(1, 5), (2, 1)] ∧
    ¬ (elementLog (runCalls Demo.store0 [Demo.createV5, Demo.updateV1]) Demo.projID
        "e1").Chain' (fun a b => a.ElementVer < b.ElementVer) := by
  refine ⟨⟨_, rfl⟩, ⟨_, rfl⟩, by decide, ?_⟩
  have h : elementLog (runCalls Demo.store0 [Demo.createV5, Demo.updateV1]) Demo.projID "e1" =
      [mkOperation Demo.projID "20000002" 1 "t"
          { ClientSeq := 1, OpType := "ADD", ElementID := "e1", ElementVer := 5, BaseSeq := 0,
            Data := some (JsonText.object [("id", JVal.str "e1")]) },
       mkOperation Demo.projID "20000002" 2 "t"
          { ClientSeq := 2, OpType := "UPDATE", ElementID := "e1", ElementVer := 1, BaseSeq := 1,
            Data := some (JsonText.object [("id", JVal.str "e1")]) }] := by
    decide
  rw [h]
  intro hc
  have h2 := List.Chain'.rel_head hc
  revert h2
  decide

theorem Batch.acceptedAt_of_accepted (b : Batch) (i : Nat) (op : OpInput)
    (hop : b.ops[i]? = some op) (hrej : b.rejectedAt i = false) :
    b.acceptedAt i =
      some (mkOperation b.projID b.socketID (b.startSeq + (i : Int)) (b.env.opTime i) op) := by
  unfold Batch.acceptedAt
  simp [hop, hrej]

theorem Batch.acceptedAt_of_rejected (b : Batch) (i : Nat) (hrej : b.rejectedAt i = true) :
    b.acceptedAt i = none := by
  unfold Batch.acceptedAt
  cases b.ops[i]? with
  | none => rfl
  | some op => simp [hrej]

/-- The loop extends the record of an element in the order `Succeeds`, and
its map of latest records follows the last record of the element. -/
theorem Batch.chain_step (b : Batch) (e : String) (L : List Operation)
    (hL : L.Chain' Succeeds) (hLseq : ∀ x ∈ L, x.Seq < b.startSeq)
    (h0 : b.latest0 e = L.getLast?.map infoOf) (m : Nat) (hm : m ≤ b.ops.length) :
    (L ++ ((List.range m).filterMap b.acceptedAt).filter
        (fun o => decide (o.ProjectID = b.projID) && decide (o.ElementID = e))).Chain' Succeeds ∧
    b.latestBefore m e = ((L ++ ((List.range m).filterMap b.acceptedAt).filter
        (fun o => decide (o.ProjectID = b.projID) && decide (o.ElementID = e))).getLast?).map
          infoOf ∧
    (∀ x ∈ L ++ ((List.range m).filterMap b.acceptedAt).filter
        (fun o => decide (o.ProjectID = b.projID) && decide (o.ElementID = e)),
        x.Seq < b.startSeq + (m : Int)) := by
  induction m with
  | zero =>
    simp only [List.range_zero, List.filterMap_nil, List.filter_nil, List.append_nil]
    refine ⟨hL, by rw [Batch.latestBefore_zero]; exact h0, ?_⟩
    intro x hx
    have := hLseq x hx
    simpa using this
  | succ m ih =>
    have hlt : m < b.ops.length := hm
    obtain ⟨ihc, ihl, ihs⟩ := ih (Nat.le_of_lt hlt)
    have hget : b.ops[m]? = some b.ops[m] := List.getElem?_eq_getElem hlt
    generalize hop : b.ops[m] = op at hget
    rw [List.range_succ, List.filterMap_append, List.filter_append, ← List.append_assoc,
      Batch.latestBefore_succ b m op hget]
    generalize hM : L ++ ((List.range m).filterMap b.acceptedAt).filter
        (fun o => decide (o.ProjectID = b.projID) && decide (o.ElementID = e)) = LM at ihc ihl ihs
    cases hrej : b.rejectedAt m with
    | true =>
      have hnone : b.acceptedAt m = none := Batch.acceptedAt_of_rejected b m hrej
      simp only [List.filterMap_cons, List.filterMap_nil, hnone, List.filter_nil,
        List.append_nil]
      refine ⟨ihc, ?_, ?_⟩
      · rw [if_neg (by simp)]; exact ihl
      · intro x hx
        have := ihs x hx
        push_cast
        omega
    | false =>
      have hsome := Batch.acceptedAt_of_accepted b m op hget hrej
      simp only [List.filterMap_cons, List.filterMap_nil, hsome]
      by_cases hoe : op.ElementID = e
      · have hfilt : List.filter
            (fun o => decide (o.ProjectID = b.projID) && decide (o.ElementID = e))
            [mkOperation b.projID b.socketID (b.startSeq + (m : Int)) (b.env.opTime m) op] =
            [mkOperation b.projID b.socketID (b.startSeq + (m : Int)) (b.env.opTime m) op] := by
          simp [mkOperation, hoe]
        rw [hfilt, if_pos (by simp [hoe])]
        refine ⟨?_, ?_, ?_⟩
        · rw [List.chain'_append]
          refine ⟨ihc, List.chain'_singleton _, ?_⟩
          intro x hx y hy
          simp only [List.head?_cons, Option.mem_def, Option.some.injEq] at hy
          subst hy
          have hxmem : x ∈ LM := List.mem_of_mem_getLast? hx
          have hxs := ihs x hxmem
          refine ⟨by simpa [mkOperation] using hxs, ?_⟩
          have hlat : b.latestBefore m op.ElementID = some (infoOf x) := by
            rw [hoe, ihl]
            simp only [Option.mem_def] at hx
            rw [hx]; rfl
          have hnc : conflicts (b.latestBefore m op.ElementID) op = false := by
            rw [← Batch.rejectedAt_of_get b m op hget]; exact hrej
          rw [hlat] at hnc
          simp only [conflicts, infoOf, decide_eq_false_iff_not, not_and, not_le] at hnc
          simp only [mkOperation]
          by_cases hseq : x.Seq > op.BaseSeq
          · left; exact hnc hseq
          · right; omega
        · simp [infoOf, mkOperation]
        · intro x hx
          rw [List.mem_append, List.mem_singleton] at hx
          rcases hx with hx | hx
          · have := ihs x hx
            push_cast
            omega
          · subst hx
            simp only [mkOperation]
            push_cast
            omega
      · have hfilt : List.filter
            (fun o => decide (o.ProjectID = b.projID) && decide (o.ElementID = e))
            [mkOperation b.projID b.socketID (b.startSeq + (m : Int)) (b.env.opTime m) op] =
            [] := by
          simp [mkOperation, hoe]
        rw [hfilt, List.append_nil, if_neg (fun h => hoe h.2.symm)]
        refine ⟨ihc, ihl, ?_⟩
        intro x hx
        have := ihs x hx
        push_cast
        omega

theorem ApplyOps_insert_cases (env : Env) (s : Store) (projectID socketID : String)
    (ops : List OpInput) (userID : String) (hnd : (s.projects.map (fun p => p.ID)).Nodup)
    (hins : env.insertFault = none) :
    (ApplyOps env s projectID socketID ops userID).2 = s ∨
    ∃ projID q ps, ops ≠ [] ∧ ObjectIDFromHex projectID = some projID ∧
      env.claimFault = false ∧
      findOneAndUpdate projID userID (ops.length : Int) env.now s.projects = some (q, ps) ∧
      ps = s.projects.map (bumpHead projID (ops.length : Int) env.now) ∧
      (∃ p ∈ s.projects, p.ID = projID ∧ q = bumpHead projID (ops.length : Int) env.now p) ∧
      (ApplyOps env s projectID socketID ops userID).2.operations =
        s.operations ++ (List.range ops.length).filterMap
          (batchOf env s projID socketID ops q).acceptedAt := by
  cases hid : ObjectIDFromHex projectID with
  | none => left; simp [ApplyOps, hid]
  | some projID =>
    by_cases hne : ops = []
    · left; subst hne; simp [ApplyOps, hid]
    · have hlen : ¬ ((ops.length : Int) = 0) := by
        intro h
        have : ops.length = 0 := by exact_mod_cast h
        exact hne (List.length_eq_zero.1 this)
      cases hclaim : env.claimFault with
      | true => left; simp [ApplyOps, hid, hlen, hclaim]
      | false =>
        cases hfind : findOneAndUpdate projID userID (ops.length : Int) env.now s.projects with
        | none => left; simp [ApplyOps, hid, hlen, hclaim, hfind]
        | some qp =>
          obtain ⟨q, ps⟩ := qp
          right
          obtain ⟨hps, hq⟩ := findOneAndUpdate_map projID userID _ env.now s.projects q ps hnd hfind
          have h := (ApplyOps_log env s projectID socketID ops userID projID q ps hne hid hclaim
            hfind hins).1
          rw [Batch.loop_accepted] at h
          exact ⟨projID, q, ps, hne, rfl, rfl, hfind, hps, hq, h⟩

theorem getLast?_of_max (L : List Operation) (r : Operation)
    (hpw : L.Pairwise (fun a b => a.Seq < b.Seq)) (hr : r ∈ L)
    (hmax : ∀ r' ∈ L, r'.Seq ≤ r.Seq) : L.getLast? = some r := by
  rcases List.eq_nil_or_concat L with h | ⟨init, l, h⟩
  · subst h; cases hr
  · subst h
    rw [List.concat_eq_append] at hpw hr hmax ⊢
    rw [List.getLast?_concat]
    rw [List.pairwise_append] at hpw
    rcases List.mem_append.1 hr with h1 | h1
    · have h2 := hpw.2.2 r h1 l (List.mem_singleton_self l)
      have h3 := hmax l (List.mem_append_right _ (List.mem_singleton_self l))
      omega
    · rw [List.mem_singleton] at h1
      rw [h1]

theorem elementOps_increasing (s : Store) (hwf : s.WellFormed) (projID : ObjectID) (e : String) :
    (elementOps s.operations projID e).Pairwise (fun a b => a.Seq < b.Seq) := by
  unfold elementOps
  refine List.Pairwise.imp_of_mem ?_ (hwf.2.2.sublist (List.filter_sublist _))
  intro a b ha hb h
  rw [List.mem_filter] at ha hb
  have ha2 := ha.2
  have hb2 := hb.2
  simp only [Bool.and_eq_true, decide_eq_true_eq] at ha2 hb2
  exact h (ha2.1.trans hb2.1.symm)

/-- The accepted ops of a batch whose read of the latest records succeeds
extend the records of every element in the order `Succeeds`. -/
theorem batch_elementOrdered (env : Env) (s : Store) (projID : ObjectID) (socketID : String)
    (ops : List OpInput) (q p0 : Project) (hwf : s.WellFormed) (hord : s.ElementOrdered)
    (hagg : env.aggregateFault = false) (hcur : env.cursorFault = false)
    (hp0 : p0 ∈ s.projects) (hp0id : p0.ID = projID)
    (hq : q = bumpHead projID (ops.length : Int) env.now p0) (projID' : ObjectID) (e : String) :
    (elementOps (s.operations ++ (List.range ops.length).filterMap
      (batchOf env s projID socketID ops q).acceptedAt) projID' e).Chain' Succeeds := by
  unfold elementOps
  rw [List.filter_append]
  have hqh : q.HeadSeq = p0.HeadSeq + (ops.length : Int) := by
    rw [hq]; unfold bumpHead; rw [if_pos hp0id]
  by_cases hcase : projID' = projID ∧ e ∈ ops.map (fun op => op.ElementID)
  · obtain ⟨hp, he⟩ := hcase
    subst hp
    have hL : ∀ x ∈ elementOps s.operations projID' e,
        x.Seq < (batchOf env s projID' socketID ops q).startSeq := by
      intro x hx
      unfold elementOps at hx
      rw [List.mem_filter] at hx
      obtain ⟨hx1, hx2⟩ := hx
      simp only [Bool.and_eq_true, decide_eq_true_eq] at hx2
      obtain ⟨p, hp, hpid, hle⟩ := hwf.2.1 x hx1
      have hpp : p = p0 := by
        apply List.inj_on_of_nodup_map hwf.1 hp hp0
        rw [hpid, hx2.1, hp0id]
      rw [hpp] at hle
      have : (batchOf env s projID' socketID ops q).startSeq =
          q.HeadSeq - (ops.length : Int) + 1 := rfl
      rw [this, hqh]
      omega
    have h0 : (batchOf env s projID' socketID ops q).latest0 e =
        (elementOps s.operations projID' e).getLast?.map infoOf := by
      show readLatest env s.operations projID' ops e = _
      rcases readLatest_spec env s.operations projID' ops e he hagg hcur with
        ⟨Li, hLi, r, hr, hrp, hre, hmax, hLr⟩ | ⟨hnone, hsil⟩
      · have hrmem : r ∈ elementOps s.operations projID' e := by
          unfold elementOps
          rw [List.mem_filter]
          exact ⟨hr, by simp [hrp, hre]⟩
        have hmax' : ∀ r' ∈ elementOps s.operations projID' e, r'.Seq ≤ r.Seq := by
          intro r' hr'
          unfold elementOps at hr'
          rw [List.mem_filter] at hr'
          obtain ⟨h1, h2⟩ := hr'
          simp only [Bool.and_eq_true, decide_eq_true_eq] at h2
          exact hmax r' h1 h2.1 h2.2
        rw [getLast?_of_max _ r (elementOps_increasing s hwf projID' e) hrmem hmax', hLi, hLr]
        rfl
      · have hnil : elementOps s.operations projID' e = [] := by
          unfold elementOps
          rw [List.filter_eq_nil_iff]
          intro a ha
          simp only [Bool.and_eq_true, decide_eq_true_eq, not_and]
          intro hap
          exact hsil a ha hap
        rw [hnil, hnone]
        rfl
    exact (Batch.chain_step (batchOf env s projID' socketID ops q) e
      (elementOps s.operations projID' e) (hord projID' e) hL h0 ops.length
      (Nat.le_refl _)).1
  · have hnil : List.filter
        (fun o => decide (o.ProjectID = projID') && decide (o.ElementID = e))
        ((List.range ops.length).filterMap (batchOf env s projID socketID ops q).acceptedAt)
        = [] := by
      rw [List.filter_eq_nil_iff]
      intro a ha
      rw [List.mem_filterMap] at ha
      obtain ⟨i, _, hi⟩ := ha
      obtain ⟨op, hop, _, hdoc⟩ := Batch.acceptedAt_some _ i a hi
      simp only [Bool.and_eq_true, decide_eq_true_eq, not_and]
      intro hap hae
      apply hcase
      refine ⟨?_, ?_⟩
      · rw [← hap, hdoc]; rfl
      · rw [← hae, hdoc]
        exact List.mem_map.2 ⟨op, List.getElem?_mem hop, rfl⟩
    rw [hnil, List.append_nil]
    exact hord projID' e

/-- A call whose read of the latest records succeeds keeps the records of
every element in the order `Succeeds`, whether the call then succeeds, fails
or panics, and whatever part of its accepted ops the insert has written. -/
theorem ApplyOps_elementOrdered (env : Env) (s : Store) (projectID socketID : String)
    (ops : List OpInput) (userID : String) (hwf : s.WellFormed) (hord : s.ElementOrdered)
    (hagg : env.aggregateFault = false) (hcur : env.cursorFault = false) :
    (ApplyOps env s projectID socketID ops userID).2.ElementOrdered := by
  rcases ApplyOps_store_cases env s projectID socketID ops userID hwf.1 with
    h | ⟨projID, q, k, _, _, ⟨p0, hp0, hp0id, hq⟩, hops, _⟩
  · rw [h]; exact hord
  · intro projID' e
    rw [hops]
    have hfull := batch_elementOrdered env s projID socketID ops q p0 hwf hord hagg hcur hp0
      hp0id hq projID' e
    have hpart : s.operations ++ ((List.range ops.length).filterMap
          (batchOf env s projID socketID ops q).acceptedAt).take k <+:
        s.operations ++ (List.range ops.length).filterMap
          (batchOf env s projID socketID ops q).acceptedAt :=
      ⟨((List.range ops.length).filterMap
          (batchOf env s projID socketID ops q).acceptedAt).drop k,
        by rw [List.append_assoc, List.take_append_drop]⟩
    have hsub : elementOps (s.operations ++ ((List.range ops.length).filterMap
          (batchOf env s projID socketID ops q).acceptedAt).take k) projID' e <+:
        elementOps (s.operations ++ (List.range ops.length).filterMap
          (batchOf env s projID socketID ops q).acceptedAt) projID' e :=
      List.IsPrefix.filter _ hpart
    exact List.Chain'.prefix hfull hsub

theorem runCalls_elementOrdered (s : Store) (cs : List Call) (hwf : s.WellFormed)
    (hord : s.ElementOrdered)
    (hread : ∀ c ∈ cs, c.env.aggregateFault = false ∧ c.env.cursorFault = false) :
    (runCalls s cs).ElementOrdered := by
  induction cs generalizing s with
  | nil => exact hord
  | cons c cs ih =>
    exact ih _ (ApplyOps_wellFormed c.env s c.projectID c.socketID c.ops c.userID hwf)
      (ApplyOps_elementOrdered c.env s c.projectID c.socketID c.ops c.userID hwf hord
        (hread c (List.mem_cons_self _ _)).1 (hread c (List.mem_cons_self _ _)).2)
      (fun c' hc' => hread c' (List.mem_cons_of_mem _ hc'))

theorem elementLog_eq (s : Store) (hwf : s.WellFormed) (projID : ObjectID) (e : String) :
    elementLog s projID e = elementOps s.operations projID e := by
  unfold elementLog
  apply List.Sorted.insertionSort_eq
  exact List.Pairwise.imp (fun {a b : Operation} (h : a.Seq < b.Seq) => Int.le_of_lt h)
    (elementOps_increasing s hwf projID e)

/-- C2 (amended): in every log reached from an empty log by `ApplyOps` calls in
each of which the read of the latest records succeeds, whether the calls then
succeed or not, the accepted ops of an element, ordered by seq, have strictly
increasing seq, and each of them either has an `elementVer` strictly above that
of the previously accepted op of the element or a `baseSeq` that is not below
the seq of that previous op. -/
theorem C2_element_order (ps : List Project) (cs : List Call)
    (hnd : (ps.map (fun p => p.ID)).Nodup)
    (hread : ∀ c ∈ cs, c.env.aggregateFault = false ∧ c.env.cursorFault = false)
    (projID : ObjectID) (e : String) :
    (elementLog (runCalls { projects := ps, operations := [] } cs) projID e).Chain'
      (fun a b => a.Seq < b.Seq ∧ (a.ElementVer < b.ElementVer ∨ a.Seq ≤ b.BaseSeq)) := by
  have hwf := runCalls_wellFormed _ cs (wellFormed_init ps hnd)
  rw [elementLog_eq _ hwf]
  exact runCalls_elementOrdered _ cs (wellFormed_init ps hnd)
    (fun _ _ => by simp [elementOps]) hread projID e

/-- C2 (amended) on two calls that succeed, the second one while the Materializer
cannot read the project. -/
theorem C2_element_order_witness :
    (Demo.store0.projects.map (fun p => p.ID)).Nodup ∧
    (∃ r, (ApplyOps Demo.updateUnsaved.env (runCalls Demo.store0 [Demo.createV5])
        Demo.updateUnsaved.projectID Demo.updateUnsaved.socketID Demo.updateUnsaved.ops
        Demo.updateUnsaved.userID).1 = .ok r) ∧
    (elementLog (runCalls { projects := Demo.store0.projects, operations := [] }
        [Demo.createV5, Demo.updateUnsaved]) Demo.projID "e1").Chain'
      (fun a b => a.Seq < b.Seq ∧ (a.ElementVer < b.ElementVer ∨ a.Seq ≤ b.BaseSeq)) :=
  ⟨by decide, ⟨_, rfl⟩,
    C2_element_order Demo.store0.projects [Demo.createV5, Demo.updateUnsaved] (by decide)
      (fun c hc => by
        rcases List.mem_cons.1 hc with h | h
        · subst h; exact ⟨rfl, rfl⟩
        · rw [List.mem_singleton] at h
          subst h; exact ⟨rfl, rfl⟩)
      Demo.projID "e1"⟩

/-- The hypothesis on the read cannot be dropped: after `createV5`, an `UPDATE`
of `e1` with version 1 and base 0, submitted while the aggregation fails, is
accepted at seq 2 by a call that succeeds, and the two records of `e1` are not
in the order of the amended claim. -/
theorem order_needs_read :
    (∃ r, (ApplyOps Demo.updateUnchecked.env (runCalls Demo.store0 [Demo.createV5])
        Demo.updateUnchecked.projectID Demo.updateUnchecked.socketID Demo.updateUnchecked.ops
        Demo.updateUnchecked.userID).1 = .ok r) ∧
    (elementLog (runCalls Demo.store0 [Demo.createV5, Demo.updateUnchecked]) Demo.projID
        "e1").map (fun o => (o.Seq, o.ElementVer, o.BaseSeq)) = [(1, 5, 0), (2, 1, 0)] ∧
    ¬ (elementLog (runCalls Demo.store0 [Demo.createV5, Demo.updateUnchecked]) Demo.projID
        "e1").Chain'
      (fun a b => a.Seq < b.Seq ∧ (a.ElementVer < b.ElementVer ∨ a.Seq ≤ b.BaseSeq)) := by
  refine ⟨⟨_, rfl⟩, by decide, ?_⟩
  have h : elementLog (runCalls Demo.store0 [Demo.createV5, Demo.updateUnchecked]) Demo.projID
      "e1" =
      [mkOperation Demo.projID "20000002" 1 "t"
          { ClientSeq := 1, OpType := "ADD", ElementID := "e1", ElementVer := 5, BaseSeq := 0,
            Data := some (JsonText.object [("id", JVal.str "e1")]) },
       mkOperation Demo.projID "20000002" 2 "t"
          { ClientSeq := 2, OpType := "UPDATE", ElementID := "e1", ElementVer := 1, BaseSeq := 0,
            Data := some (JsonText.object [("id", JVal.str "e1")]) }] := by
    decide
  rw [h]
  intro hc
  have h2 := List.Chain'.rel_head hc
  revert h2
  decide

/-! ## C3: the stored snapshot and the replay of the log -/

theorem applyOpMaterializer_eq : applyOpMaterializer = applyOpReconstruct := by
  funext st op
  unfold applyOpMaterializer applyOpReconstruct
  by_cases h1 : op.OpType = "ADD"
  · simp [h1]
  · by_cases h2 : op.OpType = "UPDATE"
    · simp [h1, h2]
    · simp [h1, h2]

theorem applyAll_append (step : ElemState → Operation → Option ElemState) (st : ElemState)
    (xs ys : List Operation) :
    applyAll step st (xs ++ ys) =
      match applyAll step st xs with
      | some st' => applyAll step st' ys
      | none => none := by
  induction xs generalizing st with
  | nil => rfl
  | cons x xs ih =>
    simp only [List.cons_append, applyAll]
    cases step st x with
    | none => rfl
    | some st' => exact ih st'

theorem ElemState.good_empty : ElemState.empty.Good :=
  ⟨List.nodup_nil, fun e => by simp [ElemState.empty], fun e g h => by simp [ElemState.empty] at h⟩

theorem JObject.lookup_set_ne (o : JObject) (k k' : String) (v : JVal) (h : k' ≠ k) :
    (JObject.set o k v).lookup k' = o.lookup k' := by
  induction o with
  | nil =>
    simp only [JObject.set, List.lookup]
    have : (k' == k) = false := by rw [beq_eq_false_iff_ne]; exact h
    rw [this]
  | cons kv rest ih =>
    obtain ⟨k0, v0⟩ := kv
    unfold JObject.set
    by_cases hk : k0 = k
    · rw [if_pos hk]
      have h1 : (k' == k) = false := by rw [beq_eq_false_iff_ne]; exact h
      have h2 : (k' == k0) = false := by rw [hk]; exact h1
      simp only [List.lookup, h1, h2]
    · rw [if_neg hk]
      simp only [List.lookup]
      cases hb : (k' == k0) with
      | true => rfl
      | false => exact ih

theorem getString_set_isDeleted (o : JObject) :
    GoMap.getString (some (JObject.set o "isDeleted" (JVal.bool true))) "id" =
      GoMap.getString (some o) "id" := by
  unfold GoMap.getString GoMap.get
  simp only
  rw [JObject.lookup_set_ne o "isDeleted" "id" _ (by decide)]

theorem getString_nil (k : String) : GoMap.getString none k = none := rfl

theorem Operation.wellKeyed_mk (projID : ObjectID) (socketID : String) (seq : Int)
    (now : String) (op : OpInput) (h : op.WellKeyed) :
    (mkOperation projID socketID seq now op).WellKeyed := h

/-- The forward step keeps a good state good and does not panic on it,
provided the op carries its element id in its data. -/
theorem applyOpReconstruct_good (st : ElemState) (op : Operation) (hg : st.Good)
    (hk : op.WellKeyed) :
    ∃ st', applyOpReconstruct st op = some st' ∧ st'.Good := by
  obtain ⟨hnd, hmem, hid⟩ := hg
  unfold applyOpReconstruct
  by_cases ht : op.OpType = "ADD" ∨ op.OpType = "UPDATE"
  · rw [if_pos ht]
    refine ⟨_, rfl, ?_⟩
    unfold applyData
    cases hd : op.Data with
    | none => exact ⟨hnd, hmem, hid⟩
    | some d =>
      simp only
      cases hu : unmarshalObject d with
      | none => exact ⟨hnd, hmem, hid⟩
      | some g =>
        simp only
        have hgid := hk ht d g hd hu
        refine ⟨?_, ?_, ?_⟩
        · cases hp : st.elementMap op.ElementID with
          | none =>
            simp only [Option.isSome_none, Bool.false_eq_true, if_false]
            rw [List.nodup_append]
            refine ⟨hnd, List.nodup_singleton _, ?_⟩
            intro a ha hb
            rw [List.mem_singleton] at hb
            subst hb
            exact (hmem _).1 ha hp
          | some v => simpa using hnd
        · intro e
          by_cases he : e = op.ElementID
          · subst he
            simp only [mapSet, if_true]
            cases hp : st.elementMap op.ElementID with
            | none => simp
            | some v =>
              simp only [Option.isSome_some, if_true]
              have := (hmem op.ElementID).2 (by rw [hp]; simp)
              simp [this]
          · simp only [mapSet, if_neg he]
            cases hp : st.elementMap op.ElementID with
            | none =>
              simp only [Option.isSome_none, Bool.false_eq_true, if_false, List.mem_append,
                List.mem_singleton]
              rw [← hmem e]
              exact ⟨fun h => h.resolve_right he, Or.inl⟩
            | some v =>
              simp only [Option.isSome_some, if_true]
              exact hmem e
        · intro e g' hg'
          by_cases he : e = op.ElementID
          · subst he
            simp only [mapSet, if_true, Option.some.injEq] at hg'
            rw [← hg']; exact hgid
          · simp only [mapSet, if_neg he] at hg'
            exact hid e g' hg'
  · rw [if_neg ht]
    by_cases hdel : op.OpType = "DELETE"
    · rw [if_pos hdel]
      unfold applyDelete
      cases hp : st.elementMap op.ElementID with
      | none => exact ⟨st, rfl, hnd, hmem, hid⟩
      | some el =>
        simp only
        have helid := hid _ el hp
        cases el with
        | none => rw [getString_nil] at helid; cases helid
        | some o =>
          simp only
          refine ⟨_, rfl, hnd, ?_, ?_⟩
          · intro e
            by_cases he : e = op.ElementID
            · subst he
              simp only [mapSet, if_true]
              have := (hmem op.ElementID).2 (by rw [hp]; simp)
              simp [this]
            · simp only [mapSet, if_neg he]
              exact hmem e
          · intro e g' hg'
            by_cases he : e = op.ElementID
            · subst he
              simp only [mapSet, if_true, Option.some.injEq] at hg'
              rw [← hg', getString_set_isDeleted]
              exact helid
            · simp only [mapSet, if_neg he] at hg'
              exact hid e g' hg'
    · rw [if_neg hdel]
      exact ⟨st, rfl, hnd, hmem, hid⟩

theorem applyAll_good (st : ElemState) (ops : List Operation) (hg : st.Good)
    (hk : ∀ op ∈ ops, op.WellKeyed) :
    ∃ st', applyAll applyOpReconstruct st ops = some st' ∧ st'.Good := by
  induction ops generalizing st with
  | nil => exact ⟨st, rfl, hg⟩
  | cons op ops ih =>
    obtain ⟨st1, h1, hg1⟩ := applyOpReconstruct_good st op hg (hk op (List.mem_cons_self _ _))
    obtain ⟨st2, h2, hg2⟩ := ih st1 hg1 (fun o ho => hk o (List.mem_cons_of_mem _ ho))
    refine ⟨st2, ?_, hg2⟩
    simp only [applyAll, h1]
    exact h2

theorem loadElements_eq (els : List GoMap) :
    loadElements els = els.foldl loadStep ElemState.empty := rfl

theorem loadFold_collect (m : String → Option GoMap) (ids : List String) (acc : ElemState)
    (h : ∀ e ∈ ids, ∃ g, m e = some g ∧ g.getString "id" = some e) :
    (ids.filterMap m).foldl loadStep acc =
      { elementMap := fun x => if x ∈ ids then m x else acc.elementMap x,
        elementOrder := acc.elementOrder ++ ids } := by
  induction ids generalizing acc with
  | nil => simp
  | cons e ids ih =>
    obtain ⟨g, hg, hgid⟩ := h e (List.mem_cons_self _ _)
    rw [List.filterMap_cons, hg]
    simp only [List.foldl_cons]
    rw [ih _ (fun x hx => h x (List.mem_cons_of_mem _ hx))]
    unfold loadStep
    rw [hgid]
    simp only [List.append_assoc, List.singleton_append, ElemState.mk.injEq, and_true]
    funext x
    by_cases hx : x ∈ ids
    · simp [hx]
    · by_cases hxe : x = e
      · subst hxe
        simp [hx, mapSet, hg]
      · simp [hx, hxe, mapSet]

/-- Reading back the elements collected from a good state gives the state. -/
theorem loadElements_collect (st : ElemState) (hg : st.Good) :
    loadElements (collectElements st) = st := by
  obtain ⟨_, hmem, hid⟩ := hg
  rw [loadElements_eq]
  unfold collectElements
  rw [loadFold_collect st.elementMap st.elementOrder ElemState.empty]
  · cases st with
    | mk em eo =>
      simp only [ElemState.empty, List.nil_append, ElemState.mk.injEq, and_true]
      funext x
      by_cases hx : x ∈ eo
      · simp [hx]
      · simp only [hx, if_false]
        by_contra hne
        exact hx ((hmem x).2 (fun h => hne h.symm))
  · intro e he
    have hne := (hmem e).1 he
    cases hm : st.elementMap e with
    | none => exact absurd hm hne
    | some g => exact ⟨g, rfl, hid e g hm⟩

theorem marshalElements_ne_raw (l : List GoMap) (t : String) :
    marshalElements l ≠ JsonText.raw t := by
  unfold marshalElements
  split <;> simp

theorem parseSnapshot_marshal (l : List GoMap) : parseSnapshot (marshalElements l) = l := by
  unfold parseSnapshot
  rw [if_pos (marshalElements_ne_raw l "")]
  unfold marshalElements
  by_cases h : l = []
  · simp [h, unmarshalElements]
  · simp [h, unmarshalElements]

theorem find?_of_nodup (l : List Project) (q : Project) (projID : ObjectID)
    (hnd : (l.map (fun p => p.ID)).Nodup) (hq : q ∈ l) (hid : q.ID = projID) :
    l.find? (fun p => decide (p.ID = projID)) = some q := by
  induction l with
  | nil => cases hq
  | cons p rest ih =>
    simp only [List.map_cons, List.nodup_cons] at hnd
    rw [List.find?_cons]
    rcases List.mem_cons.1 hq with h | h
    · subst h
      simp [hid]
    · have hne : p.ID ≠ projID := by
        intro hh
        apply hnd.1
        rw [hh, ← hid]
        exact List.mem_map_of_mem _ h
      simp only [hne, decide_False]
      exact ih hnd.2 h

/-- The project collection after a call without storage failure that
claimed its range. -/
theorem ApplyOps_faultFree_projects (env : Env) (s : Store) (projectID socketID : String)
    (ops : List OpInput) (userID : String) (projID : ObjectID) (q : Project) (ps : List Project)
    (hne : ops ≠ []) (hid : ObjectIDFromHex projectID = some projID)
    (hfind : findOneAndUpdate projID userID (ops.length : Int) env.now s.projects = some (q, ps))
    (hff : env.faultFree) (hnd : (ps.map (fun p => p.ID)).Nodup) (hq : q ∈ ps)
    (hqid : q.ID = projID) :
    ((List.range ops.length).filterMap (batchOf env s projID socketID ops q).acceptedAt = [] →
      (ApplyOps env s projectID socketID ops userID).2.projects = ps) ∧
    (∀ st, (List.range ops.length).filterMap (batchOf env s projID socketID ops q).acceptedAt ≠ [] →
      applyAll applyOpMaterializer (loadElements (parseSnapshot q.Elements))
        ((List.range ops.length).filterMap (batchOf env s projID socketID ops q).acceptedAt)
        = some st →
      (ApplyOps env s projectID socketID ops userID).2.projects =
        ps.map (setElements projID (marshalElements (collectElements st)) env.snapshotTime)) := by
  obtain ⟨hclaim, _, _, hins, hfindf, hupd⟩ := hff
  rw [ApplyOps_claimed env s projectID socketID ops userID projID q ps hne hid hclaim hfind]
  dsimp only
  rw [Batch.loop_accepted]
  have hops : (batchOf env s projID socketID ops q).ops.length = ops.length := rfl
  rw [hops]
  generalize (List.range ops.length).filterMap (batchOf env s projID socketID ops q).acceptedAt
    = A
  refine ⟨?_, ?_⟩
  · intro hA
    simp [hA]
  · intro st hA hst
    have hl : A.length > 0 := List.length_pos.2 hA
    simp only [hl, if_true, hins]
    have hm : applyOpsToElements env ps projID A =
        .ok (updateElements projID (marshalElements (collectElements st)) env.snapshotTime ps) := by
      unfold applyOpsToElements
      simp only [hfindf, Bool.false_eq_true, if_false, find?_of_nodup ps q projID hnd hq hqid, hst,
        hupd]
    rw [hm]
    simp only
    exact updateElements_map projID _ env.snapshotTime ps hnd

theorem projectLog_append (l1 l2 : List Operation) (projID : ObjectID) :
    projectLog (l1 ++ l2) projID = projectLog l1 projID ++ projectLog l2 projID := by
  unfold projectLog
  exact List.filter_append _ _

theorem projectLog_all (l : List Operation) (projID : ObjectID)
    (h : ∀ o ∈ l, o.ProjectID = projID) : projectLog l projID = l := by
  unfold projectLog
  rw [List.filter_eq_self]
  intro o ho
  simp [h o ho]

theorem projectLog_none (l : List Operation) (projID projID' : ObjectID)
    (h : ∀ o ∈ l, o.ProjectID = projID) (hne : projID' ≠ projID) : projectLog l projID' = [] := by
  unfold projectLog
  rw [List.filter_eq_nil_iff]
  intro o ho
  simp only [decide_eq_true_eq]
  rw [h o ho]
  exact fun hh => hne hh.symm

/-- A call without storage failure whose ops carry their element ids keeps
every snapshot equal to the replay of its project's log. -/
theorem ApplyOps_materialized (env : Env) (s : Store) (projectID socketID : String)
    (ops : List OpInput) (userID : String) (hwf : s.WellFormed) (hmat : s.Materialized)
    (hff : env.faultFree) (hk : ∀ op ∈ ops, op.WellKeyed) :
    (ApplyOps env s projectID socketID ops userID).2.Materialized := by
  rcases ApplyOps_insert_cases env s projectID socketID ops userID hwf.1 hff.2.2.2.1 with h | h
  · rw [h]; exact hmat
  · obtain ⟨projID, q, ps, hne, hid, _, hfind, hps, ⟨p0, hp0, hp0id, hq⟩, hops⟩ := h
    have hndps : (ps.map (fun p => p.ID)).Nodup := by
      rw [hps, map_bumpHead_ids]; exact hwf.1
    have hqmem : q ∈ ps := by rw [hps, hq]; exact List.mem_map_of_mem _ hp0
    have hqid : q.ID = projID := by rw [hq, bumpHead_id]; exact hp0id
    have hqel : q.Elements = p0.Elements := by
      rw [hq]; unfold bumpHead; rw [if_pos hp0id]
    obtain ⟨hP1, hP2⟩ := ApplyOps_faultFree_projects env s projectID socketID ops userID projID q
      ps hne hid hfind hff hndps hqmem hqid
    generalize hA : (List.range ops.length).filterMap
      (batchOf env s projID socketID ops q).acceptedAt = A at hops hP1 hP2
    have hAproj : ∀ o ∈ A, o.ProjectID = projID := by
      intro o ho
      rw [← hA, List.mem_filterMap] at ho
      obtain ⟨i, _, hi⟩ := ho
      obtain ⟨op, _, _, hdoc⟩ := Batch.acceptedAt_some _ i o hi
      rw [hdoc]; rfl
    have hAkey : ∀ o ∈ A, o.WellKeyed := by
      intro o ho
      rw [← hA, List.mem_filterMap] at ho
      obtain ⟨i, _, hi⟩ := ho
      obtain ⟨op, hop, _, hdoc⟩ := Batch.acceptedAt_some _ i o hi
      rw [hdoc]
      exact Operation.wellKeyed_mk _ _ _ _ op (hk op (List.getElem?_mem hop))
    -- the replay of the claimed project's log, extended by the batch
    obtain ⟨st0, hst0, hg0, hsnap0⟩ := hmat p0 hp0
    obtain ⟨st1, hst1, hg1⟩ := applyAll_good st0 A hg0 hAkey
    have hreplay : applyAll applyOpReconstruct ElemState.empty
        (projectLog (s.operations ++ A) projID) = some st1 := by
      rw [projectLog_append, projectLog_all A projID hAproj, applyAll_append, ← hp0id, hst0]
      exact hst1
    have hmatr : applyAll applyOpMaterializer (loadElements (parseSnapshot q.Elements)) A
        = some st1 := by
      rw [applyOpMaterializer_eq, hqel, hsnap0, loadElements_collect st0 hg0]
      exact hst1
    intro p' hp'
    rw [hops]
    by_cases hAnil : A = []
    · rw [hP1 hAnil, hps] at hp'
      obtain ⟨p, hp, hpp'⟩ := List.mem_map.1 hp'
      rw [← hpp', bumpHead_id, hAnil, List.append_nil]
      obtain ⟨st, h1, h2, h3⟩ := hmat p hp
      refine ⟨st, h1, h2, ?_⟩
      rw [← h3]
      unfold bumpHead
      split <;> rfl
    · rw [hP2 st1 hAnil hmatr, hps, List.map_map] at hp'
      obtain ⟨p, hp, hpp'⟩ := List.mem_map.1 hp'
      simp only [Function.comp_apply] at hpp'
      by_cases hpid : p.ID = projID
      · have hpeq : p = p0 := List.inj_on_of_nodup_map hwf.1 hp hp0 (by rw [hpid, hp0id])
        refine ⟨st1, ?_, hg1, ?_⟩
        · rw [← hpp', setElements_id, bumpHead_id, hpid]
          exact hreplay
        · rw [← hpp']
          have : (setElements projID (marshalElements (collectElements st1)) env.snapshotTime
              (bumpHead projID (ops.length : Int) env.now p)).Elements =
              marshalElements (collectElements st1) := by
            unfold setElements
            rw [if_pos (by rw [bumpHead_id]; exact hpid)]
          rw [this, parseSnapshot_marshal]
      · have hsame : p' = p := by
          rw [← hpp']
          unfold setElements bumpHead
          simp [hpid]
        rw [hsame, projectLog_append, projectLog_none A projID p.ID hAproj hpid, List.append_nil]
        exact hmat p hp

theorem runCalls_materialized (s : Store) (cs : List Call) (hwf : s.WellFormed)
    (hmat : s.Materialized)
    (hcs : ∀ c ∈ cs, c.env.faultFree ∧ ∀ op ∈ c.ops, op.WellKeyed) :
    (runCalls s cs).Materialized := by
  induction cs generalizing s with
  | nil => exact hmat
  | cons c cs ih =>
    have hc := hcs c (List.mem_cons_self _ _)
    exact ih _ (ApplyOps_wellFormed c.env s c.projectID c.socketID c.ops c.userID hwf)
      (ApplyOps_materialized c.env s c.projectID c.socketID c.ops c.userID hwf hmat hc.1 hc.2)
      (fun c' hc' => hcs c' (List.mem_cons_of_mem _ hc'))

/-- In a well-formed store the read of `ReconstructStateAt` at the head of a
project returns the project's log in insertion order. -/
theorem findUpTo_head (s : Store) (hwf : s.WellFormed) (p : Project) (hp : p ∈ s.projects) :
    findUpTo s.operations p.ID p.HeadSeq = projectLog s.operations p.ID := by
  unfold findUpTo
  have hfilter : s.operations.filter
      (fun o => decide (o.ProjectID = p.ID) && decide (o.Seq ≤ p.HeadSeq)) =
      projectLog s.operations p.ID := by
    unfold projectLog
    apply List.filter_congr
    intro o ho
    by_cases hoid : o.ProjectID = p.ID
    · obtain ⟨p1, hp1, hp1id, hle⟩ := hwf.2.1 o ho
      have : p1 = p := List.inj_on_of_nodup_map hwf.1 hp1 hp (by rw [hp1id, hoid])
      rw [this] at hle
      simp [hoid, hle]
    · simp [hoid]
  rw [hfilter]
  apply List.Sorted.insertionSort_eq
  unfold projectLog
  refine List.Pairwise.imp_of_mem ?_ (hwf.2.2.sublist (List.filter_sublist _))
  intro a b ha hb h
  rw [List.mem_filter] at ha hb
  have ha2 := ha.2
  have hb2 := hb.2
  simp only [decide_eq_true_eq] at ha2 hb2
  exact Int.le_of_lt (h (ha2.trans hb2.symm))

/-- C3 (as stated, refuted): on a fresh project with an empty snapshot, `e1` is added
with data that has no `id` key and then `e2` is added, in two batches without
storage failure.  After the second batch (seq 2) the stored snapshot holds
`e2` alone, while `ReconstructStateAt(2)` returns `e1` followed by `e2`. -/
theorem C3_snapshot_loses_element :
    (runCalls Demo.store0 [Demo.addNoId, Demo.addE2]).projects.map
        (fun p => (p.HeadSeq, p.Elements)) =
      [(2, JsonText.array [some [("id", JVal.str "e2")]])] ∧
    ReconstructStateAt Demo.quietQuery (runCalls Demo.store0 [Demo.addNoId, Demo.addE2])
        Demo.pid 2 "alice" =
      .ok { snapshot := JsonText.array
              [some [("type", JVal.str "rectangle")], some [("id", JVal.str "e2")]],
            lastSeq := 2, lastTimestamp := "t" } ∧
    parseSnapshot (JsonText.array [some [("id", JVal.str "e2")]]) ≠
      parseSnapshot (JsonText.array
        [some [("type", JVal.str "rectangle")], some [("id", JVal.str "e2")]]) := by
  refine ⟨by decide, by decide, by decide⟩

/-- C3 (amended): start from projects with an empty log and an empty snapshot and
apply any sequence of batches without storage failure in which the data of
every `ADD` and `UPDATE`, when it decodes, carries the op's element id under
the key `id`.  Then for every project, `ReconstructStateAt` at the seq where
the last batch ended (the project's `headSeq`) returns a snapshot that decodes
to the same elements, in the same order, as the snapshot stored by the
Materializer. -/
theorem C3_snapshot_equivalence (ps : List Project) (cs : List Call)
    (hnd : (ps.map (fun p => p.ID)).Nodup)
    (hempty : ∀ p ∈ ps, parseSnapshot p.Elements = [])
    (hcs : ∀ c ∈ cs, c.env.faultFree ∧ ∀ op ∈ c.ops, op.WellKeyed)
    (q : QueryEnv) (hq : q.findFault = false ∧ q.cursorFault = false)
    (p : Project) (hp : p ∈ (runCalls { projects := ps, operations := [] } cs).projects)
    (projectID userID : String) (hid : ObjectIDFromHex projectID = some p.ID) :
    ∃ r, ReconstructStateAt q (runCalls { projects := ps, operations := [] } cs) projectID
        p.HeadSeq userID = .ok r ∧
      parseSnapshot r.snapshot = parseSnapshot p.Elements := by
  have hwf0 := wellFormed_init ps hnd
  have hmat0 : Store.Materialized { projects := ps, operations := [] } := by
    intro p0 hp0
    refine ⟨ElemState.empty, rfl, ElemState.good_empty, ?_⟩
    rw [hempty p0 hp0]
    rfl
  have hwf := runCalls_wellFormed _ cs hwf0
  have hmat := runCalls_materialized _ cs hwf0 hmat0 hcs
  obtain ⟨st, hst, _, hsnap⟩ := hmat p hp
  refine ⟨{ snapshot := marshalElements (collectElements st),
            lastSeq := (lastOf (findUpTo (runCalls { projects := ps, operations := [] }
              cs).operations p.ID p.HeadSeq)).1,
            lastTimestamp := (lastOf (findUpTo (runCalls { projects := ps, operations := [] }
              cs).operations p.ID p.HeadSeq)).2 }, ?_, ?_⟩
  · unfold ReconstructStateAt
    simp only [hid, hq.1, hq.2, Bool.false_eq_true, if_false]
    rw [findUpTo_head _ hwf p hp, hst]
  · simp only
    rw [parseSnapshot_marshal, hsnap]

theorem C3_snapshot_equivalence_witness :
    ObjectIDFromHex Demo.pid = some Demo.afterVersions.ID ∧
    ∃ r, ReconstructStateAt Demo.quietQuery
        (runCalls { projects := Demo.store0.projects, operations := [] }
          [Demo.createV5, Demo.updateV1]) Demo.pid Demo.afterVersions.HeadSeq "alice" = .ok r ∧
      parseSnapshot r.snapshot = parseSnapshot Demo.afterVersions.Elements :=
  ⟨by decide,
    C3_snapshot_equivalence Demo.store0.projects [Demo.createV5, Demo.updateV1] (by decide)
      (by decide)
      (fun c hc => by
        have hkey : ∀ d g, some (JsonText.object [("id", JVal.str "e1")]) = some d →
            unmarshalObject d = some g → g.getString "id" = some "e1" := by
          intro d g hd hg
          cases hd
          cases hg
          rfl
        rcases List.mem_cons.1 hc with h | h
        · subst h
          refine ⟨⟨rfl, rfl, rfl, rfl, rfl, rfl⟩, ?_⟩
          intro op hop
          rw [show Demo.createV5.ops = [_] from rfl, List.mem_singleton] at hop
          subst hop
          intro _ d g hd hg
          exact hkey d g hd hg
        · rw [List.mem_singleton] at h
          subst h
          refine ⟨⟨rfl, rfl, rfl, rfl, rfl, rfl⟩, ?_⟩
          intro op hop
          rw [show Demo.updateV1.ops = [_] from rfl, List.mem_singleton] at hop
          subst hop
          intro _ d g hd hg
          exact hkey d g hd hg)
      Demo.quietQuery ⟨rfl, rfl⟩ Demo.afterVersions (by decide) Demo.pid "alice" (by decide)⟩

/-! ## The head sequence -/

theorem findOneAndUpdate_some (projID : ObjectID) (userID : String) (n : Int) (now : String)
    (projects : List Project) (h : ∃ p ∈ projects, matchesClaim projID userID p = true) :
    ∃ q ps, findOneAndUpdate projID userID n now projects = some (q, ps) := by
  induction projects with
  | nil => obtain ⟨p, hp, _⟩ := h; cases hp
  | cons p rest ih =>
    unfold findOneAndUpdate
    by_cases hm : matchesClaim projID userID p = true
    · rw [if_pos hm]; exact ⟨_, _, rfl⟩
    · rw [if_neg hm]
      obtain ⟨p1, hp1, hm1⟩ := h
      rcases List.mem_cons.1 hp1 with h1 | h1
      · subst h1; exact absurd hm1 hm
      · obtain ⟨q, ps, hq⟩ := ih ⟨p1, h1, hm1⟩
        rw [hq]; exact ⟨_, _, rfl⟩

/-- The part of the head-sequence contract that holds on every input: a
non-empty batch of the owner or of a member, submitted while no storage call
fails, moves `headSeq` from `h` to `h + n`; and the call either returns
`Ack = true` with `ServerSeq = h + n` or panics in the Materializer. -/
theorem ApplyOps_head_advances (env : Env) (s : Store) (projectID socketID : String)
    (ops : List OpInput) (userID : String) (projID : ObjectID) (p0 : Project)
    (hnd : (s.projects.map (fun p => p.ID)).Nodup) (hne : ops ≠ [])
    (hid : ObjectIDFromHex projectID = some projID) (hp0 : p0 ∈ s.projects)
    (hp0id : p0.ID = projID) (hmem : p0.Owner = userID ∨ userID ∈ p0.Members)
    (hff : env.faultFree) :
    (∃ p ∈ (ApplyOps env s projectID socketID ops userID).2.projects,
      p.ID = projID ∧ p.HeadSeq = p0.HeadSeq + (ops.length : Int)) ∧
    ((ApplyOps env s projectID socketID ops userID).1 = .panic ∨
      ∃ res, (ApplyOps env s projectID socketID ops userID).1 = .ok res ∧ res.Ack = true ∧
        res.ServerSeq = p0.HeadSeq + (ops.length : Int)) := by
  have hmatch : matchesClaim projID userID p0 = true := by
    simp only [matchesClaim, Bool.and_eq_true, Bool.or_eq_true, decide_eq_true_eq]
    exact ⟨hp0id, hmem⟩
  obtain ⟨q, ps, hfind⟩ := findOneAndUpdate_some projID userID (ops.length : Int) env.now
    s.projects ⟨p0, hp0, hmatch⟩
  obtain ⟨hps, p1, hp1, hp1id, hq⟩ :=
    findOneAndUpdate_map projID userID _ env.now s.projects q ps hnd hfind
  have hp10 : p1 = p0 := List.inj_on_of_nodup_map hnd hp1 hp0 (by rw [hp1id, hp0id])
  rw [hp10] at hq
  have hqh : q.HeadSeq = p0.HeadSeq + (ops.length : Int) := by
    rw [hq]; unfold bumpHead; rw [if_pos hp0id]
  have hndps : (ps.map (fun p => p.ID)).Nodup := by
    rw [hps, map_bumpHead_ids]; exact hnd
  refine ⟨?_, ?_⟩
  · obtain ⟨k, _, hk⟩ := ApplyOps_claimed_store env s projectID socketID ops userID projID q ps
      hne hid hff.1 hfind
    rcases hk with h | ⟨text, h⟩
    · rw [h, hps]
      exact ⟨q, by rw [hq]; exact List.mem_map_of_mem _ hp0, by rw [hq, bumpHead_id]; exact hp0id,
        hqh⟩
    · rw [h, updateElements_map projID text env.snapshotTime ps hndps, hps]
      refine ⟨setElements projID text env.snapshotTime q, ?_, ?_, ?_⟩
      · rw [hq]; exact List.mem_map_of_mem _ (List.mem_map_of_mem _ hp0)
      · rw [setElements_id, hq, bumpHead_id]; exact hp0id
      · rw [setElements_head]; exact hqh
  · rcases (ApplyOps_log env s projectID socketID ops userID projID q ps hne hid hff.1 hfind
      hff.2.2.2.1).2 with h | h
    · exact Or.inl h
    · exact Or.inr ⟨_, h, rfl, hqh⟩

/-! ## C11: the DELETE step -/

theorem JObject.lookup_set_self (o : JObject) (k : String) (v : JVal) :
    (JObject.set o k v).lookup k = some v := by
  induction o with
  | nil => simp [JObject.set, List.lookup]
  | cons kv rest ih =>
    obtain ⟨k0, v0⟩ := kv
    unfold JObject.set
    by_cases hk : k0 = k
    · rw [if_pos hk]; simp [List.lookup]
    · rw [if_neg hk]
      have : (k == k0) = false := by rw [beq_eq_false_iff_ne]; exact fun h => hk h.symm
      simp only [List.lookup, this]
      exact ih

theorem applyOp_delete (st : ElemState) (op : Operation) (h : op.OpType = "DELETE") :
    applyOpMaterializer st op = applyDelete st op ∧
    applyOpReconstruct st op = applyDelete st op := by
  unfold applyOpMaterializer applyOpReconstruct
  rw [h]
  exact ⟨by simp, by simp⟩

/-- The part of the DELETE rule that holds on every input: on an element
stored as a JSON object the step of both switches sets `isDeleted` to true,
keeps every other field of the element, keeps the order and every other
element; on an absent element it changes nothing. -/
theorem applyDelete_step (st : ElemState) (op : Operation) (h : op.OpType = "DELETE") :
    (∀ o, st.elementMap op.ElementID = some (some o) →
      ∃ st', applyOpMaterializer st op = some st' ∧ applyOpReconstruct st op = some st' ∧
        st'.elementOrder = st.elementOrder ∧
        (∃ o', st'.elementMap op.ElementID = some (some o') ∧
          o'.lookup "isDeleted" = some (JVal.bool true) ∧
          ∀ k, k ≠ "isDeleted" → o'.lookup k = o.lookup k) ∧
        (∀ e, e ≠ op.ElementID → st'.elementMap e = st.elementMap e)) ∧
    (st.elementMap op.ElementID = none →
      applyOpMaterializer st op = some st ∧ applyOpReconstruct st op = some st) := by
  obtain ⟨h1, h2⟩ := applyOp_delete st op h
  refine ⟨?_, ?_⟩
  · intro o ho
    refine ⟨⟨mapSet st.elementMap op.ElementID (some (o.set "isDeleted" (JVal.bool true))),
      st.elementOrder⟩, ?_, ?_, rfl, ⟨_, ?_, JObject.lookup_set_self o _ _, ?_⟩, ?_⟩
    · rw [h1]; simp [applyDelete, ho]
    · rw [h2]; simp [applyDelete, ho]
    · simp [mapSet]
    · intro k hk
      exact JObject.lookup_set_ne o "isDeleted" k _ hk
    · intro e he
      simp [mapSet, he]
  · intro hn
    rw [h1, h2]
    simp [applyDelete, hn]

/-- The soft-delete scenario: the replay of ADD (seq 1), UPDATE (seq 2) and
DELETE (seq 3) of one element gives a snapshot whose index 0 is that element
with `isDeleted = true`. -/
theorem softDelete_scenario :
    ReconstructStateAt Demo.quietQuery Demo.softDeleteLog Demo.pid 3 "alice" =
      .ok { snapshot := JsonText.array
              [some [("id", JVal.str "e1"), ("x", JVal.num 2 0), ("isDeleted", JVal.bool true)]],
            lastSeq := 3, lastTimestamp := "t3" } := by
  decide

/-- C11 (failing input): after `ADD e1` with data `null` the element map holds `e1`
with a nil record; the `DELETE e1` that follows finds the element, writes into
the nil map and panics, in the switch of the Materializer and in the switch of
the Reconstructor, so `ReconstructStateAt` panics on that log instead of
marking the element deleted. -/
theorem C11_delete_panics_on_null_record :
    (∃ st, applyOpReconstruct ElemState.empty
        (mkOperation Demo.projID "20000002" 1 "t" Demo.addNull) = some st ∧
      st.elementMap "e1" = some none ∧ st.elementOrder = ["e1"] ∧
      applyOpReconstruct st (mkOperation Demo.projID "20000002" 2 "t" Demo.deleteE1) = none ∧
      applyOpMaterializer st (mkOperation Demo.projID "20000002" 2 "t" Demo.deleteE1) = none) ∧
    ReconstructStateAt Demo.quietQuery Demo.nullThenDelete Demo.pid 2 "alice" = .panic := by
  refine ⟨⟨_, rfl, by decide, by decide, rfl, rfl⟩, by decide⟩

/-! ## C12: what ReconstructStateAt reads -/

theorem lastOf_eq (l : List Operation) :
    lastOf l = match l.getLast? with
      | none => (0, "")
      | some o => (o.Seq, o.Timestamp) := by
  induction l with
  | nil => rfl
  | cons a l ih =>
    cases l with
    | nil => rfl
    | cons b l' =>
      have h1 : lastOf (a :: b :: l') = lastOf (b :: l') := rfl
      rw [h1, ih, List.getLast?_cons_cons]

theorem sortSeqAsc_sorted (l : List Operation) :
    (sortSeqAsc l).Pairwise (fun a b => a.Seq ≤ b.Seq) := by
  haveI : IsTotal Operation (fun a b => a.Seq ≤ b.Seq) := ⟨fun a b => Int.le_total a.Seq b.Seq⟩
  haveI : IsTrans Operation (fun a b => a.Seq ≤ b.Seq) :=
    ⟨fun a b c hab hbc => Int.le_trans hab hbc⟩
  exact List.sorted_insertionSort (fun a b => a.Seq ≤ b.Seq) l

theorem sortSeqAsc_perm (l : List Operation) : (sortSeqAsc l).Perm l :=
  List.perm_insertionSort (fun (a b : Operation) => a.Seq ≤ b.Seq) l

theorem mem_sortSeqAsc (l : List Operation) (o : Operation) : o ∈ sortSeqAsc l ↔ o ∈ l :=
  (sortSeqAsc_perm l).mem_iff

theorem getLast?_max (l : List Operation) (o : Operation)
    (hs : l.Pairwise (fun a b => a.Seq ≤ b.Seq)) (hl : l.getLast? = some o) :
    o ∈ l ∧ ∀ o' ∈ l, o'.Seq ≤ o.Seq := by
  rcases List.eq_nil_or_concat l with h | ⟨init, x, h⟩
  · subst h; cases hl
  · subst h
    rw [List.concat_eq_append] at hs hl ⊢
    rw [List.getLast?_concat] at hl
    cases hl
    rw [List.pairwise_append] at hs
    refine ⟨List.mem_append_right _ (List.mem_singleton_self _), ?_⟩
    intro o' ho'
    rcases List.mem_append.1 ho' with h1 | h1
    · exact hs.2.2 o' h1 o (List.mem_singleton_self _)
    · rw [List.mem_singleton] at h1; rw [h1]

theorem findUpTo_eq (operations : List Operation) (projID : ObjectID) (seq : Int) :
    findUpTo operations projID seq =
      sortSeqAsc (operations.filter
        (fun o => decide (o.ProjectID = projID) && decide (o.Seq ≤ seq))) := rfl

/-- The outcome of `ReconstructStateAt` once the id is parsed and the read
succeeded. -/
theorem ReconstructStateAt_eq (q : QueryEnv) (s : Store) (projectID : String) (seq : Int)
    (userID : String) (projID : ObjectID) (hid : ObjectIDFromHex projectID = some projID)
    (hq : q.faultFree) :
    ReconstructStateAt q s projectID seq userID =
      reconstructed (stateAt s projID seq) (findUpTo s.operations projID seq) := by
  unfold ReconstructStateAt reconstructed stateAt
  simp only [hid, hq.1, hq.2, Bool.false_eq_true, if_false]

/-- C12: `ReconstructStateAt` depends only on the project's ops with
`seq <= target` (a store with the same such ops gives the same outcome, so an
op with a larger seq or of another project changes nothing); it replays them
from the empty state in ascending seq order; and the `lastSeq` and
`lastTimestamp` it returns are those of an op of highest seq among them, or 0
and the empty string when there is none. -/
theorem C12_reconstruct_scope (q : QueryEnv) (s : Store) (projectID : String) (seq : Int)
    (userID : String) (projID : ObjectID) (hid : ObjectIDFromHex projectID = some projID)
    (hq : q.faultFree) :
    (∀ s' : Store,
      s'.operations.filter (fun o => decide (o.ProjectID = projID) && decide (o.Seq ≤ seq)) =
        s.operations.filter (fun o => decide (o.ProjectID = projID) && decide (o.Seq ≤ seq)) →
      ReconstructStateAt q s' projectID seq userID = ReconstructStateAt q s projectID seq userID) ∧
    (∀ o : Operation, o.ProjectID ≠ projID ∨ seq < o.Seq →
      ReconstructStateAt q { s with operations := s.operations ++ [o] } projectID seq userID =
        ReconstructStateAt q s projectID seq userID) ∧
    (∃ sorted : List Operation,
      sorted.Perm (s.operations.filter
        (fun o => decide (o.ProjectID = projID) && decide (o.Seq ≤ seq))) ∧
      sorted.Pairwise (fun a b => a.Seq ≤ b.Seq) ∧
      ReconstructStateAt q s projectID seq userID =
        reconstructed (applyAll applyOpReconstruct ElemState.empty sorted) sorted) ∧
    (∀ r, ReconstructStateAt q s projectID seq userID = .ok r →
      ((∀ o ∈ s.operations, o.ProjectID = projID → ¬ o.Seq ≤ seq) →
        r.lastSeq = 0 ∧ r.lastTimestamp = "") ∧
      ((∃ o ∈ s.operations, o.ProjectID = projID ∧ o.Seq ≤ seq) →
        ∃ o ∈ s.operations, o.ProjectID = projID ∧ o.Seq ≤ seq ∧
          (∀ o' ∈ s.operations, o'.ProjectID = projID → o'.Seq ≤ seq → o'.Seq ≤ o.Seq) ∧
          r.lastSeq = o.Seq ∧ r.lastTimestamp = o.Timestamp)) := by
  have hdep : ∀ s' : Store,
      s'.operations.filter (fun o => decide (o.ProjectID = projID) && decide (o.Seq ≤ seq)) =
        s.operations.filter (fun o => decide (o.ProjectID = projID) && decide (o.Seq ≤ seq)) →
      ReconstructStateAt q s' projectID seq userID =
        ReconstructStateAt q s projectID seq userID := by
    intro s' h
    rw [ReconstructStateAt_eq q s' projectID seq userID projID hid hq,
      ReconstructStateAt_eq q s projectID seq userID projID hid hq]
    unfold stateAt
    rw [findUpTo_eq, findUpTo_eq, h]
  refine ⟨hdep, ?_, ?_, ?_⟩
  · intro o ho
    apply hdep
    simp only [List.filter_append]
    have : List.filter (fun o => decide (o.ProjectID = projID) && decide (o.Seq ≤ seq)) [o]
        = [] := by
      rw [List.filter_eq_nil_iff]
      intro a ha
      rw [List.mem_singleton] at ha
      subst ha
      simp only [Bool.and_eq_true, decide_eq_true_eq, not_and, not_le]
      intro hp
      rcases ho with h | h
      · exact absurd hp h
      · exact h
    rw [this, List.append_nil]
  · refine ⟨findUpTo s.operations projID seq, ?_, ?_, ?_⟩
    · rw [findUpTo_eq]; exact sortSeqAsc_perm _
    · rw [findUpTo_eq]; exact sortSeqAsc_sorted _
    · rw [ReconstructStateAt_eq q s projectID seq userID projID hid hq]; rfl
  · intro r hr
    rw [ReconstructStateAt_eq q s projectID seq userID projID hid hq] at hr
    have hlast : (r.lastSeq, r.lastTimestamp) = lastOf (findUpTo s.operations projID seq) := by
      unfold reconstructed at hr
      cases hst : stateAt s projID seq with
      | none => rw [hst] at hr; cases hr
      | some st =>
        rw [hst] at hr
        simp only [Outcome.ok.injEq] at hr
        rw [← hr]
    rw [lastOf_eq] at hlast
    have hmem : ∀ o, o ∈ findUpTo s.operations projID seq ↔
        o ∈ s.operations ∧ o.ProjectID = projID ∧ o.Seq ≤ seq := by
      intro o
      rw [findUpTo_eq, mem_sortSeqAsc, List.mem_filter]
      simp only [Bool.and_eq_true, decide_eq_true_eq]
    refine ⟨?_, ?_⟩
    · intro hnone
      have hnil : findUpTo s.operations projID seq = [] := by
        apply List.eq_nil_iff_forall_not_mem.2
        intro o ho
        obtain ⟨h1, h2, h3⟩ := (hmem o).1 ho
        exact hnone o h1 h2 h3
      rw [hnil] at hlast
      simp only [List.getLast?_nil, Prod.mk.injEq] at hlast
      exact hlast
    · intro hex
      obtain ⟨o0, h1, h2, h3⟩ := hex
      have hne : findUpTo s.operations projID seq ≠ [] :=
        List.ne_nil_of_mem ((hmem o0).2 ⟨h1, h2, h3⟩)
      cases hgl : (findUpTo s.operations projID seq).getLast? with
      | none => rw [List.getLast?_eq_none_iff] at hgl; exact absurd hgl hne
      | some o =>
        rw [hgl] at hlast
        simp only [Prod.mk.injEq] at hlast
        obtain ⟨hom, hmax⟩ := getLast?_max _ o (by rw [findUpTo_eq]; exact sortSeqAsc_sorted _) hgl
        obtain ⟨ho1, ho2, ho3⟩ := (hmem o).1 hom
        exact ⟨o, ho1, ho2, ho3, fun o' h1' h2' h3' => hmax o' ((hmem o').2 ⟨h1', h2', h3'⟩),
          hlast.1, hlast.2⟩

theorem C12_reconstruct_scope_witness :
    ObjectIDFromHex Demo.pid = some Demo.projID ∧
    ReconstructStateAt Demo.quietQuery Demo.softDeleteLog Demo.pid 2 "alice" =
      .ok { snapshot := JsonText.array [some [("id", JVal.str "e1"), ("x", JVal.num 2 0)]],
            lastSeq := 2, lastTimestamp := "t2" } ∧
    ReconstructStateAt Demo.quietQuery
        { Demo.softDeleteLog with operations := Demo.softDeleteLog.operations ++ [Demo.opE1] }
        Demo.pid 2 "alice" =
      ReconstructStateAt Demo.quietQuery Demo.softDeleteLog Demo.pid 2 "alice" :=
  ⟨by decide, by decide,
    (C12_reconstruct_scope Demo.quietQuery Demo.softDeleteLog Demo.pid 2 "alice" Demo.projID
      (by decide) ⟨rfl, rfl⟩).2.1 Demo.opE1 (Or.inr (by decide))⟩

/-! ## C14, C15 and C16: tail and range queries -/

theorem GetOpsSince_eq (q : QueryEnv) (s : Store) (projectID : String) (sinceSeq : Int)
    (limit : Option Int) (projID : ObjectID) (hid : ObjectIDFromHex projectID = some projID)
    (hq : q.faultFree) :
    GetOpsSince q s projectID sinceSeq limit =
      .ok ((sortSeqAsc (s.operations.filter
        (fun o => decide (o.ProjectID = projID) && decide (o.Seq > sinceSeq)))).take
          (effectiveLimit limit).toNat) := by
  unfold GetOpsSince
  simp only [hid, hq.1, hq.2, Bool.false_eq_true, if_false]

theorem GetOpsRange_eq (q : QueryEnv) (s : Store) (projectID : String) (fromSeq toSeq : Int)
    (projID : ObjectID) (hid : ObjectIDFromHex projectID = some projID) (hq : q.faultFree) :
    GetOpsRange q s projectID fromSeq toSeq =
      .ok (sortSeqAsc (s.operations.filter
        (fun o => decide (o.ProjectID = projID) &&
          (decide (o.Seq ≥ fromSeq) && decide (o.Seq ≤ toSeq))))) := by
  unfold GetOpsRange
  simp only [hid, hq.1, hq.2, Bool.false_eq_true, if_false]

/-- C14: `GetOpsSince` returns the project's ops with `seq > sinceSeq`, sorted by
ascending seq and cut to the first `L` of them, where `L` is the given limit
when it is present and positive and 1000 when it is absent, zero or negative;
every returned op belongs to the project and has `seq > sinceSeq`. -/
theorem C14_tail_query (q : QueryEnv) (s : Store) (projectID : String) (sinceSeq : Int)
    (limit : Option Int) (projID : ObjectID) (hid : ObjectIDFromHex projectID = some projID)
    (hq : q.faultFree) :
    ∃ (all : List Operation) (L : Nat),
      all.Perm (s.operations.filter
        (fun o => decide (o.ProjectID = projID) && decide (o.Seq > sinceSeq))) ∧
      all.Pairwise (fun a b => a.Seq ≤ b.Seq) ∧
      (∀ l, limit = some l → 0 < l → (L : Int) = l) ∧
      (∀ l, limit = some l → l ≤ 0 → L = 1000) ∧
      (limit = none → L = 1000) ∧
      GetOpsSince q s projectID sinceSeq limit = .ok (all.take L) ∧
      (all.take L).Pairwise (fun a b => a.Seq ≤ b.Seq) ∧
      (∀ o ∈ all.take L, o ∈ s.operations ∧ o.ProjectID = projID ∧ sinceSeq < o.Seq) := by
  refine ⟨sortSeqAsc (s.operations.filter
      (fun o => decide (o.ProjectID = projID) && decide (o.Seq > sinceSeq))),
    (effectiveLimit limit).toNat, sortSeqAsc_perm _, sortSeqAsc_sorted _, ?_, ?_, ?_,
    GetOpsSince_eq q s projectID sinceSeq limit projID hid hq, ?_, ?_⟩
  · intro l hl hpos
    subst hl
    simp only [effectiveLimit, hpos, if_true]
    omega
  · intro l hl hneg
    subst hl
    have : ¬ l > 0 := by omega
    simp [effectiveLimit, this]
  · intro hl
    subst hl
    simp [effectiveLimit]
  · exact (sortSeqAsc_sorted _).sublist (List.take_sublist _ _)
  · intro o ho
    have hm := List.mem_of_mem_take ho
    rw [mem_sortSeqAsc, List.mem_filter] at hm
    have h2 := hm.2
    simp only [Bool.and_eq_true, decide_eq_true_eq] at h2
    exact ⟨hm.1, h2.1, h2.2⟩

theorem C14_tail_query_witness :
    ObjectIDFromHex Demo.pid = some Demo.projID ∧
    GetOpsSince Demo.quietQuery Demo.softDeleteLog Demo.pid 1 (some 1) =
      .ok (Demo.softDeleteLog.operations.drop 1 |>.take 1) ∧
    ∃ (all : List Operation) (L : Nat),
      GetOpsSince Demo.quietQuery Demo.softDeleteLog Demo.pid 1 (some 1) = .ok (all.take L) :=
  ⟨by decide, by decide,
    match C14_tail_query Demo.quietQuery Demo.softDeleteLog Demo.pid 1 (some 1) Demo.projID
      (by decide) ⟨rfl, rfl⟩ with
    | ⟨all, L, _, _, _, _, _, h, _⟩ => ⟨all, L, h⟩⟩

theorem GetOpsSince_logOfSize (n : Nat) :
    GetOpsSince Demo.quietQuery (Demo.logOfSize n) Demo.pid 0 (some (n : Int)) =
      .ok ((sortSeqAsc (Demo.logOfSize n).operations).take
        (effectiveLimit (some (n : Int))).toNat) := by
  have hid : ObjectIDFromHex Demo.pid = some Demo.projID := by decide
  rw [GetOpsSince_eq Demo.quietQuery (Demo.logOfSize n) Demo.pid 0 (some (n : Int)) Demo.projID hid
    ⟨rfl, rfl⟩]
  have hfilter : (Demo.logOfSize n).operations.filter
      (fun o => decide (o.ProjectID = Demo.projID) && decide (o.Seq > 0)) =
      (Demo.logOfSize n).operations := by
    rw [List.filter_eq_self]
    intro o ho
    unfold Demo.logOfSize at ho
    rw [List.mem_map] at ho
    obtain ⟨i, _, hi⟩ := ho
    rw [← hi]
    simp only [Bool.and_eq_true, decide_eq_true_eq]
    refine ⟨rfl, ?_⟩
    show (i : Int) + 1 > 0
    omega
  rw [hfilter]

theorem length_logOfSize (n : Nat) : (Demo.logOfSize n).operations.length = n := by
  unfold Demo.logOfSize
  rw [List.length_map, List.length_range]

/-- C15 (as stated, refuted): on a log of 1001 records a tail query with the requested
limit 1001 returns all 1001 records. -/
theorem C15_limit_not_capped :
    ∃ res, GetOpsSince Demo.quietQuery (Demo.logOfSize 1001) Demo.pid 0 (some 1001) = .ok res ∧
      res.length = 1001 := by
  refine ⟨_, GetOpsSince_logOfSize 1001, ?_⟩
  have hlim : (effectiveLimit (some ((1001 : Nat) : Int))).toNat = 1001 := by decide
  rw [hlim, List.length_take]
  unfold sortSeqAsc
  rw [List.length_insertionSort, length_logOfSize, Nat.min_self]

/-- C15 (amended): a tail query returns at most `L` ops, where `L` is the requested
limit when it is present and positive and 1000 otherwise; hence at most 1000
ops whenever the requested limit is absent or does not exceed 1000. -/
theorem C15_limit_bound (q : QueryEnv) (s : Store) (projectID : String) (sinceSeq : Int)
    (limit : Option Int) (res : List Operation)
    (hres : GetOpsSince q s projectID sinceSeq limit = .ok res) :
    (∀ l, limit = some l → 0 < l → (res.length : Int) ≤ l) ∧
    (∀ l, limit = some l → l ≤ 0 → res.length ≤ 1000) ∧
    (limit = none → res.length ≤ 1000) ∧
    (∀ l, limit = some l → l ≤ 1000 → res.length ≤ 1000) := by
  have hlen : res.length ≤ (effectiveLimit limit).toNat := by
    unfold GetOpsSince at hres
    cases hid : ObjectIDFromHex projectID with
    | none => rw [hid] at hres; cases hres
    | some projID =>
      rw [hid] at hres
      simp only at hres
      by_cases h1 : q.findFault = true
      · rw [if_pos h1] at hres; cases hres
      · rw [if_neg h1] at hres
        by_cases h2 : q.cursorFault = true
        · rw [if_pos h2] at hres; cases hres
        · rw [if_neg h2] at hres
          simp only [Outcome.ok.injEq] at hres
          rw [← hres, List.length_take]
          exact Nat.min_le_left _ _
  refine ⟨?_, ?_, ?_, ?_⟩
  · intro l hl hpos
    subst hl
    simp only [effectiveLimit, hpos, if_true] at hlen
    omega
  · intro l hl hneg
    subst hl
    have : ¬ l > 0 := by omega
    simpa [effectiveLimit, this] using hlen
  · intro hl
    subst hl
    simpa [effectiveLimit] using hlen
  · intro l hl hle
    subst hl
    by_cases hpos : l > 0
    · simp only [effectiveLimit, hpos, if_true] at hlen
      omega
    · simpa [effectiveLimit, hpos] using hlen

theorem C15_limit_bound_witness :
    GetOpsSince Demo.quietQuery Demo.softDeleteLog Demo.pid 0 (some 2) =
      .ok (Demo.softDeleteLog.operations.take 2) ∧
    ((Demo.softDeleteLog.operations.take 2).length : Int) ≤ 2 :=
  ⟨by decide,
    (C15_limit_bound Demo.quietQuery Demo.softDeleteLog Demo.pid 0 (some 2)
      (Demo.softDeleteLog.operations.take 2) (by decide)).1 2 rfl (by decide)⟩

/-- C16: `GetOpsRange` returns exactly the project's ops with
`fromSeq <= seq <= toSeq`, both ends included, sorted by ascending seq and
without a limit; the result is empty when `fromSeq > toSeq`. -/
theorem C16_range_query (q : QueryEnv) (s : Store) (projectID : String) (fromSeq toSeq : Int)
    (projID : ObjectID) (hid : ObjectIDFromHex projectID = some projID) (hq : q.faultFree) :
    ∃ res, GetOpsRange q s projectID fromSeq toSeq = .ok res ∧
      res.Perm (s.operations.filter (fun o => decide (o.ProjectID = projID) &&
        (decide (o.Seq ≥ fromSeq) && decide (o.Seq ≤ toSeq)))) ∧
      res.Pairwise (fun a b => a.Seq ≤ b.Seq) ∧
      (∀ o, o ∈ res ↔ o ∈ s.operations ∧ o.ProjectID = projID ∧ fromSeq ≤ o.Seq ∧
        o.Seq ≤ toSeq) ∧
      (toSeq < fromSeq → res = []) := by
  have hmem : ∀ o, o ∈ sortSeqAsc (s.operations.filter (fun o => decide (o.ProjectID = projID) &&
        (decide (o.Seq ≥ fromSeq) && decide (o.Seq ≤ toSeq)))) ↔
      o ∈ s.operations ∧ o.ProjectID = projID ∧ fromSeq ≤ o.Seq ∧ o.Seq ≤ toSeq := by
    intro o
    rw [mem_sortSeqAsc, List.mem_filter]
    simp only [Bool.and_eq_true, decide_eq_true_eq, ge_iff_le]
  refine ⟨_, GetOpsRange_eq q s projectID fromSeq toSeq projID hid hq, sortSeqAsc_perm _,
    sortSeqAsc_sorted _, hmem, ?_⟩
  intro hlt
  apply List.eq_nil_iff_forall_not_mem.2
  intro o ho
  obtain ⟨_, _, h1, h2⟩ := (hmem o).1 ho
  omega

theorem C16_range_query_witness :
    ObjectIDFromHex Demo.pid = some Demo.projID ∧
    GetOpsRange Demo.quietQuery Demo.softDeleteLog Demo.pid 2 3 =
      .ok (Demo.softDeleteLog.operations.drop 1) ∧
    ∃ res, GetOpsRange Demo.quietQuery Demo.softDeleteLog Demo.pid 2 3 = .ok res ∧
      res.Pairwise (fun a b => a.Seq ≤ b.Seq) :=
  ⟨by decide, by decide,
    match C16_range_query Demo.quietQuery Demo.softDeleteLog Demo.pid 2 3 Demo.projID
      (by decide) ⟨rfl, rfl⟩ with
    | ⟨res, h1, _, h3, _⟩ => ⟨res, h1, h3⟩⟩

/-! ## C13: replay composes -/

theorem orderedInsert_cons_eq (x a : Operation) (l : List Operation) :
    List.orderedInsert (fun a b : Operation => a.Seq ≤ b.Seq) x (a :: l) =
      if x.Seq ≤ a.Seq then x :: a :: l
      else a :: List.orderedInsert (fun a b : Operation => a.Seq ≤ b.Seq) x l := rfl

theorem orderedInsert_append_left (x : Operation) (A B : List Operation)
    (h : ∀ b ∈ B, x.Seq ≤ b.Seq) :
    List.orderedInsert (fun a b : Operation => a.Seq ≤ b.Seq) x (A ++ B) =
      List.orderedInsert (fun a b : Operation => a.Seq ≤ b.Seq) x A ++ B := by
  induction A with
  | nil =>
    cases B with
    | nil => rfl
    | cons b B' =>
      rw [List.nil_append, orderedInsert_cons_eq, if_pos (h b (List.mem_cons_self _ _))]
      rfl
  | cons a A' ih =>
    rw [List.cons_append, orderedInsert_cons_eq, orderedInsert_cons_eq]
    by_cases hxa : x.Seq ≤ a.Seq
    · rw [if_pos hxa, if_pos hxa]; rfl
    · rw [if_neg hxa, if_neg hxa, ih]; rfl

theorem orderedInsert_append_right (x : Operation) (A B : List Operation)
    (h : ∀ a ∈ A, ¬ x.Seq ≤ a.Seq) :
    List.orderedInsert (fun a b : Operation => a.Seq ≤ b.Seq) x (A ++ B) =
      A ++ List.orderedInsert (fun a b : Operation => a.Seq ≤ b.Seq) x B := by
  induction A with
  | nil => rfl
  | cons a A' ih =>
    rw [List.cons_append, orderedInsert_cons_eq, if_neg (h a (List.mem_cons_self _ _)),
      ih (fun a' ha' => h a' (List.mem_cons_of_mem _ ha'))]
    rfl

/-- Sorting by seq puts the records at or below `k` first, in their sorted
order, followed by the records above `k` in theirs. -/
theorem sortSeqAsc_split (l : List Operation) (k : Int) :
    sortSeqAsc l =
      sortSeqAsc (l.filter (fun o => decide (o.Seq ≤ k))) ++
        sortSeqAsc (l.filter (fun o => decide (k < o.Seq))) := by
  induction l with
  | nil => rfl
  | cons x l ih =>
    have hcons : sortSeqAsc (x :: l) =
        List.orderedInsert (fun a b : Operation => a.Seq ≤ b.Seq) x (sortSeqAsc l) := rfl
    rw [hcons, ih]
    by_cases hx : x.Seq ≤ k
    · have h1 : (x :: l).filter (fun o => decide (o.Seq ≤ k)) =
          x :: l.filter (fun o => decide (o.Seq ≤ k)) := by
        simp [List.filter_cons, hx]
      have h2 : (x :: l).filter (fun o => decide (k < o.Seq)) =
          l.filter (fun o => decide (k < o.Seq)) := by
        have : ¬ k < x.Seq := by omega
        simp [List.filter_cons, this]
      rw [h1, h2]
      have hcons2 : sortSeqAsc (x :: l.filter (fun o => decide (o.Seq ≤ k))) =
          List.orderedInsert (fun a b : Operation => a.Seq ≤ b.Seq) x
            (sortSeqAsc (l.filter (fun o => decide (o.Seq ≤ k)))) := rfl
      rw [hcons2]
      apply orderedInsert_append_left
      intro b hb
      rw [mem_sortSeqAsc, List.mem_filter] at hb
      have := hb.2
      simp only [decide_eq_true_eq] at this
      omega
    · have h1 : (x :: l).filter (fun o => decide (o.Seq ≤ k)) =
          l.filter (fun o => decide (o.Seq ≤ k)) := by
        simp [List.filter_cons, hx]
      have h2 : (x :: l).filter (fun o => decide (k < o.Seq)) =
          x :: l.filter (fun o => decide (k < o.Seq)) := by
        have : k < x.Seq := by omega
        simp [List.filter_cons, this]
      rw [h1, h2]
      have hcons2 : sortSeqAsc (x :: l.filter (fun o => decide (k < o.Seq))) =
          List.orderedInsert (fun a b : Operation => a.Seq ≤ b.Seq) x
            (sortSeqAsc (l.filter (fun o => decide (k < o.Seq)))) := rfl
      rw [hcons2]
      apply orderedInsert_append_right
      intro a ha
      rw [mem_sortSeqAsc, List.mem_filter] at ha
      have := ha.2
      simp only [decide_eq_true_eq] at this
      omega

/-- C13: in a log whose records of the project all lie at or below the head `h`,
when the records above `k` fit within the limit, `GetOpsSince(k)` returns them
and forward-applying them, in the order returned, to the element state
reconstructed at `k` gives the element state reconstructed at `h`, which is
the state `ReconstructStateAt(h)` encodes. -/
theorem C13_replay_composes (q : QueryEnv) (s : Store) (projectID : String) (k h : Int)
    (limit : Option Int) (userID : String) (projID : ObjectID)
    (hid : ObjectIDFromHex projectID = some projID) (hq : q.faultFree)
    (hhead : ∀ o ∈ s.operations, o.ProjectID = projID → o.Seq ≤ h)
    (hfit : ((s.operations.filter
      (fun o => decide (o.ProjectID = projID) && decide (o.Seq > k))).length : Int) ≤
        effectiveLimit limit) :
    ∃ tail, GetOpsSince q s projectID k limit = .ok tail ∧
      (match stateAt s projID k with
        | some st => applyAll applyOpReconstruct st tail
        | none => none) = stateAt s projID h ∧
      ReconstructStateAt q s projectID h userID =
        reconstructed
          (match stateAt s projID k with
            | some st => applyAll applyOpReconstruct st tail
            | none => none)
          (findUpTo s.operations projID h) := by
  have htake : (sortSeqAsc (s.operations.filter
      (fun o => decide (o.ProjectID = projID) && decide (o.Seq > k)))).take
        (effectiveLimit limit).toNat =
      sortSeqAsc (s.operations.filter
        (fun o => decide (o.ProjectID = projID) && decide (o.Seq > k))) := by
    apply List.take_of_length_le
    unfold sortSeqAsc
    rw [List.length_insertionSort]
    omega
  have hsplit : findUpTo s.operations projID h =
      findUpTo s.operations projID k ++
        sortSeqAsc (s.operations.filter
          (fun o => decide (o.ProjectID = projID) && decide (o.Seq > k))) := by
    have hall : s.operations.filter
        (fun o => decide (o.ProjectID = projID) && decide (o.Seq ≤ h)) =
        projectLog s.operations projID := by
      unfold projectLog
      apply List.filter_congr
      intro o ho
      by_cases hp : o.ProjectID = projID
      · simp [hp, hhead o ho hp]
      · simp [hp]
    have hlow : s.operations.filter
        (fun o => decide (o.ProjectID = projID) && decide (o.Seq ≤ k)) =
        (projectLog s.operations projID).filter (fun o => decide (o.Seq ≤ k)) := by
      unfold projectLog
      rw [List.filter_filter]
      apply List.filter_congr
      intro o _
      exact Bool.and_comm _ _
    have hhigh : s.operations.filter
        (fun o => decide (o.ProjectID = projID) && decide (o.Seq > k)) =
        (projectLog s.operations projID).filter (fun o => decide (k < o.Seq)) := by
      unfold projectLog
      rw [List.filter_filter]
      apply List.filter_congr
      intro o _
      simp only [gt_iff_lt]
      exact Bool.and_comm _ _
    rw [findUpTo_eq, findUpTo_eq, hall, hlow, hhigh]
    exact sortSeqAsc_split _ k
  have hstate : (match stateAt s projID k with
        | some st => applyAll applyOpReconstruct st (sortSeqAsc (s.operations.filter
            (fun o => decide (o.ProjectID = projID) && decide (o.Seq > k))))
        | none => none) = stateAt s projID h := by
    unfold stateAt
    rw [hsplit, applyAll_append]
  refine ⟨_, GetOpsSince_eq q s projectID k limit projID hid hq, ?_, ?_⟩
  · rw [htake]; exact hstate
  · rw [htake, hstate]
    exact ReconstructStateAt_eq q s projectID h userID projID hid hq

theorem C13_replay_composes_witness :
    ObjectIDFromHex Demo.pid = some Demo.projID ∧
    ∃ tail, GetOpsSince Demo.quietQuery Demo.softDeleteLog Demo.pid 1 none = .ok tail ∧
      (match stateAt Demo.softDeleteLog Demo.projID 1 with
        | some st => applyAll applyOpReconstruct st tail
        | none => none) = stateAt Demo.softDeleteLog Demo.projID 3 :=
  ⟨by decide,
    match C13_replay_composes Demo.quietQuery Demo.softDeleteLog Demo.pid 1 3 none "alice"
      Demo.projID (by decide) ⟨rfl, rfl⟩ (by decide) (by decide) with
    | ⟨tail, h1, h2, _⟩ => ⟨tail, h1, h2⟩⟩

/-! ## C17: negative sequences -/

/-- C17 (as stated, refuted): with negative sequence arguments the three reads return a
result and no error, and `ApplyOps` accepts an op whose `baseSeq` is -1,
advances `headSeq` and appends the op to the log. -/
theorem C17_negative_sequences_accepted :
    GetOpsSince Demo.quietQuery Demo.store5 Demo.pid (-1) none = .ok [Demo.opE1] ∧
    GetOpsRange Demo.quietQuery Demo.store5 Demo.pid (-3) (-1) = .ok [] ∧
    ReconstructStateAt Demo.quietQuery Demo.store5 Demo.pid (-1) "bob" =
      .ok { snapshot := JsonText.null, lastSeq := 0, lastTimestamp := "" } ∧
    (ApplyOps Env.quiet Demo.store0 Demo.pid "20000002" [Demo.negativeBaseOp] "alice").1 =
      .ok { Ack := true, ServerSeq := 1, Rejected := [],
            Accepted := [mkOperation Demo.projID "20000002" 1 "t" Demo.negativeBaseOp] } ∧
    (ApplyOps Env.quiet Demo.store0 Demo.pid "20000002" [Demo.negativeBaseOp]
        "alice").2.operations = [mkOperation Demo.projID "20000002" 1 "t" Demo.negativeBaseOp] := by
  refine ⟨by decide, by decide, by decide, by decide, by decide⟩

/-- C17 (amended): negative sequences are not treated as invalid input.  The three reads
return an error exactly when the project id is malformed or a storage call
fails, whatever the values of `sinceSeq`, `fromSeq`, `toSeq` and `seq`;
`ApplyOps` returns an error only when the id is malformed, the sequence claim
fails or the insert fails, whatever the `baseSeq` of its ops, and with a
malformed id it leaves the store unchanged. -/
theorem C17_error_conditions (q : QueryEnv) (env : Env) (s : Store)
    (projectID socketID userID : String) (sinceSeq fromSeq toSeq seq : Int)
    (limit : Option Int) (ops : List OpInput) :
    ((∃ e, GetOpsSince q s projectID sinceSeq limit = .error e) ↔
      (ObjectIDFromHex projectID = none ∨ q.findFault = true ∨ q.cursorFault = true)) ∧
    ((∃ e, GetOpsRange q s projectID fromSeq toSeq = .error e) ↔
      (ObjectIDFromHex projectID = none ∨ q.findFault = true ∨ q.cursorFault = true)) ∧
    ((∃ e, ReconstructStateAt q s projectID seq userID = .error e) ↔
      (ObjectIDFromHex projectID = none ∨ q.findFault = true ∨ q.cursorFault = true)) ∧
    ((∃ e, (ApplyOps env s projectID socketID ops userID).1 = .error e) →
      (ObjectIDFromHex projectID = none ∨ env.claimFault = true ∨
        (∀ projID, ObjectIDFromHex projectID = some projID →
          findOneAndUpdate projID userID (ops.length : Int) env.now s.projects = none) ∨
        env.insertFault ≠ none)) ∧
    (ObjectIDFromHex projectID = none →
      ApplyOps env s projectID socketID ops userID = (.error .invalidProjectID, s)) := by
  refine ⟨?_, ?_, ?_, ?_, ?_⟩
  · unfold GetOpsSince
    cases hid : ObjectIDFromHex projectID with
    | none => simp
    | some projID =>
      cases h1 : q.findFault <;> cases h2 : q.cursorFault <;> simp
  · unfold GetOpsRange
    cases hid : ObjectIDFromHex projectID with
    | none => simp
    | some projID =>
      cases h1 : q.findFault <;> cases h2 : q.cursorFault <;> simp
  · unfold ReconstructStateAt
    cases hid : ObjectIDFromHex projectID with
    | none => simp
    | some projID =>
      cases h1 : q.findFault <;> cases h2 : q.cursorFault <;> simp
      cases applyAll applyOpReconstruct ElemState.empty (findUpTo s.operations projID seq) <;> simp
  · intro ⟨e, he⟩
    cases hid : ObjectIDFromHex projectID with
    | none => exact Or.inl rfl
    | some projID =>
      right
      by_cases hne : ops = []
      · subst hne
        simp [ApplyOps, hid] at he
      · cases hclaim : env.claimFault with
        | true => exact Or.inl rfl
        | false =>
          right
          cases hfind : findOneAndUpdate projID userID (ops.length : Int) env.now s.projects with
          | none =>
            left
            intro projID' hid'
            cases hid'
            exact hfind
          | some qp =>
            right
            obtain ⟨q', ps⟩ := qp
            intro hins
            rcases (ApplyOps_log env s projectID socketID ops userID projID q' ps hne hid hclaim
              hfind hins).2 with h | h
            · rw [h] at he; cases he
            · rw [h] at he; cases he
  · intro hid
    simp [ApplyOps, hid]

/-! ## C18 and C19: broadcasts -/

theorem Chan.trySend_fst {μ : Type} (c : Chan μ) (msg : μ) :
    (c.trySend msg).1 = if c.buf.length < c.cap then { c with buf := c.buf ++ [msg] } else c := by
  unfold Chan.trySend
  split <;> rfl

theorem Chan.trySend_not_sent {μ : Type} (c : Chan μ) (msg : μ)
    (h : ¬ (c.trySend msg).2 = true) : (c.trySend msg).1 = c := by
  unfold Chan.trySend at h ⊢
  split
  · rename_i hroom; simp [hroom] at h
  · rfl

theorem broadcastOpsLoop_fst {ω : Type} (projectID : String) (ops : List ω)
    (fromSocketID : String) (l : List (ProjectOpsSubscriber ω)) :
    (broadcastOpsLoop projectID ops fromSocketID l).1 = l.map (deliverOps ops fromSocketID) := by
  induction l with
  | nil => rfl
  | cons s rest ih =>
    rw [List.map_cons, ← ih]
    simp only [broadcastOpsLoop, deliverOps]
    by_cases hs : s.sockedID = fromSocketID
    · simp only [hs, if_true]
    · simp only [hs, if_false]
      by_cases hsent : (s.channel.trySend { Ops := ops, SocketID := s.sockedID }).2 = true
      · simp only [hsent, if_true]
      · rw [if_neg hsent, Chan.trySend_not_sent _ _ hsent]

theorem broadcastProjectUpdateLoop_fst (projectID : String) (project : ProjectSubscription)
    (fromID : String) (l : List ProjectSubscriber) :
    (broadcastProjectUpdateLoop projectID project fromID l).1 =
      l.map (deliverUpdate project fromID) := by
  induction l with
  | nil => rfl
  | cons s rest ih =>
    rw [List.map_cons, ← ih]
    simp only [broadcastProjectUpdateLoop, deliverUpdate]
    by_cases hs : s.sockedID = fromID
    · simp only [hs, if_true]
    · simp only [hs, if_false]
      by_cases hsent : (s.channel.trySend
          { Elements := project.Elements, SocketID := s.sockedID }).2 = true
      · simp only [hsent, if_true]
      · rw [if_neg hsent, Chan.trySend_not_sent _ _ hsent]

theorem broadcastCursorLoop_eq {κ : Type} (cursor : κ) (fromSocketID : String)
    (l : List (CursorSubscriber κ)) :
    broadcastCursorLoop cursor fromSocketID l = l.map (deliverCursor cursor fromSocketID) := by
  induction l with
  | nil => rfl
  | cons s rest ih =>
    rw [List.map_cons, ← ih]
    simp only [broadcastCursorLoop, deliverCursor]
    by_cases hs : s.sockedID = fromSocketID
    · simp only [hs, if_true]
    · simp only [hs, if_false]


theorem selfSuppressed_of_map {σ μ : Type} (sid : σ → String) (ch : σ → Chan μ)
    (msgFor : σ → μ) (fromID : String) (f : σ → σ)
    (hf : ∀ s, sid (f s) = sid s ∧ (sid s = fromID → ch (f s) = ch s) ∧
      (sid s ≠ fromID → (ch s).buf.length < (ch s).cap →
        (ch (f s)).cap = (ch s).cap ∧ (ch (f s)).buf = (ch s).buf ++ [msgFor s]))
    (l : List σ) : SelfSuppressed sid ch msgFor fromID l (l.map f) := by
  refine ⟨List.length_map _ _, ?_⟩
  intro i s hs
  refine ⟨f s, ?_, hf s⟩
  rw [List.getElem?_map, hs]
  rfl

theorem addressed_of_map {σ μ : Type} (ch : σ → Chan μ) (ok : σ → μ → Prop) (f : σ → σ)
    (hf : ∀ s, (ch (f s)).buf = (ch s).buf ∨ ∃ m, (ch (f s)).buf = (ch s).buf ++ [m] ∧ ok s m)
    (l : List σ) : Addressed ch ok l (l.map f) := by
  refine ⟨List.length_map _ _, ?_⟩
  intro i s s' hs hs'
  rw [List.getElem?_map, hs] at hs'
  cases hs'
  exact hf s

theorem deliverOps_spec {ω : Type} (ops : List ω) (fromSocketID : String)
    (s : ProjectOpsSubscriber ω) :
    (deliverOps ops fromSocketID s).sockedID = s.sockedID ∧
    (deliverOps ops fromSocketID s).userID = s.userID ∧
    (deliverOps ops fromSocketID s).userName = s.userName ∧
    (s.sockedID = fromSocketID → (deliverOps ops fromSocketID s).channel = s.channel) ∧
    (s.sockedID ≠ fromSocketID → s.channel.buf.length < s.channel.cap →
      (deliverOps ops fromSocketID s).channel.cap = s.channel.cap ∧
      (deliverOps ops fromSocketID s).channel.buf =
        s.channel.buf ++ [{ Ops := ops, SocketID := s.sockedID }]) ∧
    (s.sockedID ≠ fromSocketID → ¬ s.channel.buf.length < s.channel.cap →
      (deliverOps ops fromSocketID s).channel = s.channel) := by
  unfold deliverOps
  by_cases hs : s.sockedID = fromSocketID
  · simp [hs]
  · simp only [hs, if_false, Chan.trySend_fst, false_implies, true_implies, not_false_eq_true,
      true_and, ne_eq]
    refine ⟨?_, ?_⟩ <;> intro hroom <;> simp [hroom]

theorem deliverUpdate_spec (project : ProjectSubscription) (fromID : String)
    (s : ProjectSubscriber) :
    (deliverUpdate project fromID s).sockedID = s.sockedID ∧
    (s.sockedID = fromID → (deliverUpdate project fromID s).channel = s.channel) ∧
    (s.sockedID ≠ fromID → s.channel.buf.length < s.channel.cap →
      (deliverUpdate project fromID s).channel.cap = s.channel.cap ∧
      (deliverUpdate project fromID s).channel.buf =
        s.channel.buf ++ [{ Elements := project.Elements, SocketID := s.sockedID }]) ∧
    (s.sockedID ≠ fromID → ¬ s.channel.buf.length < s.channel.cap →
      (deliverUpdate project fromID s).channel = s.channel) := by
  unfold deliverUpdate
  by_cases hs : s.sockedID = fromID
  · simp [hs]
  · simp only [hs, if_false, Chan.trySend_fst, false_implies, true_implies, not_false_eq_true,
      true_and, ne_eq]
    refine ⟨?_, ?_⟩ <;> intro hroom <;> simp [hroom]

theorem deliverCursor_spec {κ : Type} (cursor : κ) (fromSocketID : String)
    (s : CursorSubscriber κ) :
    (deliverCursor cursor fromSocketID s).sockedID = s.sockedID ∧
    (s.sockedID = fromSocketID → (deliverCursor cursor fromSocketID s).channel = s.channel) ∧
    (s.sockedID ≠ fromSocketID → s.channel.buf.length < s.channel.cap →
      (deliverCursor cursor fromSocketID s).channel.cap = s.channel.cap ∧
      (deliverCursor cursor fromSocketID s).channel.buf = s.channel.buf ++ [cursor]) ∧
    (s.sockedID ≠ fromSocketID → ¬ s.channel.buf.length < s.channel.cap →
      (deliverCursor cursor fromSocketID s).channel = s.channel) := by
  unfold deliverCursor
  by_cases hs : s.sockedID = fromSocketID
  · simp [hs]
  · simp only [hs, if_false, Chan.trySend_fst, false_implies, true_implies, not_false_eq_true,
      true_and, ne_eq]
    refine ⟨?_, ?_⟩ <;> intro hroom <;> simp [hroom]

/-- The registries after `broadcastOps`. -/
theorem broadcastOps_registry {ω κ : Type} (r : Resolver ω κ) (projectID : String)
    (ops : List ω) (fromSocketID : String) :
    (broadcastOps r projectID ops fromSocketID).1.opsSubscribers projectID =
      (r.opsSubscribers projectID).map (List.map (deliverOps ops fromSocketID)) ∧
    (∀ p, p ≠ projectID →
      (broadcastOps r projectID ops fromSocketID).1.opsSubscribers p = r.opsSubscribers p) ∧
    (broadcastOps r projectID ops fromSocketID).1.projectSubscribers = r.projectSubscribers ∧
    (broadcastOps r projectID ops fromSocketID).1.cursorSubscribers = r.cursorSubscribers ∧
    (broadcastOps r projectID ops fromSocketID).1.presenceSubscribers = r.presenceSubscribers ∧
    (broadcastOps r projectID ops fromSocketID).1.projectPresence = r.projectPresence := by
  unfold broadcastOps
  cases h : r.opsSubscribers projectID with
  | none => simp [h]
  | some subs =>
    simp only [broadcastOpsLoop_fst, Option.map_some', mapSet, if_true]
    refine ⟨?_, ?_, ?_, ?_, ?_, ?_⟩ <;> try trivial
    intro p hp
    simp [hp]

/-- The registries after `broadcastProjectUpdate`. -/
theorem broadcastProjectUpdate_registry {ω κ : Type} (r : Resolver ω κ) (projectID : String)
    (project : ProjectSubscription) (fromID : String) :
    (broadcastProjectUpdate r projectID project fromID).1.projectSubscribers projectID =
      (r.projectSubscribers projectID).map (List.map (deliverUpdate project fromID)) ∧
    (∀ p, p ≠ projectID →
      (broadcastProjectUpdate r projectID project fromID).1.projectSubscribers p =
        r.projectSubscribers p) ∧
    (broadcastProjectUpdate r projectID project fromID).1.opsSubscribers = r.opsSubscribers ∧
    (broadcastProjectUpdate r projectID project fromID).1.cursorSubscribers =
      r.cursorSubscribers ∧
    (broadcastProjectUpdate r projectID project fromID).1.presenceSubscribers =
      r.presenceSubscribers ∧
    (broadcastProjectUpdate r projectID project fromID).1.projectPresence =
      r.projectPresence := by
  unfold broadcastProjectUpdate
  cases h : r.projectSubscribers projectID with
  | none => simp [h]
  | some subs =>
    simp only [broadcastProjectUpdateLoop_fst, Option.map_some', mapSet, if_true]
    refine ⟨?_, ?_, ?_, ?_, ?_, ?_⟩ <;> try trivial
    intro p hp
    simp [hp]

/-- The registries after `broadcastCursor`. -/
theorem broadcastCursor_registry {ω κ : Type} (r : Resolver ω κ) (projectID : String)
    (cursor : κ) (fromSocketID : String) :
    (broadcastCursor r projectID cursor fromSocketID).cursorSubscribers projectID =
      (r.cursorSubscribers projectID).map (List.map (deliverCursor cursor fromSocketID)) ∧
    (∀ p, p ≠ projectID →
      (broadcastCursor r projectID cursor fromSocketID).cursorSubscribers p =
        r.cursorSubscribers p) ∧
    (broadcastCursor r projectID cursor fromSocketID).projectSubscribers =
      r.projectSubscribers ∧
    (broadcastCursor r projectID cursor fromSocketID).opsSubscribers = r.opsSubscribers ∧
    (broadcastCursor r projectID cursor fromSocketID).presenceSubscribers =
      r.presenceSubscribers ∧
    (broadcastCursor r projectID cursor fromSocketID).projectPresence = r.projectPresence := by
  unfold broadcastCursor
  cases h : r.cursorSubscribers projectID with
  | none => simp [h]
  | some subs =>
    simp only [broadcastCursorLoop_eq, Option.map_some', mapSet, if_true]
    refine ⟨?_, ?_, ?_, ?_, ?_, ?_⟩ <;> try trivial
    intro p hp
    simp [hp]

/-- C18: a broadcast of ops, of a document update or of a cursor from socket id
`fromID` to a project leaves the channel of every subscriber carrying `fromID`
as it was, and puts exactly one message at the end of the queue of every other
subscriber of the project whose channel has room; the subscribers of other
projects are not touched. -/
theorem C18_self_suppression {ω κ : Type} (r : Resolver ω κ) (projectID fromID : String)
    (ops : List ω) (project : ProjectSubscription) (cursor : κ) :
    ((∀ subs, r.opsSubscribers projectID = some subs →
        ∃ subs', (broadcastOps r projectID ops fromID).1.opsSubscribers projectID = some subs' ∧
          SelfSuppressed (fun s => s.sockedID) (fun s => s.channel)
            (fun s => ({ Ops := ops, SocketID := s.sockedID } : ProjectOpsSubscription ω))
            fromID subs subs') ∧
      ∀ p, p ≠ projectID →
        (broadcastOps r projectID ops fromID).1.opsSubscribers p = r.opsSubscribers p) ∧
    ((∀ subs, r.projectSubscribers projectID = some subs →
        ∃ subs', (broadcastProjectUpdate r projectID project fromID).1.projectSubscribers
            projectID = some subs' ∧
          SelfSuppressed (fun s => s.sockedID) (fun s => s.channel)
            (fun s => ({ Elements := project.Elements, SocketID := s.sockedID } :
              ProjectSubscription))
            fromID subs subs') ∧
      ∀ p, p ≠ projectID →
        (broadcastProjectUpdate r projectID project fromID).1.projectSubscribers p =
          r.projectSubscribers p) ∧
    ((∀ subs, r.cursorSubscribers projectID = some subs →
        ∃ subs', (broadcastCursor r projectID cursor fromID).cursorSubscribers projectID =
            some subs' ∧
          SelfSuppressed (fun s => s.sockedID) (fun s => s.channel) (fun _ => cursor)
            fromID subs subs') ∧
      ∀ p, p ≠ projectID →
        (broadcastCursor r projectID cursor fromID).cursorSubscribers p =
          r.cursorSubscribers p) := by
  refine ⟨⟨?_, (broadcastOps_registry r projectID ops fromID).2.1⟩,
    ⟨?_, (broadcastProjectUpdate_registry r projectID project fromID).2.1⟩,
    ⟨?_, (broadcastCursor_registry r projectID cursor fromID).2.1⟩⟩
  · intro subs hsubs
    refine ⟨subs.map (deliverOps ops fromID), ?_, ?_⟩
    · rw [(broadcastOps_registry r projectID ops fromID).1, hsubs]
      rfl
    · apply selfSuppressed_of_map
      intro s
      have h := deliverOps_spec ops fromID s
      exact ⟨h.1, h.2.2.2.1, h.2.2.2.2.1⟩
  · intro subs hsubs
    refine ⟨subs.map (deliverUpdate project fromID), ?_, ?_⟩
    · rw [(broadcastProjectUpdate_registry r projectID project fromID).1, hsubs]
      rfl
    · apply selfSuppressed_of_map
      intro s
      have h := deliverUpdate_spec project fromID s
      exact ⟨h.1, h.2.1, h.2.2.1⟩
  · intro subs hsubs
    refine ⟨subs.map (deliverCursor cursor fromID), ?_, ?_⟩
    · rw [(broadcastCursor_registry r projectID cursor fromID).1, hsubs]
      rfl
    · apply selfSuppressed_of_map
      intro s
      have h := deliverCursor_spec cursor fromID s
      exact ⟨h.1, h.2.1, h.2.2.1⟩

/-- C18 on the demo hub: the first ops subscriber of p1 broadcasts. -/
theorem C18_self_suppression_witness :
    ∃ subs', (broadcastOps Demo.hub "p1" ["op"] "11111111").1.opsSubscribers "p1" = some subs' ∧
      SelfSuppressed (fun s => s.sockedID) (fun s => s.channel)
        (fun s => ({ Ops := ["op"], SocketID := s.sockedID } : ProjectOpsSubscription String))
        "11111111" Demo.opsSubs subs' :=
  (C18_self_suppression Demo.hub "p1" "11111111" ["op"]
    { Elements := "[]", SocketID := "" } "cursor").1.1 Demo.opsSubs rfl

/-- C19: every message that `broadcastOps` or `broadcastProjectUpdate` puts on
the channel of a subscriber carries that subscriber's socket id and the payload
of the broadcast (the same ops list, the same Elements); such a subscriber does
not carry the sender's socket id. -/
theorem C19_recipient_addressed {ω κ : Type} (r : Resolver ω κ) (projectID fromID : String)
    (ops : List ω) (project : ProjectSubscription) :
    (∀ subs, r.opsSubscribers projectID = some subs →
      ∃ subs', (broadcastOps r projectID ops fromID).1.opsSubscribers projectID = some subs' ∧
        Addressed (fun s => s.channel)
          (fun s m => m.SocketID = s.sockedID ∧ m.Ops = ops ∧ s.sockedID ≠ fromID)
          subs subs') ∧
    (∀ subs, r.projectSubscribers projectID = some subs →
      ∃ subs', (broadcastProjectUpdate r projectID project fromID).1.projectSubscribers
          projectID = some subs' ∧
        Addressed (fun s => s.channel)
          (fun s m => m.SocketID = s.sockedID ∧ m.Elements = project.Elements ∧
            s.sockedID ≠ fromID)
          subs subs') := by
  constructor
  · intro subs hsubs
    refine ⟨subs.map (deliverOps ops fromID), ?_, ?_⟩
    · rw [(broadcastOps_registry r projectID ops fromID).1, hsubs]
      rfl
    · apply addressed_of_map
      intro s
      have h := deliverOps_spec ops fromID s
      by_cases hs : s.sockedID = fromID
      · left; rw [h.2.2.2.1 hs]
      · by_cases hroom : s.channel.buf.length < s.channel.cap
        · right
          exact ⟨_, (h.2.2.2.2.1 hs hroom).2, rfl, rfl, hs⟩
        · left; rw [h.2.2.2.2.2 hs hroom]
  · intro subs hsubs
    refine ⟨subs.map (deliverUpdate project fromID), ?_, ?_⟩
    · rw [(broadcastProjectUpdate_registry r projectID project fromID).1, hsubs]
      rfl
    · apply addressed_of_map
      intro s
      have h := deliverUpdate_spec project fromID s
      by_cases hs : s.sockedID = fromID
      · left; rw [h.2.1 hs]
      · by_cases hroom : s.channel.buf.length < s.channel.cap
        · right
          exact ⟨_, (h.2.2.1 hs hroom).2, rfl, rfl, hs⟩
        · left; rw [h.2.2.2 hs hroom]

/-- C19 on the demo hub: a document update sent by the first subscriber of p1. -/
theorem C19_recipient_addressed_witness :
    ∃ subs', (broadcastProjectUpdate Demo.hub "p1" { Elements := "[1]", SocketID := "" }
        "11111111").1.projectSubscribers "p1" = some subs' ∧
      Addressed (fun s => s.channel)
        (fun s m => m.SocketID = s.sockedID ∧ m.Elements = "[1]" ∧ s.sockedID ≠ "11111111")
        Demo.docSubs subs' :=
  (C19_recipient_addressed Demo.hub "p1" "11111111" ([] : List String)
    { Elements := "[1]", SocketID := "" }).2 Demo.docSubs rfl

/-- The demo broadcast, evaluated: the sender gets nothing, the second
subscriber gets the ops addressed to it, the third one is full. -/
theorem broadcastOps_demo :
    ((broadcastOps Demo.hub "p1" ["op"] "11111111").1.opsSubscribers "p1").map
        (List.map (fun s => (s.sockedID, s.channel.buf))) =
      some [("11111111", []), ("22222222", [{ Ops := ["op"], SocketID := "22222222" }]),
        ("33333333", [{ Ops := ["old"], SocketID := "33333333" }])] ∧
    (broadcastOps Demo.hub "p1" ["op"] "11111111").2 =
      ["Warning: dropped ops for subscriber 33333333 on project p1 (channel full)\n"] := by
  constructor <;> rfl

/-! ## C20: unsubscribe -/

theorem removeSubscriber_none {σ γ : Type} (sid : σ → String) (ch : σ → γ) (socketID : String)
    (l : List σ) (h : ∀ s ∈ l, sid s ≠ socketID) : removeSubscriber sid ch socketID l = none := by
  induction l with
  | nil => rfl
  | cons x rest ih =>
    have hx : sid x ≠ socketID := h x (List.mem_cons_self _ _)
    have hrest := ih (fun s hs => h s (List.mem_cons_of_mem _ hs))
    simp only [removeSubscriber, hx, if_false, hrest]

theorem removeSubscriber_split {σ γ : Type} (sid : σ → String) (ch : σ → γ) (socketID : String)
    (pre : List σ) (s : σ) (post : List σ) (hs : sid s = socketID)
    (hpre : ∀ t ∈ pre, sid t ≠ socketID) :
    removeSubscriber sid ch socketID (pre ++ s :: post) = some (pre ++ post, ch s) := by
  induction pre with
  | nil => simp only [List.nil_append, removeSubscriber, hs, if_true]
  | cons x rest ih =>
    have hx : sid x ≠ socketID := hpre x (List.mem_cons_self _ _)
    have hrest := ih (fun t ht => hpre t (List.mem_cons_of_mem _ ht))
    rw [List.cons_append, removeSubscriber, if_neg hx, hrest]
    rfl

/-- A list with a record carrying the socket id splits at the first such record. -/
theorem first_carrier_split {σ : Type} (sid : σ → String) (socketID : String) (l : List σ)
    (h : ∃ s ∈ l, sid s = socketID) :
    ∃ pre s post, l = pre ++ s :: post ∧ sid s = socketID ∧ ∀ t ∈ pre, sid t ≠ socketID := by
  induction l with
  | nil =>
    obtain ⟨s, hs, _⟩ := h
    cases hs
  | cons x rest ih =>
    by_cases hx : sid x = socketID
    · exact ⟨[], x, rest, rfl, hx, fun t ht => by cases ht⟩
    · have hrest : ∃ s ∈ rest, sid s = socketID := by
        obtain ⟨s, hs, hsid⟩ := h
        rcases List.mem_cons.mp hs with rfl | hmem
        · exact absurd hsid hx
        · exact ⟨s, hmem, hsid⟩
      obtain ⟨pre, s, post, hl, hs, hpre⟩ := ih hrest
      refine ⟨x :: pre, s, post, by rw [hl]; rfl, hs, ?_⟩
      intro t ht
      rcases List.mem_cons.mp ht with rfl | hmem
      · exact hx
      · exact hpre t hmem

theorem sliceAt_mapSet_self {σ : Type} (m : String → Option (List σ)) (k : String)
    (v : List σ) : sliceAt (mapSet m k v) k = v := by
  simp [sliceAt, mapSet]

theorem mapDelete_absent {β : Type} (m : String → Option β) (k : String) (h : m k = none) :
    mapDelete m k = m := by
  funext x
  unfold mapDelete
  by_cases hx : x = k
  · rw [if_pos hx, hx, h]
  · rw [if_neg hx]

theorem sliceAt_eq_nil {σ : Type} (m : String → Option (List σ)) (k : String)
    (hlen : (sliceAt m k).length = 0) (hne : m k ≠ some []) : m k = none := by
  unfold sliceAt at hlen
  cases h : m k with
  | none => rfl
  | some l =>
    rw [h] at hlen hne
    simp only [List.length_eq_zero] at hlen
    rw [hlen] at hne
    exact absurd rfl hne

theorem unsubscribeIn_of_none {σ γ : Type} (sid : σ → String) (ch : σ → γ)
    (m : String → Option (List σ)) (projectID socketID : String)
    (h : removeSubscriber sid ch socketID (sliceAt m projectID) = none) :
    unsubscribeIn sid ch m projectID socketID =
      if (sliceAt m projectID).length = 0 then (mapDelete m projectID, none) else (m, none) := by
  simp only [unsubscribeIn, h]

theorem unsubscribeIn_of_some {σ γ : Type} (sid : σ → String) (ch : σ → γ)
    (m : String → Option (List σ)) (projectID socketID : String) (rest : List σ) (closed : γ)
    (h : removeSubscriber sid ch socketID (sliceAt m projectID) = some (rest, closed)) :
    unsubscribeIn sid ch m projectID socketID =
      if rest.length = 0 then (mapDelete (mapSet m projectID rest) projectID, some closed)
      else (mapSet m projectID rest, some closed) := by
  simp only [unsubscribeIn, h, sliceAt_mapSet_self]

/-- The body of the unsubscribe methods meets `Unsubscribed`. -/
theorem unsubscribeIn_spec {σ γ : Type} (sid : σ → String) (ch : σ → γ)
    (m : String → Option (List σ)) (projectID socketID : String) :
    Unsubscribed sid ch m projectID socketID
      (unsubscribeIn sid ch m projectID socketID).1
      (unsubscribeIn sid ch m projectID socketID).2 := by
  refine ⟨?_, ?_, ?_⟩
  · intro p hp
    cases h : removeSubscriber sid ch socketID (sliceAt m projectID) with
    | none =>
      rw [unsubscribeIn_of_none sid ch m projectID socketID h]
      split <;> simp [mapDelete, hp]
    | some out =>
      obtain ⟨rest, closed⟩ := out
      rw [unsubscribeIn_of_some sid ch m projectID socketID rest closed h]
      split <;> simp [mapDelete, mapSet, hp]
  · intro pre s post hsplit hs hpre
    have h : removeSubscriber sid ch socketID (sliceAt m projectID) =
        some (pre ++ post, ch s) := by
      rw [hsplit]
      exact removeSubscriber_split sid ch socketID pre s post hs hpre
    rw [unsubscribeIn_of_some sid ch m projectID socketID _ _ h]
    by_cases hlen : (pre ++ post).length = 0
    · rw [if_pos hlen, if_pos hlen]
      exact ⟨rfl, by simp [mapDelete]⟩
    · rw [if_neg hlen, if_neg hlen]
      exact ⟨rfl, by simp [mapSet]⟩
  · intro hnone
    rw [unsubscribeIn_of_none sid ch m projectID socketID
      (removeSubscriber_none sid ch socketID _ hnone)]
    by_cases hlen : (sliceAt m projectID).length = 0
    · rw [if_pos hlen]
      exact ⟨rfl, fun hne => mapDelete_absent m projectID (sliceAt_eq_nil m projectID hlen hne)⟩
    · rw [if_neg hlen]
      exact ⟨rfl, fun _ => rfl⟩

/-- After an unsubscribe the project is not registered with an empty list. -/
theorem unsubscribeIn_entry {σ γ : Type} (sid : σ → String) (ch : σ → γ)
    (m : String → Option (List σ)) (projectID socketID : String) :
    (unsubscribeIn sid ch m projectID socketID).1 projectID ≠ some [] := by
  cases h : removeSubscriber sid ch socketID (sliceAt m projectID) with
  | none =>
    rw [unsubscribeIn_of_none sid ch m projectID socketID h]
    split
    · simp [mapDelete]
    · rename_i hlen
      intro hnil
      apply hlen
      have hm : m projectID = some [] := hnil
      unfold sliceAt
      rw [hm]
      rfl
  | some out =>
    obtain ⟨rest, closed⟩ := out
    rw [unsubscribeIn_of_some sid ch m projectID socketID rest closed h]
    split
    · simp [mapDelete]
    · rename_i hlen
      intro hnil
      apply hlen
      simp only [mapSet, if_true, Option.some.injEq] at hnil
      rw [hnil]
      rfl

/-- What is left of the project's list after an unsubscribe is part of what
was there, and the closed channel, if any, belonged to a record carrying the
socket id. -/
theorem removeSubscriber_sublist {σ γ : Type} (sid : σ → String) (ch : σ → γ)
    (socketID : String) (l rest : List σ) (closed : γ)
    (h : removeSubscriber sid ch socketID l = some (rest, closed)) :
    rest.Sublist l ∧ (((l.map sid).Nodup) → ∀ t ∈ rest, sid t ≠ socketID) := by
  induction l generalizing rest with
  | nil => cases h
  | cons x xs ih =>
    unfold removeSubscriber at h
    by_cases hx : sid x = socketID
    · rw [if_pos hx] at h
      cases h
      refine ⟨List.sublist_cons_self _ _, ?_⟩
      intro hnodup t ht heq
      rw [List.map_cons, List.nodup_cons] at hnodup
      apply hnodup.1
      rw [hx, ← heq]
      exact List.mem_map_of_mem sid ht
    · rw [if_neg hx] at h
      cases hrec : removeSubscriber sid ch socketID xs with
      | none => rw [hrec] at h; cases h
      | some out =>
        obtain ⟨rest', closed'⟩ := out
        rw [hrec] at h
        cases h
        obtain ⟨hsub, hno⟩ := ih rest' hrec
        refine ⟨hsub.cons₂ x, ?_⟩
        intro hnodup t ht
        rw [List.map_cons, List.nodup_cons] at hnodup
        rcases List.mem_cons.mp ht with rfl | hmem
        · exact hx
        · exact hno hnodup.2 t hmem

theorem removeSubscriber_none_iff {σ γ : Type} (sid : σ → String) (ch : σ → γ)
    (socketID : String) (l : List σ) (h : removeSubscriber sid ch socketID l = none) :
    ∀ s ∈ l, sid s ≠ socketID := by
  induction l with
  | nil => intro s hs; cases hs
  | cons x xs ih =>
    unfold removeSubscriber at h
    by_cases hx : sid x = socketID
    · rw [if_pos hx] at h; cases h
    · rw [if_neg hx] at h
      cases hrec : removeSubscriber sid ch socketID xs with
      | none =>
        intro s hs
        rcases List.mem_cons.mp hs with rfl | hmem
        · exact hx
        · exact ih hrec s hmem
      | some out => rw [hrec] at h; cases h

/-- When the socket ids of the project's records are pairwise distinct, no
record carries the socket id once it has been unsubscribed. -/
theorem unsubscribeIn_gone {σ γ : Type} (sid : σ → String) (ch : σ → γ)
    (m : String → Option (List σ)) (projectID socketID : String)
    (hnodup : ((sliceAt m projectID).map sid).Nodup) :
    ∀ t ∈ sliceAt (unsubscribeIn sid ch m projectID socketID).1 projectID, sid t ≠ socketID := by
  cases h : removeSubscriber sid ch socketID (sliceAt m projectID) with
  | none =>
    have hno := removeSubscriber_none_iff sid ch socketID _ h
    rw [unsubscribeIn_of_none sid ch m projectID socketID h]
    split
    · intro t ht
      simp [sliceAt, mapDelete] at ht
    · exact hno
  | some out =>
    obtain ⟨rest, closed⟩ := out
    have hno := (removeSubscriber_sublist sid ch socketID _ rest closed h).2 hnodup
    rw [unsubscribeIn_of_some sid ch m projectID socketID rest closed h]
    split
    · intro t ht
      simp [sliceAt, mapDelete] at ht
    · intro t ht
      rw [sliceAt_mapSet_self] at ht
      exact hno t ht

/-- With pairwise distinct socket ids, a second unsubscribe of the same socket
id changes nothing and closes nothing. -/
theorem unsubscribeIn_again {σ γ : Type} (sid : σ → String) (ch : σ → γ)
    (m : String → Option (List σ)) (projectID socketID : String)
    (hnodup : ((sliceAt m projectID).map sid).Nodup) :
    unsubscribeIn sid ch (unsubscribeIn sid ch m projectID socketID).1 projectID socketID =
      ((unsubscribeIn sid ch m projectID socketID).1, none) := by
  have hspec := (unsubscribeIn_spec sid ch (unsubscribeIn sid ch m projectID socketID).1
    projectID socketID).2.2 (unsubscribeIn_gone sid ch m projectID socketID hnodup)
  exact Prod.ext (hspec.2 (unsubscribeIn_entry sid ch m projectID socketID)) hspec.1

theorem NewResolver_noEmptyEntry (ω κ : Type) :
    NoEmptyEntry (NewResolver ω κ).projectSubscribers ∧
    NoEmptyEntry (NewResolver ω κ).opsSubscribers ∧
    NoEmptyEntry (NewResolver ω κ).cursorSubscribers ∧
    NoEmptyEntry (NewResolver ω κ).presenceSubscribers := by
  refine ⟨?_, ?_, ?_, ?_⟩ <;> intro p h <;> cases h

theorem subscribeIn_noEmptyEntry {σ : Type} (m : String → Option (List σ)) (projectID : String)
    (subscriber : σ) (h : NoEmptyEntry m) : NoEmptyEntry (subscribeIn m projectID subscriber) := by
  intro p
  unfold subscribeIn mapSet
  by_cases hp : p = projectID
  · rw [if_pos hp]
    intro hnil
    have := congrArg (Option.map List.length) hnil
    simp at this
  · rw [if_neg hp]
    exact h p

theorem unsubscribeIn_noEmptyEntry {σ γ : Type} (sid : σ → String) (ch : σ → γ)
    (m : String → Option (List σ)) (projectID socketID : String) (h : NoEmptyEntry m) :
    NoEmptyEntry (unsubscribeIn sid ch m projectID socketID).1 := by
  intro p
  by_cases hp : p = projectID
  · rw [hp]
    exact unsubscribeIn_entry sid ch m projectID socketID
  · rw [(unsubscribeIn_spec sid ch m projectID socketID).1 p hp]
    exact h p

/-- C20, as stated, fails when two records of a project carry one socket id:
the generator draws the same number for two document subscriptions of p1; the
first unsubscribe of the id closes the channel of the first subscription, and a
second unsubscribe of the same id closes the channel of the second one and
deletes the entry of the project. -/
theorem C20_second_unsubscribe_closes_another :
    (subscribeToProject (NewResolver String String) 5 "p1" Demo.chanA).2 = "10000005" ∧
    (subscribeToProject (subscribeToProject (NewResolver String String) 5 "p1" Demo.chanA).1
      5 "p1" Demo.chanB).2 = "10000005" ∧
    Demo.collided.projectSubscribers "p1" =
      some [{ sockedID := "10000005", channel := Demo.chanA },
        { sockedID := "10000005", channel := Demo.chanB }] ∧
    (unsubscribeFromProject Demo.collided "p1" "10000005").2 = some Demo.chanA ∧
    (unsubscribeFromProject Demo.collided "p1" "10000005").1.projectSubscribers "p1" =
      some [{ sockedID := "10000005", channel := Demo.chanB }] ∧
    (unsubscribeFromProject (unsubscribeFromProject Demo.collided "p1" "10000005").1
      "p1" "10000005").2 = some Demo.chanB ∧
    (unsubscribeFromProject (unsubscribeFromProject Demo.collided "p1" "10000005").1
      "p1" "10000005").1.projectSubscribers "p1" = none :=
  ⟨rfl, rfl, rfl, rfl, rfl, rfl, rfl⟩

/-- C20, amended: in each of the four registries an unsubscribe takes the
first record of the project that carries the socket id out of the list, keeps
the other records in their order, closes the channel of that record and no
other, and deletes the entry of the project when nothing is left; when no
record of the project carries the socket id it closes no channel and leaves the
registry as it is; the other registries never change; and when the socket ids
of the project are pairwise distinct, a second unsubscribe of the same socket id
changes nothing and closes no channel. -/
theorem C20_unsubscribe {ω κ : Type} (r : Resolver ω κ) (projectID socketID : String) :
    (Unsubscribed (fun s : ProjectSubscriber => s.sockedID) (fun s => s.channel)
        r.projectSubscribers projectID socketID
        (unsubscribeFromProject r projectID socketID).1.projectSubscribers
        (unsubscribeFromProject r projectID socketID).2 ∧
      (unsubscribeFromProject r projectID socketID).1.opsSubscribers = r.opsSubscribers ∧
      (unsubscribeFromProject r projectID socketID).1.cursorSubscribers = r.cursorSubscribers ∧
      (unsubscribeFromProject r projectID socketID).1.presenceSubscribers =
        r.presenceSubscribers ∧
      (unsubscribeFromProject r projectID socketID).1.projectPresence = r.projectPresence ∧
      (((sliceAt r.projectSubscribers projectID).map (fun s => s.sockedID)).Nodup →
        unsubscribeFromProject (unsubscribeFromProject r projectID socketID).1 projectID
            socketID = ((unsubscribeFromProject r projectID socketID).1, none))) ∧
    (Unsubscribed (fun s : ProjectOpsSubscriber ω => s.sockedID) (fun s => s.channel)
        r.opsSubscribers projectID socketID
        (unsubscribeFromProjectOps r projectID socketID).1.opsSubscribers
        (unsubscribeFromProjectOps r projectID socketID).2 ∧
      (unsubscribeFromProjectOps r projectID socketID).1.projectSubscribers =
        r.projectSubscribers ∧
      (unsubscribeFromProjectOps r projectID socketID).1.cursorSubscribers =
        r.cursorSubscribers ∧
      (unsubscribeFromProjectOps r projectID socketID).1.presenceSubscribers =
        r.presenceSubscribers ∧
      (unsubscribeFromProjectOps r projectID socketID).1.projectPresence = r.projectPresence ∧
      (((sliceAt r.opsSubscribers projectID).map (fun s => s.sockedID)).Nodup →
        unsubscribeFromProjectOps (unsubscribeFromProjectOps r projectID socketID).1 projectID
            socketID = ((unsubscribeFromProjectOps r projectID socketID).1, none))) ∧
    (Unsubscribed (fun s : CursorSubscriber κ => s.sockedID) (fun s => s.channel)
        r.cursorSubscribers projectID socketID
        (unsubscribeFromCursors r projectID socketID).1.cursorSubscribers
        (unsubscribeFromCursors r projectID socketID).2 ∧
      (unsubscribeFromCursors r projectID socketID).1.projectSubscribers =
        r.projectSubscribers ∧
      (unsubscribeFromCursors r projectID socketID).1.opsSubscribers = r.opsSubscribers ∧
      (unsubscribeFromCursors r projectID socketID).1.presenceSubscribers =
        r.presenceSubscribers ∧
      (unsubscribeFromCursors r projectID socketID).1.projectPresence = r.projectPresence ∧
      (((sliceAt r.cursorSubscribers projectID).map (fun s => s.sockedID)).Nodup →
        unsubscribeFromCursors (unsubscribeFromCursors r projectID socketID).1 projectID
            socketID = ((unsubscribeFromCursors r projectID socketID).1, none))) ∧
    (Unsubscribed (fun s : PresenceSubscriber => s.sockedID) (fun s => s.channel)
        r.presenceSubscribers projectID socketID
        (unsubscribeFromPresence r projectID socketID).1.presenceSubscribers
        (unsubscribeFromPresence r projectID socketID).2 ∧
      (unsubscribeFromPresence r projectID socketID).1.projectSubscribers =
        r.projectSubscribers ∧
      (unsubscribeFromPresence r projectID socketID).1.opsSubscribers = r.opsSubscribers ∧
      (unsubscribeFromPresence r projectID socketID).1.cursorSubscribers =
        r.cursorSubscribers ∧
      (unsubscribeFromPresence r projectID socketID).1.projectPresence = r.projectPresence ∧
      (((sliceAt r.presenceSubscribers projectID).map (fun s => s.sockedID)).Nodup →
        unsubscribeFromPresence (unsubscribeFromPresence r projectID socketID).1 projectID
            socketID = ((unsubscribeFromPresence r projectID socketID).1, none))) := by
  refine ⟨⟨unsubscribeIn_spec _ _ _ _ _, rfl, rfl, rfl, rfl, ?_⟩,
    ⟨unsubscribeIn_spec _ _ _ _ _, rfl, rfl, rfl, rfl, ?_⟩,
    ⟨unsubscribeIn_spec _ _ _ _ _, rfl, rfl, rfl, rfl, ?_⟩,
    ⟨unsubscribeIn_spec _ _ _ _ _, rfl, rfl, rfl, rfl, ?_⟩⟩
  · intro hnodup
    have h := unsubscribeIn_again (fun s : ProjectSubscriber => s.sockedID) (fun s => s.channel)
      r.projectSubscribers projectID socketID hnodup
    simp only [unsubscribeFromProject, h]
  · intro hnodup
    have h := unsubscribeIn_again (fun s : ProjectOpsSubscriber ω => s.sockedID)
      (fun s => s.channel) r.opsSubscribers projectID socketID hnodup
    simp only [unsubscribeFromProjectOps, h]
  · intro hnodup
    have h := unsubscribeIn_again (fun s : CursorSubscriber κ => s.sockedID)
      (fun s => s.channel) r.cursorSubscribers projectID socketID hnodup
    simp only [unsubscribeFromCursors, h]
  · intro hnodup
    have h := unsubscribeIn_again (fun s : PresenceSubscriber => s.sockedID)
      (fun s => s.channel) r.presenceSubscribers projectID socketID hnodup
    simp only [unsubscribeFromPresence, h]

/-- C20 on the demo hub: the second document subscriber of p1 unsubscribes
twice; the second call changes nothing and closes nothing. -/
theorem C20_unsubscribe_witness :
    unsubscribeFromProject (unsubscribeFromProject Demo.hub "p1" "22222222").1 "p1" "22222222" =
      ((unsubscribeFromProject Demo.hub "p1" "22222222").1, none) :=
  (C20_unsubscribe Demo.hub "p1" "22222222").1.2.2.2.2.2 (by decide)

/-- The first of these two calls, evaluated: the record is taken out, its
channel is the one closed, the first subscriber stays. -/
theorem unsubscribe_demo :
    (unsubscribeFromProject Demo.hub "p1" "22222222").2 = some { cap := 1, buf := [] } ∧
    (unsubscribeFromProject Demo.hub "p1" "22222222").1.projectSubscribers "p1" =
      some [{ sockedID := "11111111", channel := { cap := 1, buf := [] } }] ∧
    (unsubscribeFromProject (unsubscribeFromProject Demo.hub "p1" "22222222").1 "p1"
      "11111111").1.projectSubscribers "p1" = none :=
  ⟨rfl, rfl, rfl⟩

/-! ## C21: socket ids and drawn values -/

theorem digitChar_value (k : Nat) (h : k < 10) : (Nat.digitChar k).toNat - 48 = k := by
  interval_cases k <;> rfl

theorem decimalValue_append (xs : List Char) (c : Char) :
    decimalValue (xs ++ [c]) = decimalValue xs * 10 + (c.toNat - 48) := by
  unfold decimalValue
  rw [List.foldl_append]
  rfl

theorem toDigitsCore_spec (fuel : Nat) :
    ∀ (n : Nat) (ds : List Char), n < fuel →
      Nat.toDigitsCore 10 fuel n ds = Nat.toDigitsCore 10 fuel n [] ++ ds ∧
      decimalValue (Nat.toDigitsCore 10 fuel n []) = n := by
  induction fuel with
  | zero => intro n ds h; omega
  | succ fuel ih =>
    intro n ds h
    have hmod : n % 10 < 10 := Nat.mod_lt _ (by decide)
    by_cases hz : n / 10 = 0
    · have hn : n % 10 = n := by omega
      simp only [Nat.toDigitsCore, hz, if_true]
      refine ⟨rfl, ?_⟩
      show decimalValue ([] ++ [Nat.digitChar (n % 10)]) = n
      rw [decimalValue_append, digitChar_value _ hmod]
      simp [decimalValue, hn]
    · have hlt : n / 10 < fuel := by omega
      simp only [Nat.toDigitsCore, hz, if_false]
      have h1 := (ih (n / 10) (Nat.digitChar (n % 10) :: ds) hlt).1
      have h2 := (ih (n / 10) [Nat.digitChar (n % 10)] hlt).1
      have h3 := (ih (n / 10) [] hlt).2
      refine ⟨?_, ?_⟩
      · rw [h1, h2]
        simp
      · rw [h2, decimalValue_append, h3, digitChar_value _ hmod]
        omega

theorem decimalValue_repr (n : Nat) : decimalValue (Nat.repr n).data = n :=
  (toDigitsCore_spec (n + 1) n [] (Nat.lt_succ_self n)).2

/-- Two drawn values with the same socket id are equal. -/
theorem generateRandom8DigitString_inj (a b : Nat)
    (h : generateRandom8DigitString a = generateRandom8DigitString b) : a = b := by
  have h1 : decimalValue (Nat.repr (a + 10000000)).data =
      decimalValue (Nat.repr (b + 10000000)).data := by
    have h2 : Nat.repr (a + 10000000) = Nat.repr (b + 10000000) := h
    rw [h2]
  rw [decimalValue_repr, decimalValue_repr] at h1
  omega

theorem sliceAt_subscribeIn {σ : Type} (m : String → Option (List σ)) (projectID : String)
    (subscriber : σ) :
    sliceAt (subscribeIn m projectID subscriber) projectID = sliceAt m projectID ++ [subscriber] := by
  simp [subscribeIn, sliceAt, mapSet]

theorem subscribeIn_other {σ : Type} (m : String → Option (List σ)) (projectID : String)
    (subscriber : σ) (p : String) (hp : p ≠ projectID) :
    subscribeIn m projectID subscriber p = m p := by
  simp [subscribeIn, mapSet, hp]

theorem subscribeAllToProject_slice {ω κ : Type} (projectID : String)
    (calls : List (Nat × Chan ProjectSubscription)) :
    ∀ r : Resolver ω κ,
      sliceAt (subscribeAllToProject r projectID calls).projectSubscribers projectID =
        sliceAt r.projectSubscribers projectID ++
          calls.map (fun c => { sockedID := generateRandom8DigitString c.1, channel := c.2 }) := by
  induction calls with
  | nil => intro r; simp [subscribeAllToProject]
  | cons c rest ih =>
    intro r
    have h := ih (subscribeToProject r c.1 projectID c.2).1
    unfold subscribeAllToProject at h ⊢
    rw [List.foldl_cons, h]
    simp only [subscribeToProject, sliceAt_subscribeIn, List.map_cons, List.append_assoc,
      List.singleton_append]

theorem subscribeAllToProjectOps_slice {ω κ : Type} (projectID : String)
    (calls : List (Nat × String × String × Chan (ProjectOpsSubscription ω))) :
    ∀ r : Resolver ω κ,
      sliceAt (subscribeAllToProjectOps r projectID calls).opsSubscribers projectID =
        sliceAt r.opsSubscribers projectID ++
          calls.map (fun c => { sockedID := generateRandom8DigitString c.1, userID := c.2.1,
                                userName := c.2.2.1, channel := c.2.2.2 }) := by
  induction calls with
  | nil => intro r; simp [subscribeAllToProjectOps]
  | cons c rest ih =>
    intro r
    have h := ih (subscribeToProjectOps r c.1 projectID c.2.1 c.2.2.1 c.2.2.2).1
    unfold subscribeAllToProjectOps at h ⊢
    rw [List.foldl_cons, h]
    simp only [subscribeToProjectOps, sliceAt_subscribeIn, List.map_cons, List.append_assoc,
      List.singleton_append]

theorem subscribeAllToCursors_slice {ω κ : Type} (projectID : String)
    (calls : List (Nat × Chan κ)) :
    ∀ r : Resolver ω κ,
      sliceAt (subscribeAllToCursors r projectID calls).cursorSubscribers projectID =
        sliceAt r.cursorSubscribers projectID ++
          calls.map (fun c => { sockedID := generateRandom8DigitString c.1, channel := c.2 }) := by
  induction calls with
  | nil => intro r; simp [subscribeAllToCursors]
  | cons c rest ih =>
    intro r
    have h := ih (subscribeToCursors r c.1 projectID c.2).1
    unfold subscribeAllToCursors at h ⊢
    rw [List.foldl_cons, h]
    simp only [subscribeToCursors, sliceAt_subscribeIn, List.map_cons, List.append_assoc,
      List.singleton_append]

theorem subscribeAllToPresence_slice {ω κ : Type} (projectID : String)
    (calls : List (Nat × Chan (List UserPresence))) :
    ∀ r : Resolver ω κ,
      sliceAt (subscribeAllToPresence r projectID calls).presenceSubscribers projectID =
        sliceAt r.presenceSubscribers projectID ++
          calls.map (fun c => { sockedID := generateRandom8DigitString c.1, channel := c.2 }) := by
  induction calls with
  | nil => intro r; simp [subscribeAllToPresence]
  | cons c rest ih =>
    intro r
    have h := ih (subscribeToPresence r c.1 projectID c.2).1
    unfold subscribeAllToPresence at h ⊢
    rw [List.foldl_cons, h]
    simp only [subscribeToPresence, sliceAt_subscribeIn, List.map_cons, List.append_assoc,
      List.singleton_append]

/-- The ids generated for a list of drawn values are pairwise distinct exactly
when the drawn values are. -/
theorem nodup_generated_iff (draws : List Nat) :
    (draws.map generateRandom8DigitString).Nodup ↔ draws.Nodup := by
  constructor
  · exact List.Nodup.of_map _
  · intro h
    exact List.Nodup.map (fun a b hab => generateRandom8DigitString_inj a b hab) h

/-- C21, as stated, fails: the generator draws the same value for two
subscriptions of project p1, no id is regenerated, and the two subscribers
are registered under the same socket id, in the document registry and in the
ops registry alike. -/
theorem C21_ids_collide :
    (sliceAt (subscribeAllToProject (NewResolver String String) "p1"
        [(5, Demo.chanA), (5, Demo.chanB)]).projectSubscribers "p1").map
      (fun s => s.sockedID) = ["10000005", "10000005"] ∧
    ¬ ((sliceAt (subscribeAllToProject (NewResolver String String) "p1"
        [(5, Demo.chanA), (5, Demo.chanB)]).projectSubscribers "p1").map
      (fun s => s.sockedID)).Nodup ∧
    (sliceAt (subscribeAllToProjectOps (NewResolver String String) "p1"
        [(7, "u1", "Ann", { cap := 1, buf := [] }),
         (7, "u2", "Bob", { cap := 1, buf := [] })]).opsSubscribers "p1").map
      (fun s => s.sockedID) = ["10000007", "10000007"] := by
  refine ⟨by decide, by decide, by decide⟩

/-- C21, amended: after a sequence of subscribe calls on a project, in each of
the four registries, the socket ids registered for the project are the ids
that were there followed, in call order, by the ids generated from the drawn
values, none of them regenerated; on a hub that starts empty they are
pairwise distinct exactly when the drawn values are pairwise distinct. -/
theorem C21_ids_follow_draws {ω κ : Type} (r : Resolver ω κ) (projectID : String)
    (docCalls : List (Nat × Chan ProjectSubscription))
    (opsCalls : List (Nat × String × String × Chan (ProjectOpsSubscription ω)))
    (cursorCalls : List (Nat × Chan κ))
    (presenceCalls : List (Nat × Chan (List UserPresence))) :
    ((sliceAt (subscribeAllToProject r projectID docCalls).projectSubscribers projectID).map
        (fun s => s.sockedID) =
      (sliceAt r.projectSubscribers projectID).map (fun s => s.sockedID) ++
        docCalls.map (fun c => generateRandom8DigitString c.1) ∧
      (((sliceAt (subscribeAllToProject (NewResolver ω κ) projectID
          docCalls).projectSubscribers projectID).map (fun s => s.sockedID)).Nodup ↔
        (docCalls.map (fun c => c.1)).Nodup)) ∧
    ((sliceAt (subscribeAllToProjectOps r projectID opsCalls).opsSubscribers projectID).map
        (fun s => s.sockedID) =
      (sliceAt r.opsSubscribers projectID).map (fun s => s.sockedID) ++
        opsCalls.map (fun c => generateRandom8DigitString c.1) ∧
      (((sliceAt (subscribeAllToProjectOps (NewResolver ω κ) projectID
          opsCalls).opsSubscribers projectID).map (fun s => s.sockedID)).Nodup ↔
        (opsCalls.map (fun c => c.1)).Nodup)) ∧
    ((sliceAt (subscribeAllToCursors r projectID cursorCalls).cursorSubscribers projectID).map
        (fun s => s.sockedID) =
      (sliceAt r.cursorSubscribers projectID).map (fun s => s.sockedID) ++
        cursorCalls.map (fun c => generateRandom8DigitString c.1) ∧
      (((sliceAt (subscribeAllToCursors (NewResolver ω κ) projectID
          cursorCalls).cursorSubscribers projectID).map (fun s => s.sockedID)).Nodup ↔
        (cursorCalls.map (fun c => c.1)).Nodup)) ∧
    ((sliceAt (subscribeAllToPresence r projectID presenceCalls).presenceSubscribers
        projectID).map (fun s => s.sockedID) =
      (sliceAt r.presenceSubscribers projectID).map (fun s => s.sockedID) ++
        presenceCalls.map (fun c => generateRandom8DigitString c.1) ∧
      (((sliceAt (subscribeAllToPresence (NewResolver ω κ) projectID
          presenceCalls).presenceSubscribers projectID).map (fun s => s.sockedID)).Nodup ↔
        (presenceCalls.map (fun c => c.1)).Nodup)) := by
  have hnil : ∀ {σ : Type}, sliceAt (fun _ => (none : Option (List σ))) projectID = [] :=
    fun {_} => rfl
  refine ⟨⟨?_, ?_⟩, ⟨?_, ?_⟩, ⟨?_, ?_⟩, ⟨?_, ?_⟩⟩
  · rw [subscribeAllToProject_slice, List.map_append, List.map_map]
    rfl
  · rw [subscribeAllToProject_slice]
    simp only [NewResolver, hnil, List.nil_append, List.map_map]
    rw [← nodup_generated_iff, List.map_map]
    rfl
  · rw [subscribeAllToProjectOps_slice, List.map_append, List.map_map]
    rfl
  · rw [subscribeAllToProjectOps_slice]
    simp only [NewResolver, hnil, List.nil_append, List.map_map]
    rw [← nodup_generated_iff, List.map_map]
    rfl
  · rw [subscribeAllToCursors_slice, List.map_append, List.map_map]
    rfl
  · rw [subscribeAllToCursors_slice]
    simp only [NewResolver, hnil, List.nil_append, List.map_map]
    rw [← nodup_generated_iff, List.map_map]
    rfl
  · rw [subscribeAllToPresence_slice, List.map_append, List.map_map]
    rfl
  · rw [subscribeAllToPresence_slice]
    simp only [NewResolver, hnil, List.nil_append, List.map_map]
    rw [← nodup_generated_iff, List.map_map]
    rfl

/-! ## C22: a full channel -/

theorem broadcastOpsLoop_snd {ω : Type} (projectID : String) (ops : List ω)
    (fromSocketID : String) (l : List (ProjectOpsSubscriber ω)) :
    (broadcastOpsLoop projectID ops fromSocketID l).2 =
      (l.filter (fun s => decide (s.sockedID ≠ fromSocketID) &&
        decide (¬ s.channel.buf.length < s.channel.cap))).map (dropWarning projectID) := by
  induction l with
  | nil => rfl
  | cons s rest ih =>
    simp only [broadcastOpsLoop]
    by_cases hs : s.sockedID = fromSocketID
    · rw [if_pos hs]
      simp only [ih]
      rw [List.filter_cons_of_neg (by simp [hs])]
    · rw [if_neg hs]
      by_cases hroom : s.channel.buf.length < s.channel.cap
      · have hsent : (s.channel.trySend { Ops := ops, SocketID := s.sockedID }).2 = true := by
          simp [Chan.trySend, hroom]
        rw [if_pos hsent]
        simp only [ih]
        rw [List.filter_cons_of_neg (by simp [hroom])]
      · have hsent : ¬ (s.channel.trySend { Ops := ops, SocketID := s.sockedID }).2 = true := by
          simp [Chan.trySend, hroom]
        rw [if_neg hsent]
        simp only [ih]
        rw [List.filter_cons_of_pos (by simp [hs, hroom]), List.map_cons]
        rfl

theorem opsDelivered_map {ω : Type} (ops : List ω) (fromSocketID : String)
    (l : List (ProjectOpsSubscriber ω)) :
    OpsDelivered ops fromSocketID l (l.map (deliverOps ops fromSocketID)) := by
  refine ⟨List.length_map _ _, ?_⟩
  intro i s hs
  have h := deliverOps_spec ops fromSocketID s
  refine ⟨deliverOps ops fromSocketID s, ?_, h.1, h.2.1, h.2.2.1, ?_, ?_, ?_, h.2.2.2.1⟩
  · rw [List.getElem?_map, hs]
    rfl
  · by_cases hfrom : s.sockedID = fromSocketID
    · rw [h.2.2.2.1 hfrom]
    · by_cases hroom : s.channel.buf.length < s.channel.cap
      · exact (h.2.2.2.2.1 hfrom hroom).1
      · rw [h.2.2.2.2.2 hfrom hroom]
  · intro hfrom hroom
    exact (h.2.2.2.2.1 hfrom hroom).2
  · intro hroom
    by_cases hfrom : s.sockedID = fromSocketID
    · exact h.2.2.2.1 hfrom
    · exact h.2.2.2.2.2 hfrom hroom

/-- C22: an ops broadcast to a project returns, whatever the channels hold
(each send is one attempt that does not wait); afterwards every subscriber of
the project is still registered, at its place and with its ids; every
subscriber other than the sender whose channel has room has the message at
the end of its queue; every full channel, and the channel of the sender, is
as it was; one warning is printed for each full channel of a subscriber other
than the sender; the lists of other projects and the other registries are
unchanged. -/
theorem C22_slow_subscriber_drop {ω κ : Type} (r : Resolver ω κ) (projectID : String)
    (ops : List ω) (fromSocketID : String) (subs : List (ProjectOpsSubscriber ω))
    (hsubs : r.opsSubscribers projectID = some subs) :
    (∃ subs', (broadcastOps r projectID ops fromSocketID).1.opsSubscribers projectID =
        some subs' ∧ OpsDelivered ops fromSocketID subs subs') ∧
    (broadcastOps r projectID ops fromSocketID).2 =
      (subs.filter (fun s => decide (s.sockedID ≠ fromSocketID) &&
        decide (¬ s.channel.buf.length < s.channel.cap))).map (dropWarning projectID) ∧
    (∀ p, p ≠ projectID →
      (broadcastOps r projectID ops fromSocketID).1.opsSubscribers p = r.opsSubscribers p) ∧
    (broadcastOps r projectID ops fromSocketID).1.projectSubscribers = r.projectSubscribers ∧
    (broadcastOps r projectID ops fromSocketID).1.cursorSubscribers = r.cursorSubscribers ∧
    (broadcastOps r projectID ops fromSocketID).1.presenceSubscribers = r.presenceSubscribers ∧
    (broadcastOps r projectID ops fromSocketID).1.projectPresence = r.projectPresence := by
  have hreg := broadcastOps_registry r projectID ops fromSocketID
  refine ⟨⟨subs.map (deliverOps ops fromSocketID), ?_, opsDelivered_map ops fromSocketID subs⟩,
    ?_, hreg.2.1, hreg.2.2.1, hreg.2.2.2.1, hreg.2.2.2.2.1, hreg.2.2.2.2.2⟩
  · rw [hreg.1, hsubs]
    rfl
  · unfold broadcastOps
    rw [hsubs]
    exact broadcastOpsLoop_snd projectID ops fromSocketID subs

/-- C22 on two ops subscribers of p1, the second with a full channel: the
first receives the ops, the queue of the second is as it was, one warning is
printed and both are still registered. -/
theorem C22_slow_subscriber_drop_witness :
    (∃ subs', (broadcastOps Demo.slowHub "p1" ["op"] "11111111").1.opsSubscribers "p1" =
        some subs' ∧
      OpsDelivered ["op"] "11111111"
        [{ sockedID := "22222222", userID := "u2", userName := "Bob",
           channel := { cap := 2, buf := [] } },
         { sockedID := "33333333", userID := "u3", userName := "Cy",
           channel := { cap := 1, buf := [{ Ops := ["old"], SocketID := "33333333" }] } }]
        subs') ∧
    (broadcastOps Demo.slowHub "p1" ["op"] "11111111").1.opsSubscribers "p1" =
      some [{ sockedID := "22222222", userID := "u2", userName := "Bob",
              channel := { cap := 2, buf := [{ Ops := ["op"], SocketID := "22222222" }] } },
            { sockedID := "33333333", userID := "u3", userName := "Cy",
              channel := { cap := 1, buf := [{ Ops := ["old"], SocketID := "33333333" }] } }] ∧
    (broadcastOps Demo.slowHub "p1" ["op"] "11111111").2 =
      ["Warning: dropped ops for subscriber 33333333 on project p1 (channel full)\n"] :=
  ⟨(C22_slow_subscriber_drop Demo.slowHub "p1" ["op"] "11111111" _ rfl).1, rfl, rfl⟩

/-! ## C23 and C24: presence -/

theorem lookup_bindingsSet_self {β : Type} (l : List (String × β)) (k : String) (v : β) :
    (bindingsSet l k v).lookup k = some v := by
  induction l with
  | nil => simp [bindingsSet, List.lookup]
  | cons b rest ih =>
    obtain ⟨k', v'⟩ := b
    unfold bindingsSet
    by_cases h : k' = k
    · rw [if_pos h]
      simp [List.lookup]
    · rw [if_neg h]
      have h' : (k == k') = false := by simpa using fun e => h e.symm
      simp only [List.lookup, h']
      exact ih

theorem lookup_bindingsSet_ne {β : Type} (l : List (String × β)) (k k' : String) (v : β)
    (hne : k' ≠ k) : (bindingsSet l k v).lookup k' = l.lookup k' := by
  induction l with
  | nil =>
    have h' : (k' == k) = false := by simpa using hne
    simp [bindingsSet, List.lookup, h']
  | cons b rest ih =>
    obtain ⟨k0, v0⟩ := b
    unfold bindingsSet
    by_cases h : k0 = k
    · rw [if_pos h]
      have h1 : (k' == k) = false := by simpa using hne
      have h2 : (k' == k0) = false := by rw [h]; exact h1
      simp only [List.lookup, h1, h2]
    · rw [if_neg h]
      cases hk : (k' == k0) with
      | true => simp only [List.lookup, hk]
      | false =>
        simp only [List.lookup, hk]
        exact ih

theorem mem_bindingsSet {β : Type} (l : List (String × β)) (k : String) (v : β)
    (b : String × β) (hb : b ∈ bindingsSet l k v) : b = (k, v) ∨ b ∈ l := by
  induction l with
  | nil =>
    simp only [bindingsSet, List.mem_singleton] at hb
    exact Or.inl hb
  | cons b0 rest ih =>
    obtain ⟨k0, v0⟩ := b0
    unfold bindingsSet at hb
    by_cases h : k0 = k
    · rw [if_pos h] at hb
      rcases List.mem_cons.mp hb with h1 | h1
      · exact Or.inl h1
      · exact Or.inr (List.mem_cons_of_mem _ h1)
    · rw [if_neg h] at hb
      rcases List.mem_cons.mp hb with h1 | h1
      · exact Or.inr (h1 ▸ List.mem_cons_self _ _)
      · rcases ih h1 with h2 | h2
        · exact Or.inl h2
        · exact Or.inr (List.mem_cons_of_mem _ h2)

theorem keys_bindingsSet {β : Type} (l : List (String × β)) (k : String) (v : β) :
    (bindingsSet l k v).map (fun b => b.1) =
      if k ∈ l.map (fun b => b.1) then l.map (fun b => b.1)
      else l.map (fun b => b.1) ++ [k] := by
  induction l with
  | nil => simp [bindingsSet]
  | cons b0 rest ih =>
    obtain ⟨k0, v0⟩ := b0
    unfold bindingsSet
    by_cases h : k0 = k
    · rw [if_pos h]
      simp [h]
    · rw [if_neg h, List.map_cons, ih]
      have hne : ¬ k = k0 := fun e => h e.symm
      by_cases hmem : k ∈ rest.map (fun b => b.1)
      · rw [if_pos hmem, if_pos (by simp only [List.map_cons, List.mem_cons]; exact Or.inr hmem)]
        rfl
      · rw [if_neg hmem, if_neg (by
          simp only [List.map_cons, List.mem_cons, not_or]; exact ⟨hne, hmem⟩)]
        rfl

theorem bindingsSet_ne_nil {β : Type} (l : List (String × β)) (k : String) (v : β) :
    bindingsSet l k v ≠ [] := by
  cases l with
  | nil => simp [bindingsSet]
  | cons b0 rest =>
    obtain ⟨k0, v0⟩ := b0
    unfold bindingsSet
    split <;> simp

theorem nodup_keys_bindingsSet {β : Type} (l : List (String × β)) (k : String) (v : β)
    (h : (l.map (fun b => b.1)).Nodup) : ((bindingsSet l k v).map (fun b => b.1)).Nodup := by
  rw [keys_bindingsSet]
  split
  · exact h
  · rename_i hmem
    rw [List.nodup_append]
    refine ⟨h, List.nodup_singleton k, ?_⟩
    intro a ha hk
    rw [List.mem_singleton] at hk
    exact hmem (hk ▸ ha)

theorem lookup_bindingsDelete_self {β : Type} (l : List (String × β)) (k : String) :
    (bindingsDelete l k).lookup k = none := by
  induction l with
  | nil => rfl
  | cons b rest ih =>
    obtain ⟨k0, v0⟩ := b
    unfold bindingsDelete at ih ⊢
    by_cases h : k0 = k
    · rw [List.filter_cons_of_neg (by simp [h])]
      exact ih
    · rw [List.filter_cons_of_pos (by simp [h])]
      have h' : (k == k0) = false := by simpa using fun e => h e.symm
      simp only [List.lookup, h']
      exact ih

theorem lookup_bindingsDelete_ne {β : Type} (l : List (String × β)) (k k' : String)
    (hne : k' ≠ k) : (bindingsDelete l k).lookup k' = l.lookup k' := by
  induction l with
  | nil => rfl
  | cons b rest ih =>
    obtain ⟨k0, v0⟩ := b
    unfold bindingsDelete at ih ⊢
    by_cases h : k0 = k
    · rw [List.filter_cons_of_neg (by simp [h])]
      have h' : (k' == k0) = false := by rw [h]; simpa using hne
      simp only [List.lookup, h']
      exact ih
    · rw [List.filter_cons_of_pos (by simp [h])]
      cases hk : (k' == k0) with
      | true => simp only [List.lookup, hk]
      | false =>
        simp only [List.lookup, hk]
        exact ih

theorem lookup_of_mem_nodup {β : Type} (l : List (String × β)) (b : String × β)
    (hb : b ∈ l) (hnd : (l.map (fun b => b.1)).Nodup) : l.lookup b.1 = some b.2 := by
  induction l with
  | nil => cases hb
  | cons b0 rest ih =>
    obtain ⟨k0, v0⟩ := b0
    rw [List.map_cons, List.nodup_cons] at hnd
    rcases List.mem_cons.mp hb with h1 | h1
    · subst h1
      simp [List.lookup]
    · have hne : (b.1 == k0) = false := by
        have : b.1 ≠ k0 := by
          intro e
          apply hnd.1
          rw [← e]
          exact List.mem_map_of_mem (fun b => b.1) h1
        simpa using this
      simp only [List.lookup, hne]
      exact ih h1 hnd.2

theorem mem_of_lookup {β : Type} (l : List (String × β)) (k : String) (v : β)
    (h : l.lookup k = some v) : (k, v) ∈ l := by
  induction l with
  | nil => cases h
  | cons b0 rest ih =>
    obtain ⟨k0, v0⟩ := b0
    cases hk : (k == k0) with
    | true =>
      simp only [List.lookup, hk] at h
      have hk' : k = k0 := by simpa using hk
      cases h
      rw [hk']
      exact List.mem_cons_self _ _
    | false =>
      simp only [List.lookup, hk] at h
      exact List.mem_cons_of_mem _ (ih h)

theorem presenceAt_add {ω κ : Type} (r : Resolver ω κ)
    (projectID userID userName email joinedAt : String) (p u : String) :
    presenceAt (addPresence r projectID userID userName email joinedAt) p u =
      if p = projectID ∧ u = userID then
        some { UserID := userID, UserName := userName, Email := email, JoinedAt := joinedAt,
               Status := PresenceStatus.Active }
      else presenceAt r p u := by
  unfold presenceAt addPresence
  by_cases hp : p = projectID
  · subst hp
    by_cases hu : u = userID
    · subst hu
      simp only [mapSet, if_true, and_self, lookup_bindingsSet_self]
    · simp only [mapSet, if_true, hu, and_false, if_false, lookup_bindingsSet_ne _ _ _ _ hu]
      cases r.projectPresence p <;> rfl
  · simp only [mapSet, hp, if_false, false_and]

theorem presenceAt_remove {ω κ : Type} (r : Resolver ω κ) (projectID userID : String)
    (p u : String) :
    presenceAt (removePresence r projectID userID) p u =
      if p = projectID ∧ u = userID then none else presenceAt r p u := by
  unfold removePresence
  cases hpres : r.projectPresence projectID with
  | none =>
    simp only
    split
    · rename_i h
      unfold presenceAt
      rw [h.1, hpres]
    · rfl
  | some users =>
    simp only
    by_cases hlen : (bindingsDelete users userID).length = 0
    · rw [if_pos hlen]
      have hnil : bindingsDelete users userID = [] := List.length_eq_zero.mp hlen
      by_cases hp : p = projectID
      · subst hp
        have h1 : presenceAt { r with projectPresence := mapDelete r.projectPresence p } p u =
            none := by simp [presenceAt, mapDelete]
        rw [h1]
        by_cases hu : u = userID
        · simp [hu]
        · simp only [hu, and_false, if_false]
          unfold presenceAt
          rw [hpres]
          simp only
          rw [← lookup_bindingsDelete_ne users userID u hu, hnil]
          rfl
      · simp only [hp, false_and, if_false]
        simp [presenceAt, mapDelete, hp]
    · rw [if_neg hlen]
      by_cases hp : p = projectID
      · subst hp
        have h1 : presenceAt
            { r with projectPresence := mapSet r.projectPresence p (bindingsDelete users userID) }
            p u = (bindingsDelete users userID).lookup u := by simp [presenceAt, mapSet]
        rw [h1]
        by_cases hu : u = userID
        · simp [hu, lookup_bindingsDelete_self]
        · simp only [hu, and_false, if_false]
          unfold presenceAt
          rw [hpres]
          exact lookup_bindingsDelete_ne users userID u hu
      · simp only [hp, false_and, if_false]
        simp [presenceAt, mapSet, hp]

theorem presenceInv_new (ω κ : Type) : PresenceInv (NewResolver ω κ) := by
  intro p users h
  cases h

theorem presenceInv_add {ω κ : Type} (r : Resolver ω κ)
    (projectID userID userName email joinedAt : String) (h : PresenceInv r) :
    PresenceInv (addPresence r projectID userID userName email joinedAt) := by
  intro p users hp
  unfold addPresence at hp
  simp only [mapSet] at hp
  by_cases hpe : p = projectID
  · rw [if_pos hpe] at hp
    cases hp
    cases hpres : r.projectPresence projectID with
    | none =>
      refine ⟨nodup_keys_bindingsSet _ _ _ (by simp), ?_, bindingsSet_ne_nil _ _ _⟩
      intro b hb
      rcases mem_bindingsSet _ _ _ b hb with h1 | h1
      · rw [h1]
      · cases h1
    | some old =>
      obtain ⟨hnd, hkey, _⟩ := h projectID old hpres
      refine ⟨nodup_keys_bindingsSet _ _ _ hnd, ?_, bindingsSet_ne_nil _ _ _⟩
      intro b hb
      rcases mem_bindingsSet _ _ _ b hb with h1 | h1
      · rw [h1]
      · exact hkey b h1
  · rw [if_neg hpe] at hp
    exact h p users hp

theorem presenceInv_remove {ω κ : Type} (r : Resolver ω κ) (projectID userID : String)
    (h : PresenceInv r) : PresenceInv (removePresence r projectID userID) := by
  intro p users hp
  unfold removePresence at hp
  cases hpres : r.projectPresence projectID with
  | none =>
    rw [hpres] at hp
    exact h p users hp
  | some old =>
    rw [hpres] at hp
    simp only at hp
    obtain ⟨hnd, hkey, _⟩ := h projectID old hpres
    by_cases hlen : (bindingsDelete old userID).length = 0
    · rw [if_pos hlen] at hp
      simp only [mapDelete] at hp
      by_cases hpe : p = projectID
      · rw [if_pos hpe] at hp
        cases hp
      · rw [if_neg hpe] at hp
        exact h p users hp
    · rw [if_neg hlen] at hp
      simp only [mapSet] at hp
      by_cases hpe : p = projectID
      · rw [if_pos hpe] at hp
        cases hp
        refine ⟨?_, ?_, ?_⟩
        · exact List.Nodup.sublist (List.Sublist.map _ (List.filter_sublist _)) hnd
        · intro b hb
          exact hkey b (List.mem_of_mem_filter hb)
        · intro hnil
          apply hlen
          rw [hnil]
          rfl
      · rw [if_neg hpe] at hp
        exact h p users hp

theorem presenceInv_run {ω κ : Type} (calls : List PresenceCall) :
    ∀ r : Resolver ω κ, PresenceInv r → PresenceInv (runPresence r calls) := by
  induction calls with
  | nil => intro r h; exact h
  | cons c rest ih =>
    intro r h
    unfold runPresence
    rw [List.foldl_cons]
    apply ih
    cases c with
    | add p u n e j => exact presenceInv_add r p u n e j h
    | remove p u => exact presenceInv_remove r p u h

theorem runPresence_expected {ω κ : Type} (projectID userID : String)
    (calls : List PresenceCall) :
    ∀ r : Resolver ω κ,
      (presenceAt (runPresence r calls) projectID userID).map userPresenceOf =
        calls.foldl (expectedStep projectID userID)
          ((presenceAt r projectID userID).map userPresenceOf) := by
  induction calls with
  | nil => intro r; rfl
  | cons c rest ih =>
    intro r
    unfold runPresence
    rw [List.foldl_cons, List.foldl_cons]
    have h := ih (PresenceCall.run r c)
    unfold runPresence at h
    rw [h]
    congr 1
    cases c with
    | add p u n e j =>
      simp only [PresenceCall.run, presenceAt_add, expectedStep]
      by_cases hc : projectID = p ∧ userID = u
      · have hc' : p = projectID ∧ u = userID := ⟨hc.1.symm, hc.2.symm⟩
        rw [if_pos hc, if_pos hc']
        rfl
      · have hc' : ¬ (p = projectID ∧ u = userID) := fun e => hc ⟨e.1.symm, e.2.symm⟩
        rw [if_neg hc, if_neg hc']
    | remove p u =>
      simp only [PresenceCall.run, presenceAt_remove, expectedStep]
      by_cases hc : projectID = p ∧ userID = u
      · have hc' : p = projectID ∧ u = userID := ⟨hc.1.symm, hc.2.symm⟩
        rw [if_pos hc, if_pos hc']
        rfl
      · have hc' : ¬ (p = projectID ∧ u = userID) := fun e => hc ⟨e.1.symm, e.2.symm⟩
        rw [if_neg hc, if_neg hc']

/-- Under the invariant, the presence list of a project holds a record exactly
when the record is the one stored for its user id. -/
theorem mem_getPresenceList {ω κ : Type} (r : Resolver ω κ) (projectID : String)
    (hinv : PresenceInv r) (x : UserPresence) :
    x ∈ getPresenceList r projectID ↔
      (presenceAt r projectID x.UserID).map userPresenceOf = some x := by
  unfold getPresenceList presenceAt
  cases hpres : r.projectPresence projectID with
  | none => simp
  | some users =>
    obtain ⟨hnd, hkey, _⟩ := hinv projectID users hpres
    simp only [List.mem_map, Option.map_eq_some']
    constructor
    · rintro ⟨b, hb, rfl⟩
      refine ⟨b.2, ?_, rfl⟩
      have h1 : (userPresenceOf b.2).UserID = b.1 := hkey b hb
      rw [h1]
      exact lookup_of_mem_nodup users b hb hnd
    · rintro ⟨info, hlook, rfl⟩
      exact ⟨(_, info), mem_of_lookup users _ info hlook, rfl⟩

theorem nodup_getPresenceList {ω κ : Type} (r : Resolver ω κ) (projectID : String)
    (hinv : PresenceInv r) :
    ((getPresenceList r projectID).map (fun x => x.UserID)).Nodup := by
  unfold getPresenceList
  cases hpres : r.projectPresence projectID with
  | none => simp
  | some users =>
    obtain ⟨hnd, hkey, _⟩ := hinv projectID users hpres
    simp only [List.map_map]
    have h : users.map ((fun x : UserPresence => x.UserID) ∘ fun b => userPresenceOf b.2) =
        users.map (fun b => b.1) := by
      apply List.map_congr_left
      intro b hb
      exact hkey b hb
    rw [h]
    exact hnd

/-- C23: `addPresence` stores for the user of the project an entry with the
given user name, email and join time and the status Active, whatever was
stored for that user; the entries of other users and of other projects, and
the four subscriber registries, are unchanged; the presence list of the
project then holds that entry, once, next to the entries it held for other
users; and after any sequence of `addPresence` and `removePresence` calls on
an empty hub the presence list of a project has no two entries with the same
user id and holds exactly, for each user, the data of the last `addPresence`
of that user when no `removePresence` of the user came after it. -/
theorem C23_add_presence {ω κ : Type} (r : Resolver ω κ)
    (projectID userID userName email joinedAt : String) (calls : List PresenceCall) :
    presenceAt (addPresence r projectID userID userName email joinedAt) projectID userID =
      some { UserID := userID, UserName := userName, Email := email, JoinedAt := joinedAt,
             Status := PresenceStatus.Active } ∧
    (∀ p u, ¬ (p = projectID ∧ u = userID) →
      presenceAt (addPresence r projectID userID userName email joinedAt) p u =
        presenceAt r p u) ∧
    (∀ p, p ≠ projectID →
      (addPresence r projectID userID userName email joinedAt).projectPresence p =
        r.projectPresence p) ∧
    ((addPresence r projectID userID userName email joinedAt).projectSubscribers =
        r.projectSubscribers ∧
      (addPresence r projectID userID userName email joinedAt).opsSubscribers =
        r.opsSubscribers ∧
      (addPresence r projectID userID userName email joinedAt).cursorSubscribers =
        r.cursorSubscribers ∧
      (addPresence r projectID userID userName email joinedAt).presenceSubscribers =
        r.presenceSubscribers) ∧
    (PresenceInv r →
      ((getPresenceList (addPresence r projectID userID userName email joinedAt)
        projectID).map (fun x => x.UserID)).Nodup ∧
      ∀ x : UserPresence,
        x ∈ getPresenceList (addPresence r projectID userID userName email joinedAt)
            projectID ↔
          x = { UserID := userID, UserName := userName, Email := email,
                Status := PresenceStatus.Active, JoinedAt := joinedAt } ∨
          (x ∈ getPresenceList r projectID ∧ x.UserID ≠ userID)) ∧
    (((getPresenceList (runPresence (NewResolver ω κ) calls) projectID).map
        (fun x => x.UserID)).Nodup ∧
      ∀ x : UserPresence,
        x ∈ getPresenceList (runPresence (NewResolver ω κ) calls) projectID ↔
          expectedPresence projectID x.UserID calls = some x) := by
  refine ⟨?_, ?_, ?_, ⟨rfl, rfl, rfl, rfl⟩, ?_, ?_, ?_⟩
  · rw [presenceAt_add, if_pos ⟨rfl, rfl⟩]
  · intro p u h
    rw [presenceAt_add, if_neg h]
  · intro p hp
    simp [addPresence, mapSet, hp]
  · intro hinv
    have hinv' := presenceInv_add r projectID userID userName email joinedAt hinv
    refine ⟨nodup_getPresenceList _ _ hinv', ?_⟩
    intro x
    rw [mem_getPresenceList _ _ hinv', mem_getPresenceList _ _ hinv, presenceAt_add]
    by_cases hu : x.UserID = userID
    · rw [if_pos ⟨rfl, hu⟩]
      constructor
      · intro h
        left
        simp only [Option.map_some', Option.some.injEq] at h
        exact h.symm
      · rintro (h | h)
        · rw [h]
          rfl
        · exact absurd hu h.2
    · rw [if_neg (fun e => hu e.2)]
      constructor
      · intro h
        exact Or.inr ⟨h, hu⟩
      · rintro (h | h)
        · exact absurd (by rw [h]) hu
        · exact h.1
  · exact nodup_getPresenceList _ _ (presenceInv_run calls _ (presenceInv_new ω κ))
  · intro x
    rw [mem_getPresenceList _ _ (presenceInv_run calls _ (presenceInv_new ω κ)),
      runPresence_expected]
    rfl

/-- C23 on the demo calls: Ann joins p1, Bob joins p1, Ann joins again with
other data; the list has one entry per user, in some order, and the entry of
Ann carries the data of her second call. -/
theorem C23_add_presence_witness :
    PresenceInv Demo.presenceHub ∧
    (getPresenceList Demo.presenceHub "p1").Perm
      [{ UserID := "u1", UserName := "Ann B", Email := "ann@y",
         Status := PresenceStatus.Active, JoinedAt := "t3" },
       { UserID := "u2", UserName := "Bob", Email := "bob@x",
         Status := PresenceStatus.Active, JoinedAt := "t2" }] ∧
    (((getPresenceList (addPresence Demo.presenceHub "p1" "u2" "Bob" "bob@z" "t4")
        "p1").map (fun x => x.UserID)).Nodup ∧
      ∀ x : UserPresence,
        x ∈ getPresenceList (addPresence Demo.presenceHub "p1" "u2" "Bob" "bob@z" "t4") "p1" ↔
          x = { UserID := "u2", UserName := "Bob", Email := "bob@z",
                Status := PresenceStatus.Active, JoinedAt := "t4" } ∨
          (x ∈ getPresenceList Demo.presenceHub "p1" ∧ x.UserID ≠ "u2")) :=
  ⟨presenceInv_run _ _ (presenceInv_new String String), List.Perm.refl _,
    (C23_add_presence Demo.presenceHub "p1" "u2" "Bob" "bob@z" "t4" []).2.2.2.2.1
      (presenceInv_run _ _ (presenceInv_new String String))⟩

/-- The presence list after a `removePresence` holds, in some order, the
entries of the list before it that belong to other users. -/
theorem getPresenceList_remove {ω κ : Type} (r : Resolver ω κ) (projectID userID : String)
    (hinv : PresenceInv r) :
    (getPresenceList (removePresence r projectID userID) projectID).Perm
      ((getPresenceList r projectID).filter (fun x => decide (x.UserID ≠ userID))) := by
  apply List.Perm.of_eq
  unfold getPresenceList removePresence
  cases hpres : r.projectPresence projectID with
  | none => simp [hpres]
  | some users =>
    obtain ⟨_, hkey, _⟩ := hinv projectID users hpres
    have hfilter : (users.map (fun b => userPresenceOf b.2)).filter
        (fun x => decide (x.UserID ≠ userID)) =
        (bindingsDelete users userID).map (fun b => userPresenceOf b.2) := by
      rw [List.filter_map]
      unfold bindingsDelete
      congr 1
      apply List.filter_congr
      intro b hb
      have h1 : (userPresenceOf b.2).UserID = b.1 := hkey b hb
      simp only [Function.comp, h1]
    simp only
    rw [hfilter]
    by_cases hlen : (bindingsDelete users userID).length = 0
    · rw [if_pos hlen, List.length_eq_zero.mp hlen]
      simp [mapDelete]
    · rw [if_neg hlen]
      simp [mapSet]

theorem removePresence_absent {ω κ : Type} (r : Resolver ω κ) (projectID userID : String)
    (hinv : PresenceInv r) (habs : presenceAt r projectID userID = none) :
    removePresence r projectID userID = r := by
  unfold removePresence
  cases hpres : r.projectPresence projectID with
  | none => rfl
  | some users =>
    obtain ⟨hnd, _, hne⟩ := hinv projectID users hpres
    have hsame : bindingsDelete users userID = users := by
      unfold bindingsDelete
      rw [List.filter_eq_self]
      intro b hb
      simp only [ne_eq, decide_eq_true_eq]
      intro hk
      have hl := lookup_of_mem_nodup users b hb hnd
      unfold presenceAt at habs
      rw [hpres] at habs
      simp only at habs
      rw [hk, habs] at hl
      cases hl
    simp only
    rw [hsame]
    have hlen : ¬ users.length = 0 := fun h => hne (List.length_eq_zero.mp h)
    rw [if_neg hlen]
    have hmap : mapSet r.projectPresence projectID users = r.projectPresence := by
      funext x
      unfold mapSet
      by_cases hx : x = projectID
      · rw [if_pos hx, hx, hpres]
      · rw [if_neg hx]
    rw [hmap]

/-- C24: on a hub that holds no empty per-project map and whose entries are
stored under their user ids, `removePresence` removes the entry of the user
in the project and leaves every other entry, the entries of other projects
and the four subscriber registries unchanged; the presence list of the project
holds, in some order, the entries it held for the other users; when no other
user is left the per-project map is deleted and the list is empty; when the
user or the project is absent the hub is unchanged; and afterwards the hub
again holds no empty per-project map. -/
theorem C24_remove_presence {ω κ : Type} (r : Resolver ω κ) (projectID userID : String)
    (hinv : PresenceInv r) :
    presenceAt (removePresence r projectID userID) projectID userID = none ∧
    (∀ p u, ¬ (p = projectID ∧ u = userID) →
      presenceAt (removePresence r projectID userID) p u = presenceAt r p u) ∧
    (∀ p, p ≠ projectID →
      (removePresence r projectID userID).projectPresence p = r.projectPresence p) ∧
    ((removePresence r projectID userID).projectSubscribers = r.projectSubscribers ∧
      (removePresence r projectID userID).opsSubscribers = r.opsSubscribers ∧
      (removePresence r projectID userID).cursorSubscribers = r.cursorSubscribers ∧
      (removePresence r projectID userID).presenceSubscribers = r.presenceSubscribers) ∧
    (getPresenceList (removePresence r projectID userID) projectID).Perm
      ((getPresenceList r projectID).filter (fun x => decide (x.UserID ≠ userID))) ∧
    ((∀ x ∈ getPresenceList r projectID, x.UserID = userID) →
      (removePresence r projectID userID).projectPresence projectID = none ∧
      getPresenceList (removePresence r projectID userID) projectID = []) ∧
    (presenceAt r projectID userID = none → removePresence r projectID userID = r) ∧
    (∀ p, (removePresence r projectID userID).projectPresence p ≠ some []) ∧
    PresenceInv (removePresence r projectID userID) := by
  have hinv' := presenceInv_remove r projectID userID hinv
  refine ⟨?_, ?_, ?_, ?_, getPresenceList_remove r projectID userID hinv, ?_,
    removePresence_absent r projectID userID hinv, ?_, hinv'⟩
  · rw [presenceAt_remove, if_pos ⟨rfl, rfl⟩]
  · intro p u h
    rw [presenceAt_remove, if_neg h]
  · intro p hp
    unfold removePresence
    cases r.projectPresence projectID with
    | none => rfl
    | some users =>
      simp only
      split <;> simp [mapDelete, mapSet, hp]
  · unfold removePresence
    cases r.projectPresence projectID with
    | none => exact ⟨rfl, rfl, rfl, rfl⟩
    | some users =>
      simp only
      split <;> exact ⟨rfl, rfl, rfl, rfl⟩
  · intro hall
    have hnone : (getPresenceList r projectID).filter
        (fun x => decide (x.UserID ≠ userID)) = [] := by
      rw [List.filter_eq_nil_iff]
      intro x hx
      simp [hall x hx]
    have hlist : getPresenceList (removePresence r projectID userID) projectID = [] := by
      have hperm := getPresenceList_remove r projectID userID hinv
      rw [hnone] at hperm
      exact hperm.eq_nil
    refine ⟨?_, hlist⟩
    cases hafter : (removePresence r projectID userID).projectPresence projectID with
    | none => rfl
    | some users =>
      exfalso
      apply (hinv' projectID users hafter).2.2
      unfold getPresenceList at hlist
      rw [hafter] at hlist
      exact List.map_eq_nil_iff.mp hlist
  · intro p h
    exact (hinv' p [] h).2.2 rfl

/-- C24 on the demo hub: Bob leaves p1, then Ann, the last user, leaves. -/
theorem C24_remove_presence_witness :
    PresenceInv Demo.presenceHub ∧
    (getPresenceList (removePresence Demo.presenceHub "p1" "u2") "p1").Perm
      [{ UserID := "u1", UserName := "Ann B", Email := "ann@y",
         Status := PresenceStatus.Active, JoinedAt := "t3" }] ∧
    (removePresence (removePresence Demo.presenceHub "p1" "u2") "p1" "u1").projectPresence
      "p1" = none ∧
    presenceAt (removePresence Demo.presenceHub "p1" "u2") "p1" "u2" = none :=
  ⟨presenceInv_run _ _ (presenceInv_new String String), List.Perm.refl _, rfl,
    (C24_remove_presence Demo.presenceHub "p1" "u2"
      (presenceInv_run _ _ (presenceInv_new String String))).1⟩

/-! ## C25: a failure of the Materializer -/

/-- The claim leaves the snapshot of every project as it was. -/
theorem findOneAndUpdate_elements (projID : ObjectID) (userID : String) (n : Int) (now : String)
    (projects : List Project) (q : Project) (ps : List Project)
    (h : findOneAndUpdate projID userID n now projects = some (q, ps)) :
    ps.map (fun p => p.Elements) = projects.map (fun p => p.Elements) := by
  induction projects generalizing q ps with
  | nil => cases h
  | cons p rest ih =>
    unfold findOneAndUpdate at h
    by_cases hm : matchesClaim projID userID p = true
    · rw [if_pos hm] at h
      cases h
      rfl
    · rw [if_neg hm] at h
      cases hrec : findOneAndUpdate projID userID n now rest with
      | none => rw [hrec] at h; cases h
      | some out =>
        obtain ⟨q', ps'⟩ := out
        rw [hrec] at h
        simp only [Option.some.injEq, Prod.mk.injEq] at h
        rw [← h.2, List.map_cons, List.map_cons, ih q' ps' hrec]

/-- When the Materializer returns an error: the read of the project fails, or
the replay ends and the write of the snapshot fails. -/
theorem applyOpsToElements_error_iff (env : Env) (ps : List Project) (projID : ObjectID)
    (acc : List Operation) (project : Project)
    (hproj : ps.find? (fun p => decide (p.ID = projID)) = some project) :
    (∃ e, applyOpsToElements env ps projID acc = .error e) ↔
      (env.findFault = true ∨
        ((applyAll applyOpMaterializer (loadElements (parseSnapshot project.Elements))
          acc).isSome = true ∧ env.updateFault = true)) := by
  unfold applyOpsToElements
  by_cases hf : env.findFault = true
  · simp [hf]
  · simp only [hf, if_false, hproj, false_or]
    cases applyAll applyOpMaterializer (loadElements (parseSnapshot project.Elements)) acc with
    | none => simp
    | some st =>
      by_cases hu : env.updateFault = true
      · simp [hu]
      · simp [hu]

/-- C25: when the sequence claim and the insert succeed, at least one op is
accepted and the Materializer returns an error, `ApplyOps` returns no error
but `Ack = true`, the claimed head and the full list of accepted ops; the
accepted ops are in the log, and the store holds the projects as the claim
left them, every snapshot as it was before the call. -/
theorem C25_materializer_failure (env : Env) (s : Store) (projectID socketID : String)
    (ops : List OpInput) (userID : String) (projID : ObjectID) (q : Project) (ps : List Project)
    (e : Err) (hne : ops ≠ []) (hid : ObjectIDFromHex projectID = some projID)
    (hclaim : env.claimFault = false)
    (hfind : findOneAndUpdate projID userID (ops.length : Int) env.now s.projects = some (q, ps))
    (hins : env.insertFault = none)
    (hacc : (batchOf env s projID socketID ops q).loop.acceptedOps ≠ [])
    (hfail : applyOpsToElements env ps projID
      (batchOf env s projID socketID ops q).loop.acceptedOps = .error e) :
    ApplyOps env s projectID socketID ops userID =
      (.ok { Ack := true, ServerSeq := q.HeadSeq,
             Rejected := (batchOf env s projID socketID ops q).loop.rejected,
             Accepted := (batchOf env s projID socketID ops q).loop.acceptedOps },
        { projects := ps,
          operations := s.operations ++ (batchOf env s projID socketID ops q).loop.acceptedOps }) ∧
    ps.map (fun p => p.Elements) = s.projects.map (fun p => p.Elements) := by
  refine ⟨?_, findOneAndUpdate_elements projID userID _ env.now s.projects q ps hfind⟩
  rw [ApplyOps_claimed env s projectID socketID ops userID projID q ps hne hid hclaim hfind]
  have hlen : (batchOf env s projID socketID ops q).loop.acceptedOps.length > 0 :=
    List.length_pos.mpr hacc
  simp only [hlen, if_true, hins, hfail]

/-- C25 on a fresh project: the read of the project by the Materializer fails
for the batch `[firstOp]`. -/
theorem C25_materializer_failure_witness :
    ApplyOps Demo.findFails Demo.store0 Demo.pid "20000002" [Demo.firstOp] "alice" =
      (.ok { Ack := true, ServerSeq := 1, Rejected := [],
             Accepted := [mkOperation Demo.projID "20000002" 1 "t" Demo.firstOp] },
        { projects := [{ Demo.project 0 with HeadSeq := 1, UpdatedAt := "t" }],
          operations := [mkOperation Demo.projID "20000002" 1 "t" Demo.firstOp] }) ∧
    [{ Demo.project 0 with HeadSeq := 1, UpdatedAt := "t" }].map (fun p => p.Elements) =
      Demo.store0.projects.map (fun p => p.Elements) :=
  C25_materializer_failure Demo.findFails Demo.store0 Demo.pid "20000002" [Demo.firstOp] "alice"
    Demo.projID { Demo.project 0 with HeadSeq := 1, UpdatedAt := "t" }
    [{ Demo.project 0 with HeadSeq := 1, UpdatedAt := "t" }] Err.storage
    (by decide) (by decide) rfl (by decide) rfl (by decide) (by decide)

/-! ## C26: the persisted sequence numbers -/

theorem ApplyOps_positive (env : Env) (s : Store) (projectID socketID : String)
    (ops : List OpInput) (userID : String) (hnd : (s.projects.map (fun p => p.ID)).Nodup)
    (hhead : ∀ p ∈ s.projects, 0 ≤ p.HeadSeq) (hseq : ∀ o ∈ s.operations, 1 ≤ o.Seq) :
    (∀ p ∈ (ApplyOps env s projectID socketID ops userID).2.projects, 0 ≤ p.HeadSeq) ∧
    (∀ o ∈ (ApplyOps env s projectID socketID ops userID).2.operations, 1 ≤ o.Seq) := by
  rcases ApplyOps_store_cases env s projectID socketID ops userID hnd with
    hsame | ⟨projID, q, k, _, _, ⟨p0, hp0, hp0id, hq⟩, hops, hprojects⟩
  · rw [hsame]
    exact ⟨hhead, hseq⟩
  · have hn : (0 : Int) ≤ (ops.length : Int) := Int.natCast_nonneg _
    have hbump : ∀ p ∈ s.projects.map (bumpHead projID (ops.length : Int) env.now),
        0 ≤ p.HeadSeq := by
      intro p hp
      obtain ⟨p1, hp1, rfl⟩ := List.mem_map.mp hp
      exact Int.le_trans (hhead p1 hp1) (bumpHead_head_le projID _ env.now p1 hn)
    constructor
    · rcases hprojects with h | ⟨text, h⟩
      · rw [h]
        exact hbump
      · rw [h]
        intro p hp
        obtain ⟨p1, hp1, rfl⟩ := List.mem_map.mp hp
        rw [setElements_head]
        exact hbump p1 hp1
    · rw [hops]
      intro o ho
      rcases List.mem_append.mp ho with h | h
      · exact hseq o h
      · have hmem := List.mem_of_mem_take h
        obtain ⟨i, _, hi⟩ := List.mem_filterMap.mp hmem
        rw [Batch.acceptedAt_seq _ i o hi]
        have hqhead : q.HeadSeq = p0.HeadSeq + (ops.length : Int) := by
          rw [hq]
          unfold bumpHead
          rw [if_pos hp0id]
        have hstart : (batchOf env s projID socketID ops q).startSeq = p0.HeadSeq + 1 := by
          show q.HeadSeq - (ops.length : Int) + 1 = p0.HeadSeq + 1
          rw [hqhead]
          omega
        rw [hstart]
        have := hhead p0 hp0
        omega

theorem runCalls_positive (cs : List Call) :
    ∀ s : Store, s.WellFormed → (∀ p ∈ s.projects, 0 ≤ p.HeadSeq) →
      (∀ o ∈ s.operations, 1 ≤ o.Seq) →
      (∀ p ∈ (runCalls s cs).projects, 0 ≤ p.HeadSeq) ∧
      (∀ o ∈ (runCalls s cs).operations, 1 ≤ o.Seq) := by
  induction cs with
  | nil => intro s _ h1 h2; exact ⟨h1, h2⟩
  | cons c rest ih =>
    intro s hwf h1 h2
    unfold runCalls
    rw [List.foldl_cons]
    have hstep := ApplyOps_positive c.env s c.projectID c.socketID c.ops c.userID hwf.1 h1 h2
    exact ih (Call.run s c)
      (ApplyOps_wellFormed c.env s c.projectID c.socketID c.ops c.userID hwf) hstep.1 hstep.2

/-- C26: in every store reached from projects with a head that is not negative
(in particular 0) and an empty log by `ApplyOps` calls, whatever fails during
them, the records of a project appear in the log with strictly increasing
seq, so their seqs are pairwise distinct, and each seq lies between 1 and the
`headSeq` of the project. -/
theorem C26_persisted_seqs (ps : List Project) (cs : List Call)
    (hnd : (ps.map (fun p => p.ID)).Nodup) (hhead : ∀ p ∈ ps, 0 ≤ p.HeadSeq)
    (projID : ObjectID) :
    (projectLog (runCalls { projects := ps, operations := [] } cs).operations projID).Pairwise
      (fun a b => a.Seq < b.Seq) ∧
    ((projectLog (runCalls { projects := ps, operations := [] } cs).operations projID).map
      (fun o => o.Seq)).Nodup ∧
    ∀ o ∈ projectLog (runCalls { projects := ps, operations := [] } cs).operations projID,
      ∃ p ∈ (runCalls { projects := ps, operations := [] } cs).projects,
        p.ID = projID ∧ 1 ≤ o.Seq ∧ o.Seq ≤ p.HeadSeq := by
  have hwf0 := wellFormed_init ps hnd
  have hwf := runCalls_wellFormed _ cs hwf0
  have hpos := runCalls_positive cs _ hwf0 hhead (fun o ho => by cases ho)
  have hinc : (projectLog (runCalls { projects := ps, operations := [] } cs).operations
      projID).Pairwise (fun a b => a.Seq < b.Seq) := by
    unfold projectLog
    refine List.Pairwise.imp_of_mem ?_ (List.Pairwise.filter _ hwf.2.2)
    intro a b ha hb hab
    have ha' := (List.mem_filter.mp ha).2
    have hb' := (List.mem_filter.mp hb).2
    simp only [decide_eq_true_eq] at ha' hb'
    exact hab (ha'.trans hb'.symm)
  refine ⟨hinc, ?_, ?_⟩
  · unfold List.Nodup
    rw [List.pairwise_map]
    exact hinc.imp (fun h => Int.ne_of_lt h)
  · intro o ho
    unfold projectLog at ho
    obtain ⟨hmem, hproj⟩ := List.mem_filter.mp ho
    simp only [decide_eq_true_eq] at hproj
    obtain ⟨p, hp, hpid, hle⟩ := hwf.2.1 o hmem
    exact ⟨p, hp, hpid.trans hproj, hpos.2 o hmem, hle⟩

/-- C26 on the two calls of the version scenario. -/
theorem C26_persisted_seqs_witness :
    (projectLog (runCalls { projects := [Demo.project 0], operations := [] }
        [Demo.createV5, Demo.updateV1]).operations Demo.projID).map (fun o => o.Seq) = [1, 2] ∧
    (projectLog (runCalls { projects := [Demo.project 0], operations := [] }
        [Demo.createV5, Demo.updateV1]).operations Demo.projID).Pairwise
      (fun a b => a.Seq < b.Seq) :=
  ⟨by decide,
    (C26_persisted_seqs [Demo.project 0] [Demo.createV5, Demo.updateV1] (by decide)
      (by decide) Demo.projID).1⟩

/-! ## C27: the snapshot text -/

/-- The snapshot text written for a list of elements: the array of the
elements, in their order, when there is at least one; the text `null` when
there is none. -/
theorem marshalElements_cases (els : List GoMap) :
    (els ≠ [] → marshalElements els = JsonText.array els) ∧
    (els = [] → marshalElements els = JsonText.null) := by
  unfold marshalElements
  constructor
  · intro h; rw [if_neg h]
  · intro h; rw [if_pos h]

/-- The snapshot `ReconstructStateAt` returns: the array of the elements of the
replayed state in insertion order, or `null` when the state has no element. -/
theorem ReconstructStateAt_snapshot (q : QueryEnv) (s : Store) (projectID : String) (seq : Int)
    (userID : String) (r : Reconstructed)
    (h : ReconstructStateAt q s projectID seq userID = .ok r) :
    ∃ projID st, ObjectIDFromHex projectID = some projID ∧ stateAt s projID seq = some st ∧
      ((collectElements st ≠ [] ∧ r.snapshot = JsonText.array (collectElements st)) ∨
        (collectElements st = [] ∧ r.snapshot = JsonText.null)) := by
  unfold ReconstructStateAt at h
  cases hid : ObjectIDFromHex projectID with
  | none => rw [hid] at h; cases h
  | some projID =>
    rw [hid] at h
    simp only at h
    by_cases h1 : q.findFault = true
    · rw [if_pos h1] at h; cases h
    · rw [if_neg h1] at h
      by_cases h2 : q.cursorFault = true
      · rw [if_pos h2] at h; cases h
      · rw [if_neg h2] at h
        cases hst : applyAll applyOpReconstruct ElemState.empty
            (findUpTo s.operations projID seq) with
        | none => rw [hst] at h; cases h
        | some st =>
          rw [hst] at h
          simp only [Outcome.ok.injEq] at h
          refine ⟨projID, st, rfl, hst, ?_⟩
          rw [← h]
          by_cases hel : collectElements st = []
          · exact Or.inr ⟨hel, (marshalElements_cases _).2 hel⟩
          · exact Or.inl ⟨hel, (marshalElements_cases _).1 hel⟩

/-- C27 (failing input): on a fresh project the batch `[ADD e1]` without data is
accepted and leaves no element; the Materializer then stores the text `null`
as the snapshot, and `ReconstructStateAt` returns `null` for that log and for
the empty log, where an empty array is expected. -/
theorem C27_empty_snapshot_is_null :
    ApplyOps Env.quiet Demo.store0 Demo.pid "20000002" [Demo.addNoData] "alice" =
      (.ok { Ack := true, ServerSeq := 1, Rejected := [],
             Accepted := [mkOperation Demo.projID "20000002" 1 "t" Demo.addNoData] },
        { projects := [{ Demo.project 0 with
                         HeadSeq := 1, Elements := JsonText.null, UpdatedAt := "t" }],
          operations := [mkOperation Demo.projID "20000002" 1 "t" Demo.addNoData] }) ∧
    ReconstructStateAt Demo.quietQuery
        (ApplyOps Env.quiet Demo.store0 Demo.pid "20000002" [Demo.addNoData] "alice").2
        Demo.pid 1 "alice" =
      .ok { snapshot := JsonText.null, lastSeq := 1, lastTimestamp := "t" } ∧
    ReconstructStateAt Demo.quietQuery Demo.store0 Demo.pid 0 "alice" =
      .ok { snapshot := JsonText.null, lastSeq := 0, lastTimestamp := "" } := by
  refine ⟨by decide, by decide, by decide⟩

/-! ## C28: a failure of the read of the latest records -/

/-- C28 (failing input): `e1` was last written at seq 5 with version 3; an op on
`e1` with base 4 and version 2 is rejected when the read of the latest
records succeeds; when the aggregation fails, or the decoding of its cursor
fails, `ApplyOps` returns no error, accepts the op and appends it to the
log. -/
theorem C28_read_failure_not_surfaced :
    (ApplyOps Env.quiet Demo.store5 Demo.pid "20000002" [Demo.staleOp] "bob").1 =
      .ok { Ack := true, ServerSeq := 6, Rejected := [Demo.staleRejection], Accepted := [] } ∧
    ApplyOps Demo.aggregateFails Demo.store5 Demo.pid "20000002" [Demo.staleOp] "bob" =
      (.ok { Ack := true, ServerSeq := 6, Rejected := [],
             Accepted := [mkOperation Demo.projID "20000002" 6 "t" Demo.staleOp] },
        { projects := [{ Demo.project 5 with
                         HeadSeq := 6, UpdatedAt := "t",
                         Elements := JsonText.array [some [("id", JVal.str "e1")]] }],
          operations := [Demo.opE1, mkOperation Demo.projID "20000002" 6 "t" Demo.staleOp] }) ∧
    ApplyOps Demo.cursorFails Demo.store5 Demo.pid "20000002" [Demo.staleOp] "bob" =
      ApplyOps Demo.aggregateFails Demo.store5 Demo.pid "20000002" [Demo.staleOp] "bob" := by
  refine ⟨by decide, by decide, by decide⟩

/-- Whatever the batch and the log, a failed read of the latest records leaves
the map of latest records empty, as if the log held nothing. -/
theorem readLatest_fault (env : Env) (operations : List Operation) (projID : ObjectID)
    (ops : List OpInput) (h : env.aggregateFault = true ∨ env.cursorFault = true) :
    readLatest env operations projID ops = fun _ => none := by
  unfold readLatest
  cases ha : env.aggregateFault <;> cases hc : env.cursorFault <;> simp_all

/-! ## C29: data that is absent or not an object -/

/-- The forward-apply step for an `ADD` or `UPDATE` whose data is absent or does
not decode leaves the element state unchanged, in both switches. -/
theorem applyData_undecoded (st : ElemState) (op : Operation)
    (htype : op.OpType = "ADD" ∨ op.OpType = "UPDATE")
    (hdata : op.Data = none ∨ ∃ d, op.Data = some d ∧ unmarshalObject d = none) :
    applyOpMaterializer st op = some st ∧ applyOpReconstruct st op = some st := by
  have h : applyData st op = st := by
    unfold applyData
    rcases hdata with h | ⟨d, h, hd⟩
    · rw [h]
    · rw [h]
      simp only [hd]
  unfold applyOpMaterializer applyOpReconstruct
  rcases htype with ht | ht
  · simp [ht, h]
  · simp [ht, h]

/-- The texts that do not decode into a map: everything but `null` and the
objects. -/
theorem unmarshalObject_none_iff (d : JsonText) :
    unmarshalObject d = none ↔ (∃ t, d = JsonText.raw t) ∨ (∃ items, d = JsonText.array items) := by
  cases d <;> simp [unmarshalObject]

/-- The loop over the batch does not read the data of an op: with the data
replaced, the op is rejected or accepted as before, with the same seq. -/
theorem processOp_data (projID : ObjectID) (socketID : String) (env : Env) (startSeq : Int)
    (st : LoopState) (i : Nat) (op : OpInput) (d : Option JsonText) :
    (processOp projID socketID env startSeq st i { op with Data := d }).latestOps =
      (processOp projID socketID env startSeq st i op).latestOps ∧
    (processOp projID socketID env startSeq st i { op with Data := d }).rejected =
      (processOp projID socketID env startSeq st i op).rejected ∧
    (processOp projID socketID env startSeq st i { op with Data := d }).acceptedOps.map
        (fun o => { o with Data := none }) =
      (processOp projID socketID env startSeq st i op).acceptedOps.map
        (fun o => { o with Data := none }) := by
  unfold processOp
  simp only
  cases st.latestOps op.ElementID with
  | none => simp [acceptOp, mkOperation]
  | some latest =>
    simp only
    split
    · exact ⟨rfl, rfl, rfl⟩
    · simp [acceptOp, mkOperation]

/-- C29 (failing input): an `ADD` whose data is the JSON text `null` is accepted
and appended like any other op, but its forward-apply step does change the
element state: the element is entered with a nil record, in both switches, so
the stored snapshot goes from empty to `[null]` and `ReconstructStateAt`
returns `[null]`; an `UPDATE` with data `null` replaces the record of an
existing element by nil. -/
theorem C29_null_data_changes_state :
    ApplyOps Env.quiet Demo.store0 Demo.pid "20000002" [Demo.addNull] "alice" =
      (.ok { Ack := true, ServerSeq := 1, Rejected := [],
             Accepted := [mkOperation Demo.projID "20000002" 1 "t" Demo.addNull] },
        { projects := [{ Demo.project 0 with
                         HeadSeq := 1, Elements := JsonText.array [none], UpdatedAt := "t" }],
          operations := [mkOperation Demo.projID "20000002" 1 "t" Demo.addNull] }) ∧
    ReconstructStateAt Demo.quietQuery
        (ApplyOps Env.quiet Demo.store0 Demo.pid "20000002" [Demo.addNull] "alice").2
        Demo.pid 1 "alice" =
      .ok { snapshot := JsonText.array [none], lastSeq := 1, lastTimestamp := "t" } ∧
    (∃ st, applyOpMaterializer ElemState.empty
        (mkOperation Demo.projID "20000002" 1 "t" Demo.addNull) = some st ∧
      st.elementOrder = ["e1"] ∧ st.elementMap "e1" = some none) ∧
    (∃ st, applyOpReconstruct Demo.twoElements
        (mkOperation Demo.projID "20000002" 2 "t" Demo.updateNull) = some st ∧
      Demo.twoElements.elementMap "e1" = some (some [("id", JVal.str "e1")]) ∧
      st.elementMap "e1" = some none) := by
  refine ⟨by decide, by decide, ⟨_, rfl, by decide, by decide⟩, ⟨_, rfl, by decide, by decide⟩⟩

/-! ## C1: the conflict rule and a failed read -/

/-- C1 (failing input): `e1` was last written at seq 5 with version 3, so for the
op with base 4 and version 2 a latest record exists with
`latest.seq > op.baseSeq` and `op.elementVer <= latest.elementVer`; the
sequence claim succeeds, the decoding of the aggregation cursor fails, and
`ApplyOps` accepts the op at seq 6 and appends it to the log, where the same
call with a successful read rejects it. -/
theorem C1_stale_op_accepted :
    LogLatest Demo.store5.operations Demo.projID "e1" ⟨5, 3, "UPDATE"⟩ ∧
    ((5 : Int) > Demo.staleOp.BaseSeq ∧ Demo.staleOp.ElementVer ≤ 3) ∧
    findOneAndUpdate Demo.projID "alice" 1 "t" Demo.store5.projects =
      some (Demo.claimed 1, [Demo.claimed 1]) ∧
    ApplyOps Demo.cursorFails Demo.store5 Demo.pid "30000003" [Demo.staleOp] "alice" =
      (.ok { Ack := true, ServerSeq := 6, Rejected := [],
             Accepted := [mkOperation Demo.projID "30000003" 6 "t" Demo.staleOp] },
        { projects := [{ Demo.project 5 with
                         HeadSeq := 6, UpdatedAt := "t",
                         Elements := JsonText.array [some [("id", JVal.str "e1")]] }],
          operations := [Demo.opE1, mkOperation Demo.projID "30000003" 6 "t" Demo.staleOp] }) ∧
    (ApplyOps Env.quiet Demo.store5 Demo.pid "30000003" [Demo.staleOp] "alice").1 =
      .ok { Ack := true, ServerSeq := 6, Rejected := [Demo.staleRejection], Accepted := [] } := by
  refine ⟨⟨Demo.opE1, List.mem_singleton_self _, rfl, rfl, ?_, rfl⟩, by decide, by decide,
    by decide, by decide⟩
  intro r' hr' _ _
  have h : r' = Demo.opE1 := List.mem_singleton.mp hr'
  rw [h]

end CollabDraw
